import Mathlib

/-!
# orbstack-mcp: the tools of the server over the Docker command line

A shallow embedding of `tools/log_diff.go`, `tools/search_logs.go`, `tools/get_logs.go`,
`tools/list_containers.go`, `tools/container_health.go`, `tools/container_events.go`,
`tools/container_inspect.go`, `tools/compose_logs.go` and `tools/compose_up_down.go`.

* Go strings are modelled as lists of Unicode code points (`List Char`); the
  byte order used by `sort.Strings` coincides with the code-point order on
  well-formed UTF-8.
* Go `int` is modelled as `Int` with explicit 64-bit wrap-around (`wrapInt`).
* A Go `map[string]int` is modelled as an association list with unique keys;
  the iteration order of a map is a parameter of the loops that range over it.
* A run-time panic (slice index out of range) is modelled as `none`.
* The standard-library functions `regexp.Compile`, `json.Unmarshal`, `json.MarshalIndent`
  and the verb `%q` are parameters of the functions that call them.
* The executor is a pair of state-passing functions; `recording` adds the list of the
  commands it has been given, which states how often and with what a tool invokes it.
-/

namespace OrbstackMcp

/-! ## Standard-library functions used by the tools -/

/-- Go strings as sequences of code points. -/
abbrev GoString := List Char

/-- Go `unicode.IsSpace`: the Latin-1 spaces and the Unicode White_Space code points. -/
def isSpace (c : Char) : Bool :=
  let n := c.toNat
  n = 0x09 || n = 0x0A || n = 0x0B || n = 0x0C || n = 0x0D || n = 0x20 ||
  n = 0x85 || n = 0xA0 || n = 0x1680 || (0x2000 ≤ n && n ≤ 0x200A) ||
  n = 0x2028 || n = 0x2029 || n = 0x202F || n = 0x205F || n = 0x3000

/-- Go `strings.TrimSpace`: drop leading and trailing white space. -/
def TrimSpace (s : GoString) : GoString :=
  ((s.dropWhile isSpace).reverse.dropWhile isSpace).reverse

/-- Go `strings.Split(text, "\n")`: the pieces between newlines; always at least one piece. -/
def Split : GoString → List GoString
  | [] => [[]]
  | c :: cs =>
    if c = '\n' then [] :: Split cs
    else
      match Split cs with
      | [] => [[c]]
      | l :: ls => (c :: l) :: ls

/-- Go `strings.Split(s, sep)` for a one-character separator: the pieces between the
separators; always at least one piece. -/
def SplitOn (sep : Char) : GoString → List GoString
  | [] => [[]]
  | c :: cs =>
    if c = sep then [] :: SplitOn sep cs
    else
      match SplitOn sep cs with
      | [] => [[c]]
      | l :: ls => (c :: l) :: ls

/-- Go `strings.SplitN(s, sep, 2)` for a one-character separator: the text before and after
the first separator, or the text alone when it has none. -/
def SplitN2 (sep : Char) (s : GoString) : List GoString :=
  if sep ∈ s then [s.takeWhile (fun c => c ≠ sep), (s.dropWhile (fun c => c ≠ sep)).drop 1]
  else [s]

/-- Go `strings.TrimRight(s, "\n")`: drop every trailing newline. -/
def TrimRightNewline (s : GoString) : GoString :=
  (s.reverse.dropWhile (fun c => c = '\n')).reverse

/-- Go `strings.Join(args, " ")`. -/
def Join : List GoString → GoString
  | [] => []
  | [a] => a
  | a :: rest => a ++ " ".toList ++ Join rest

/-- Go `strings.Join(elems, sep)`. -/
def JoinSep (sep : GoString) : List GoString → GoString
  | [] => []
  | [a] => a
  | a :: rest => a ++ sep ++ JoinSep sep rest

/-- Go `%d` for a non-negative count: the decimal digits. -/
def fmtInt (n : Nat) : GoString := Nat.toDigits 10 n

/-- Go `strconv.Itoa` and the verb `%d`: the decimal digits, after a minus sign for a
negative number. -/
def Itoa (n : Int) : GoString :=
  if n < 0 then '-' :: fmtInt n.natAbs else fmtInt n.toNat

/-- Go `%-Ns`: the string padded with spaces on the right up to `width` characters. -/
def padRight (width : Nat) (s : GoString) : GoString :=
  s ++ List.replicate (width - s.length) ' '

/-- Go `sort.Strings`: the ascending rearrangement of the slice. -/
def sortStrings (xs : List GoString) : List GoString :=
  List.insertionSort (fun a b => a ≤ b) xs

/-! ## The type `map[string]int` -/

/-- A Go `map[string]int`, as an association list. -/
abbrev CountMap := List (GoString × Nat)

/-- Map lookup `m[k]`: the zero value when the key is absent. -/
def CountMap.get : CountMap → GoString → Nat
  | [], _ => 0
  | (k', v) :: rest, k => if k' = k then v else CountMap.get rest k

/-- The statement `m[k]++`. -/
def CountMap.incr : CountMap → GoString → CountMap
  | [], k => [(k, 1)]
  | (k', v) :: rest, k => if k' = k then (k', v + 1) :: rest else (k', v) :: CountMap.incr rest k

/-- The keys of the map, in the order `range` is taken to visit them. -/
def CountMap.keys (m : CountMap) : List GoString := m.map Prod.fst

/-! ## The files `docker/executor.go` and `docker/mock.go` -/

/-- The `docker.Executor` interface: `Exec` returns the standard output of a command,
`ExecCombined` its combined output, and either may fail with an error message; the state `σ`
stands for the outside world. -/
structure Executor (σ : Type) where
  Exec : σ → List GoString → Except GoString GoString × σ
  ExecCombined : σ → List GoString → Except GoString GoString × σ

/-- The test double `docker.Mock`: the recorded calls and the registered results, keyed by
the joined arguments. A result is an output or an error message. -/
structure Mock where
  calls : List (List GoString)
  results : List (GoString × Except GoString GoString)

/-- The constructor `NewMock`: no calls, no results. -/
def NewMock : Mock := ⟨[], []⟩

/-- The method `Mock.On`: register (or replace) the result of a command. -/
def Mock.On (m : Mock) (args : GoString) (result : Except GoString GoString) : Mock :=
  { m with results := (args, result) :: m.results.filter (fun kv => kv.1 ≠ args) }

/-- The method `Mock.exec`: record the call and answer with the registered result, or with an error
for a command that was not registered. -/
def Mock.exec (m : Mock) (args : List GoString) : Except GoString GoString × Mock :=
  let m1 : Mock := { m with calls := m.calls ++ [args] }
  match m.results.lookup (Join args) with
  | some r => (r, m1)
  | none => (.error ("unexpected docker command: docker ".toList ++ Join args), m1)

/-- The mock as an `Executor`, its own value being the state. -/
def mockExecutor : Executor Mock := ⟨Mock.exec, Mock.exec⟩

/-- An executor that, besides running `exec`, records the argument list of every
invocation, as `docker.Mock` does in its `calls`. -/
def recording {σ : Type} (exec : Executor σ) : Executor (σ × List (List GoString)) where
  Exec st args := ((exec.Exec st.1 args).1, ((exec.Exec st.1 args).2, st.2 ++ [args]))
  ExecCombined st args :=
    ((exec.ExecCombined st.1 args).1, ((exec.ExecCombined st.1 args).2, st.2 ++ [args]))

/-! ## The file `tools/log_diff.go` -/

/-- The argument record of the `log_diff` tool. -/
structure logDiffArgs where
  Container : GoString
  Period1Start : GoString
  Period1End : GoString
  Period2Start : GoString
  Period2End : GoString

/-- The function `fetchLogs`: `docker logs --since <since> --until <until> <container>`. -/
def fetchLogs {σ : Type} (exec : Executor σ) (s : σ) (container since until_ : GoString) :
    Except GoString GoString × σ :=
  exec.ExecCombined s ["logs".toList, "--since".toList, since, "--until".toList, until_, container]

/-- One iteration of the loop of `countLines`. -/
def countLinesStep (counts : CountMap) (line : GoString) : CountMap :=
  let line := TrimSpace line
  if line = [] then counts else counts.incr line

/-- The function `countLines`: occurrence counts of the trimmed, non-blank lines of a text. -/
def countLines (text : GoString) : CountMap :=
  (Split text).foldl countLinesStep []

/-- The set `allLines` (a `map[string]struct{}`): insertion of one key. -/
def setInsert (s : List GoString) (k : GoString) : List GoString :=
  if k ∈ s then s else s ++ [k]

/-- The key set `allLines` built from both count maps. -/
def allLines (counts1 counts2 : CountMap) : List GoString :=
  counts2.keys.foldl setInsert (counts1.keys.foldl setInsert [])

/-- The four slices filled by the classification loop. -/
structure Partitions where
  onlyIn1 : List GoString
  onlyIn2 : List GoString
  changed : List GoString
  common : List GoString
deriving DecidableEq

/-- The entry `fmt.Sprintf("  %s (period1: %dx, period2: %dx)", line, c1, c2)`. -/
def fmtChanged (line : GoString) (c1 c2 : Nat) : GoString :=
  "  ".toList ++ line ++ " (period1: ".toList ++ fmtInt c1 ++ "x, period2: ".toList ++
    fmtInt c2 ++ "x)".toList

/-- The body of the classification loop (the `switch`) for one line. -/
def classifyLine (counts1 counts2 : CountMap) (acc : Partitions) (line : GoString) :
    Partitions :=
  let c1 := counts1.get line
  let c2 := counts2.get line
  if c1 > 0 ∧ c2 = 0 then { acc with onlyIn1 := acc.onlyIn1 ++ [line] }
  else if c1 = 0 ∧ c2 > 0 then { acc with onlyIn2 := acc.onlyIn2 ++ [line] }
  else if c1 ≠ c2 then { acc with changed := acc.changed ++ [fmtChanged line c1 c2] }
  else { acc with common := acc.common ++ [line] }

/-- The classification loop `for line := range allLines`, visiting the keys in the order
`iter`, followed by the four `sort.Strings` calls. -/
def classify (counts1 counts2 : CountMap) (iter : List GoString) : Partitions :=
  let p := iter.foldl (classifyLine counts1 counts2) ⟨[], [], [], []⟩
  ⟨sortStrings p.onlyIn1, sortStrings p.onlyIn2, sortStrings p.changed, sortStrings p.common⟩

/-- The four sorted partitions computed by `handleLogDiff` from the two fetched texts. -/
def diffLogs (logs1 logs2 : GoString) : Partitions :=
  classify (countLines logs1) (countLines logs2) (allLines (countLines logs1) (countLines logs2))

/-- A section body whose entries are written with `fmt.Sprintf("  %s\n", line)`. -/
def writeIndented (entries : List GoString) : GoString :=
  if entries.length = 0 then "  (none)\n".toList
  else (entries.map (fun line => "  ".toList ++ line ++ "\n".toList)).flatten

/-- The body of the count-changes section, whose entries are written as `line + "\n"`. -/
def writeChanged (entries : List GoString) : GoString :=
  if entries.length = 0 then "  (none)\n".toList
  else (entries.map (fun line => line ++ "\n".toList)).flatten

/-- The report written to the `strings.Builder` of `handleLogDiff`. -/
def renderReport (args : logDiffArgs) (p : Partitions) : GoString :=
  ("=== Log Diff: ".toList ++ args.Container ++ " ===\n".toList) ++
  ("Period 1: ".toList ++ args.Period1Start ++ " to ".toList ++ args.Period1End ++ "\n".toList) ++
  ("Period 2: ".toList ++ args.Period2Start ++ " to ".toList ++ args.Period2End ++
    "\n\n".toList) ++
  "--- Only in Period 1 ---\n".toList ++
  writeIndented p.onlyIn1 ++
  "\n--- Only in Period 2 ---\n".toList ++
  writeIndented p.onlyIn2 ++
  "\n--- Count Changes ---\n".toList ++
  writeChanged p.changed ++
  "\n--- Common (unchanged) ---\n".toList ++
  writeIndented p.common

/-- The function `handleLogDiff`: fetch both periods, then diff and render; an error is its message. -/
def handleLogDiff {σ : Type} (exec : Executor σ) (s : σ) (args : logDiffArgs) :
    Except GoString GoString × σ :=
  match fetchLogs exec s args.Container args.Period1Start args.Period1End with
  | (.error err, s1) => (.error ("failed to fetch period 1 logs: ".toList ++ err), s1)
  | (.ok logs1, s1) =>
    match fetchLogs exec s1 args.Container args.Period2Start args.Period2End with
    | (.error err, s2) => (.error ("failed to fetch period 2 logs: ".toList ++ err), s2)
    | (.ok logs2, s2) => (.ok (renderReport args (diffLogs logs1 logs2)), s2)

/-! ## The file `tools/search_logs.go` -/

/-- Go `int` arithmetic on a 64-bit platform: a result wraps around into `[-2^63, 2^63)`. -/
def wrapInt (x : Int) : Int :=
  (x + 9223372036854775808) % 18446744073709551616 - 9223372036854775808

/-- The local type `lineRange` of `formatWithContext`; `end_` is inclusive. -/
structure lineRange where
  start : Int
  end_ : Int
deriving DecidableEq

/-- The body of the first loop of `formatWithContext`: the clamped range around one match
index, for a slice of `n` lines. -/
def contextRange (n : Nat) (contextLines : Int) (idx : Int) : lineRange :=
  let start := wrapInt (idx - contextLines)
  let start := if start < 0 then 0 else start
  let end_ := wrapInt (idx + contextLines)
  let end_ := if end_ ≥ (n : Int) then wrapInt ((n : Int) - 1) else end_
  ⟨start, end_⟩

/-- The slice `ranges` built by the first loop. -/
def buildRanges (lines : List GoString) (matchIndices : List Int) (contextLines : Int) :
    List lineRange :=
  matchIndices.map (contextRange lines.length contextLines)

/-- One iteration of the merge loop. The slice `merged` is never empty and is kept as the
pair of its elements before the last and its last element, the one `last` points to. -/
def mergeStep (merged : List lineRange × lineRange) (r : lineRange) :
    List lineRange × lineRange :=
  if r.start ≤ wrapInt (merged.2.end_ + 1) then
    if r.end_ > merged.2.end_ then (merged.1, { merged.2 with end_ := r.end_ })
    else merged
  else (merged.1 ++ [merged.2], r)

/-- The merge loop `for i := 1; i < len(ranges); i++` over the ranges after the first,
started from a given value of `merged`. -/
def mergeLoop (rest : List lineRange) (merged : List lineRange × lineRange) :
    List lineRange × lineRange :=
  rest.foldl mergeStep merged

/-- The slice `merged` after the merge loop; reading `ranges[0]` of an empty slice
panics. -/
def mergeRanges : List lineRange → Option (List lineRange)
  | [] => none
  | r0 :: rest =>
    let m := mergeLoop rest ([], r0)
    some (m.1 ++ [m.2])

/-- The values taken by `i` in `for i := r.start; i <= r.end; i++`. -/
def loopIndices (r : lineRange) : List Int :=
  (List.range (r.end_ + 1 - r.start).toNat).map (fun (k : Nat) => r.start + (k : Int))

/-- The slice access `lines[i]`, which panics outside `0 ≤ i < len(lines)`. -/
def lineAt (lines : List GoString) (i : Int) : Option GoString :=
  if i < 0 then none else lines.get? i.toNat

/-- The marker written before a line: `"> "` when `matchSet[i]`, else two blanks. -/
def marker (matchIndices : List Int) (i : Int) : GoString :=
  if i ∈ matchIndices then "> ".toList else "  ".toList

/-- The text written for line `i` by the inner loop. -/
def writeLine (lines : List GoString) (matchIndices : List Int) (i : Int) : Option GoString :=
  match lineAt lines i with
  | none => none
  | some line => some (marker matchIndices i ++ line ++ "\n".toList)

/-- The text written by the inner loop over the given indices. -/
def writeLines (lines : List GoString) (matchIndices : List Int) : List Int → Option GoString
  | [] => some []
  | i :: rest =>
    match writeLine lines matchIndices i, writeLines lines matchIndices rest with
    | some a, some b => some (a ++ b)
    | _, _ => none

/-- The text written by the outer loop from group number `ri` on: a separator before every
group but the first, then the lines of the group. -/
def writeGroups (lines : List GoString) (matchIndices : List Int) :
    Nat → List lineRange → Option GoString
  | _, [] => some []
  | ri, r :: rest =>
    match writeLines lines matchIndices (loopIndices r),
        writeGroups lines matchIndices (ri + 1) rest with
    | some a, some b => some ((if ri > 0 then "--\n".toList else []) ++ a ++ b)
    | _, _ => none

/-- The function `formatWithContext`; `none` stands for a run-time panic. -/
def formatWithContext (lines : List GoString) (matchIndices : List Int) (contextLines : Int) :
    Option GoString :=
  match mergeRanges (buildRanges lines matchIndices contextLines) with
  | none => none
  | some merged => (writeGroups lines matchIndices 0 merged).map TrimRightNewline

/-- The line indices visited by the two nested output loops, in output order. -/
def emittedIndices (lines : List GoString) (matchIndices : List Int) (contextLines : Int) :
    List Int :=
  match mergeRanges (buildRanges lines matchIndices contextLines) with
  | none => []
  | some merged => (merged.map loopIndices).flatten

/-- The argument record of the `search_logs` tool. -/
structure searchLogsArgs where
  Container : GoString
  Pattern : GoString
  Tail : Int
  Since : GoString
  Timestamps : Bool
  ContextLines : Int

/-- The loop that collects `matchIndices`: the indices, counted from `i`, of the lines the
compiled pattern matches. -/
def findMatches (MatchString : GoString → Bool) : List GoString → Int → List Int
  | [], _ => []
  | line :: rest, i =>
    if MatchString line then i :: findMatches MatchString rest (i + 1)
    else findMatches MatchString rest (i + 1)

/-- The loop that collects `matchedLines`: the slice accesses `lines[idx]`. -/
def collectLines (lines : List GoString) : List Int → Option (List GoString)
  | [] => some []
  | idx :: rest =>
    match lineAt lines idx, collectLines lines rest with
    | some line, some more => some (line :: more)
    | _, _ => none

/-- The command line built by `handleSearchLogs`. -/
def searchLogsCommand (args : searchLogsArgs) : List GoString :=
  ["logs".toList, "--tail".toList, Itoa (if args.Tail ≤ 0 then 1000 else args.Tail)] ++
  (if args.Since ≠ [] then ["--since".toList, args.Since] else []) ++
  (if args.Timestamps then ["--timestamps".toList] else []) ++
  [args.Container]

/-- The part of `handleSearchLogs` that follows a successful fetch (lines 57 to 87): the
answer for the fetched output; `none` stands for a run-time panic. `Quote` is the verb `%q`
and `MatchString` the method of the compiled pattern. -/
def searchOutput (Quote : GoString → GoString) (MatchString : GoString → Bool)
    (args : searchLogsArgs) (output : GoString) : Option GoString :=
  if output = [] then some "No log output.".toList
  else
    let lines := Split (TrimRightNewline output)
    let matchIndices := findMatches MatchString lines 0
    if matchIndices.length = 0 then
      some ("No matches found for pattern ".toList ++ Quote args.Pattern ++ " in ".toList ++
        Itoa lines.length ++ " log lines.".toList)
    else
      let header := "Found ".toList ++ Itoa matchIndices.length ++
        " matches for pattern ".toList ++ Quote args.Pattern ++ ":\n\n".toList
      if args.ContextLines > 0 then
        (formatWithContext lines matchIndices args.ContextLines).map (fun r => header ++ r)
      else
        (collectLines lines matchIndices).map (fun ls => header ++ JoinSep "\n".toList ls)

/-- The function `handleSearchLogs`. `Compile` is `regexp.Compile`, giving the method
`MatchString` of the compiled pattern or an error message; `Quote` is the verb `%q`.
The result is `none` for a run-time panic. -/
def handleSearchLogs {σ : Type} (Compile : GoString → Except GoString (GoString → Bool))
    (Quote : GoString → GoString) (exec : Executor σ) (s : σ) (args : searchLogsArgs) :
    Option (Except GoString GoString × σ) :=
  if args.Container = [] then some (.error "container name or ID is required".toList, s)
  else if args.Pattern = [] then some (.error "pattern is required".toList, s)
  else
    match Compile args.Pattern with
    | .error err =>
      some (.error ("invalid regex pattern ".toList ++ Quote args.Pattern ++ ": ".toList ++ err), s)
    | .ok re =>
      match exec.ExecCombined s (searchLogsCommand args) with
      | (.error err, s1) =>
        some (.error ("failed to get logs for container ".toList ++ Quote args.Container ++
          ": ".toList ++ err), s1)
      | (.ok output, s1) =>
        (searchOutput Quote re args output).map (fun text => (.ok text, s1))

/-! ## The file `tools/get_logs.go` -/

/-- The argument record of the `get_logs` tool. -/
structure getLogsArgs where
  Container : GoString
  Tail : Int
  Since : GoString
  Until : GoString
  Timestamps : Bool

/-- The command line built by `handleGetLogs`. -/
def getLogsCommand (args : getLogsArgs) : List GoString :=
  ["logs".toList, "--tail".toList, Itoa (if args.Tail ≤ 0 then 100 else args.Tail)] ++
  (if args.Since ≠ [] then ["--since".toList, args.Since] else []) ++
  (if args.Until ≠ [] then ["--until".toList, args.Until] else []) ++
  (if args.Timestamps then ["--timestamps".toList] else []) ++
  [args.Container]

/-- The function `handleGetLogs`; `Quote` is the verb `%q`. -/
def handleGetLogs {σ : Type} (Quote : GoString → GoString) (exec : Executor σ) (s : σ)
    (args : getLogsArgs) : Except GoString GoString × σ :=
  if args.Container = [] then (.error "container name or ID is required".toList, s)
  else
    match exec.ExecCombined s (getLogsCommand args) with
    | (.error err, s1) =>
      (.error ("failed to get logs for container ".toList ++ Quote args.Container ++
        ": ".toList ++ err), s1)
    | (.ok output, s1) =>
      if output = [] then (.ok "No log output.".toList, s1) else (.ok output, s1)

/-! ## The file `tools/list_containers.go` -/

/-- The argument record of the `list_containers` tool. -/
structure listContainersArgs where
  All : Bool
  Project : GoString

/-- A single container from the JSON output of `docker ps`. -/
structure containerInfo where
  ID : GoString
  Names : GoString
  Image : GoString
  State : GoString
  Status : GoString
  Ports : GoString
  Labels : GoString
  CreatedAt : GoString
  Networks : GoString
deriving DecidableEq

/-- The loop of `composeProject` over the comma-separated labels: the value of the first
label whose key is `com.docker.compose.project`, the empty string when there is none. -/
def composeProjectLoop : List GoString → GoString
  | [] => []
  | label :: rest =>
    let parts := SplitN2 '=' label
    if parts.length = 2 ∧ parts.getD 0 [] = "com.docker.compose.project".toList then
      parts.getD 1 []
    else composeProjectLoop rest

/-- The method `composeProject`. -/
def containerInfo.composeProject (c : containerInfo) : GoString :=
  composeProjectLoop (SplitOn ',' c.Labels)

/-- A Go `map[string][]containerInfo`, as an association list. -/
abbrev GroupMap := List (GoString × List containerInfo)

/-- Map lookup `groups[k]`: the nil slice when the key is absent. -/
def GroupMap.get : GroupMap → GoString → List containerInfo
  | [], _ => []
  | (k', v) :: rest, k => if k' = k then v else GroupMap.get rest k

/-- The statement `groups[k] = append(groups[k], c)`. -/
def GroupMap.append : GroupMap → GoString → containerInfo → GroupMap
  | [], k, c => [(k, [c])]
  | (k', v) :: rest, k, c =>
    if k' = k then (k', v ++ [c]) :: rest else (k', v) :: GroupMap.append rest k c

/-- The keys of the map, in the order `range` is taken to visit them. -/
def GroupMap.keys (m : GroupMap) : List GoString := m.map Prod.fst

/-- The command line built by `handleListContainers`. -/
def listContainersCommand (args : listContainersArgs) : List GoString :=
  ["ps".toList] ++ (if args.All then ["-a".toList] else []) ++
    ["--format".toList, "\x7b\x7bjson .\x7d\x7d".toList]

/-- The parsing loop: every non-blank line is decoded by `json.Unmarshal` into a container;
the first line that fails to decode ends the loop with an error. -/
def parseContainers (Unmarshal : GoString → Except GoString containerInfo) :
    List GoString → Except GoString (List containerInfo)
  | [] => .ok []
  | line :: rest =>
    if TrimSpace line = [] then parseContainers Unmarshal rest
    else
      match Unmarshal (TrimSpace line) with
      | .error err => .error ("failed to parse container JSON: ".toList ++ err)
      | .ok c =>
        match parseContainers Unmarshal rest with
        | .error err => .error err
        | .ok containers => .ok (c :: containers)

/-- One turn of the grouping loop. -/
def groupStep (Project : GoString) (groups : GroupMap) (c : containerInfo) : GroupMap :=
  let project := c.composeProject
  if Project ≠ [] ∧ project ≠ Project then groups
  else
    let project := if project = [] then "(standalone)".toList else project
    groups.append project c

/-- The grouping loop of `handleListContainers`. -/
def groupContainers (Project : GoString) (containers : List containerInfo) : GroupMap :=
  containers.foldl (groupStep Project) []

/-- The comparison given to `sort.Slice`. -/
def groupLess (a b : GoString) : Bool :=
  if a = "(standalone)".toList then false
  else if b = "(standalone)".toList then true
  else decide (a < b)

/-- The call of `sort.Slice` on the group names: the rearrangement in which no name is less
than a name before it. -/
def sortGroupNames (names : List GoString) : List GoString :=
  List.insertionSort (fun a b => groupLess b a = false) names

/-- The row written for a container. -/
def formatContainerRow (c : containerInfo) : GoString :=
  "  ".toList ++ padRight 15 c.Names ++ " ".toList ++ padRight 25 c.Image ++ " ".toList ++
    padRight 10 c.State ++ " ".toList ++ c.Status ++ "\n".toList

/-- The header of a group and the rows of its containers. -/
def groupBlock (groupName : GoString) (containers : List containerInfo) : GoString :=
  "=== ".toList ++ groupName ++ " ===\n".toList ++ (containers.map formatContainerRow).flatten

/-- The output loop over the group names; `gi` is the number of the first group. -/
def writeContainerGroups (groups : GroupMap) : Nat → List GoString → GoString
  | _, [] => []
  | gi, groupName :: rest =>
    (if gi > 0 then "\n".toList else []) ++ groupBlock groupName (groups.get groupName) ++
      writeContainerGroups groups (gi + 1) rest

/-- The part of `handleListContainers` after the parsing loop: grouping, sorting and
writing. -/
def listContainersText (Quote : GoString → GoString) (Project : GoString)
    (containers : List containerInfo) : GoString :=
  let groups := groupContainers Project containers
  if groups.length = 0 then
    if Project ≠ [] then
      "No containers found for project ".toList ++ Quote Project ++ ".".toList
    else "No containers found.".toList
  else writeContainerGroups groups 0 (sortGroupNames groups.keys)

/-- The function `handleListContainers`; `Unmarshal` stands for `json.Unmarshal` into a
`containerInfo` and `Quote` for the verb `%q`. -/
def handleListContainers {σ : Type} (Unmarshal : GoString → Except GoString containerInfo)
    (Quote : GoString → GoString) (exec : Executor σ) (s : σ) (args : listContainersArgs) :
    Except GoString GoString × σ :=
  match exec.Exec s (listContainersCommand args) with
  | (.error err, s1) => (.error ("failed to list containers: ".toList ++ err), s1)
  | (.ok output, s1) =>
    if TrimSpace output = [] then (.ok "No containers found.".toList, s1)
    else
      match parseContainers Unmarshal (Split (TrimSpace output)) with
      | .error err => (.error err, s1)
      | .ok containers => (.ok (listContainersText Quote args.Project containers), s1)

/-- The fields of `mcp.CallToolResult` set by the tool handlers: the text of the one content
item and the error flag. -/
structure CallToolResult where
  Text : GoString
  IsError : Bool
deriving DecidableEq

/-- The result of a registered tool handler: an error result for a failure of the inner
function, else no `CallToolResult` and the text as the structured value. -/
def toolReply (r : Except GoString GoString) : Option CallToolResult × Option GoString :=
  match r with
  | .error err => (some ⟨err, true⟩, none)
  | .ok result => (none, some result)

/-- The handler registered by `registerListContainers` for the tool `list_containers`,
applied to the decoded arguments. -/
def listContainersTool {σ : Type} (Unmarshal : GoString → Except GoString containerInfo)
    (Quote : GoString → GoString) (exec : Executor σ) (s : σ) (args : listContainersArgs) :
    (Option CallToolResult × Option GoString) × σ :=
  (toolReply (handleListContainers Unmarshal Quote exec s args).1,
    (handleListContainers Unmarshal Quote exec s args).2)

/-! ## The file `tools/container_health.go` -/

/-- The function `formatNanoseconds` of `tools/container_health.go`; the argument is an
`int64` and the divisions are Go's, which truncate toward zero. -/
def formatNanoseconds (ns : Int) : GoString :=
  let seconds := ns.tdiv 1000000000
  if seconds ≥ 60 then
    let minutes := seconds.tdiv 60
    let remainSec := seconds.tmod 60
    if remainSec = 0 then Itoa minutes ++ "m".toList
    else Itoa minutes ++ "m".toList ++ Itoa remainSec ++ "s".toList
  else Itoa seconds ++ "s".toList

/-- The argument record of the `container_health` tool. -/
structure containerHealthArgs where
  Container : GoString

/-- One result of a health check. -/
structure healthLog where
  Start : GoString
  End : GoString
  ExitCode : Int
  Output : GoString

/-- The health state of a container. -/
structure healthState where
  Status : GoString
  FailingStreak : Int
  Log : List healthLog

/-- The health check configured for a container. -/
structure healthConfig where
  Test : List GoString
  Interval : Int
  Timeout : Int
  Retries : Int

/-- The text written for the configuration of the health check. -/
def writeHealthConfig (cfg : healthConfig) : GoString :=
  "Health Check Configuration:\n".toList ++
    (if cfg.Test.length > 0 then "  Test:     ".toList ++ Join cfg.Test ++ "\n".toList
     else []) ++
    (if cfg.Interval > 0 then
      "  Interval: ".toList ++ formatNanoseconds cfg.Interval ++ "\n".toList
     else []) ++
    (if cfg.Timeout > 0 then
      "  Timeout:  ".toList ++ formatNanoseconds cfg.Timeout ++ "\n".toList
     else []) ++
    (if cfg.Retries > 0 then "  Retries:  ".toList ++ Itoa cfg.Retries ++ "\n".toList
     else []) ++
    "\n".toList

/-- The loop over the results of the health checks; `i` is the index of the first. -/
def writeHealthLog : Int → List healthLog → GoString
  | _, [] => []
  | i, entry :: rest =>
    "  [".toList ++ Itoa (i + 1) ++ "] Exit Code: ".toList ++ Itoa entry.ExitCode ++
      "\n".toList ++
    "      Start:     ".toList ++ entry.Start ++ "\n".toList ++
    "      End:       ".toList ++ entry.End ++ "\n".toList ++
    (if entry.Output ≠ [] then
      "      Output:    ".toList ++ TrimSpace entry.Output ++ "\n".toList
     else []) ++
    writeHealthLog (i + 1) rest

/-- The text written for the health state. -/
def writeHealthState (state : healthState) : GoString :=
  "Current Status: ".toList ++ state.Status ++ "\n".toList ++
    "Failing Streak: ".toList ++ Itoa state.FailingStreak ++ "\n".toList ++
    (if state.Log.length > 0 then
      "\nRecent Health Check Results (".toList ++ Itoa state.Log.length ++
        " entries):\n".toList ++ writeHealthLog 0 state.Log
     else [])

/-- The function `handleContainerHealth`; `UnmarshalConfig` and `UnmarshalState` stand for
`json.Unmarshal` into a `healthConfig` and a `healthState`. -/
def handleContainerHealth {σ : Type}
    (UnmarshalConfig : GoString → Except GoString healthConfig)
    (UnmarshalState : GoString → Except GoString healthState)
    (exec : Executor σ) (s : σ) (args : containerHealthArgs) :
    Except GoString GoString × σ :=
  if args.Container = [] then (.error "container name or ID is required".toList, s)
  else
    match exec.Exec s ["inspect".toList, "--format".toList,
        "\x7b\x7bjson .State.Health\x7d\x7d".toList, args.Container] with
    | (.error err, s1) => (.error err, s1)
    | (.ok healthOut, s1) =>
      match exec.Exec s1 ["inspect".toList, "--format".toList,
          "\x7b\x7bjson .Config.Healthcheck\x7d\x7d".toList, args.Container] with
      | (.error err, s2) => (.error err, s2)
      | (.ok configOut, s2) =>
        let healthOut := TrimSpace healthOut
        let configOut := TrimSpace configOut
        if (healthOut = [] ∨ healthOut = "null".toList ∨ healthOut = "<nil>".toList ∨
              healthOut = "<no value>".toList) ∧
            (configOut = [] ∨ configOut = "null".toList ∨ configOut = "<nil>".toList ∨
              configOut = "<no value>".toList) then
          (.ok "No healthcheck configured for this container.".toList, s2)
        else
          let b1 : GoString :=
            if configOut ≠ [] ∧ configOut ≠ "null".toList ∧ configOut ≠ "<nil>".toList ∧
                configOut ≠ "<no value>".toList then
              match UnmarshalConfig configOut with
              | .ok cfg => writeHealthConfig cfg
              | .error _ => []
            else []
          let b2 : GoString :=
            if healthOut ≠ [] ∧ healthOut ≠ "null".toList ∧ healthOut ≠ "<nil>".toList ∧
                healthOut ≠ "<no value>".toList then
              match UnmarshalState healthOut with
              | .ok state => writeHealthState state
              | .error _ => []
            else []
          let result := b1 ++ b2
          if result = [] then (.ok "No healthcheck configured for this container.".toList, s2)
          else (.ok result, s2)

/-! ## The file `tools/container_events.go` -/

/-- The argument record of the `container_events` tool. -/
structure containerEventsArgs where
  Container : GoString
  Since : GoString
  Until : GoString
  EventType : GoString

/-- The actor of an event; the map `Attributes` is the list of its entries in the order
`range` is taken to visit them. -/
structure dockerEventActor where
  ID : GoString
  Attributes : List (GoString × GoString)

/-- The JSON output of `docker events`. -/
structure dockerEvent where
  Status : GoString
  Action : GoString
  Type_ : GoString
  Actor : dockerEventActor
  Time : Int
  TimeNano : GoString

/-- The command line built by `handleContainerEvents`. -/
def containerEventsCommand (args : containerEventsArgs) : List GoString :=
  let since := if args.Since = [] then "1h".toList else args.Since
  let until_ := if args.Until = [] then "now".toList else args.Until
  ["events".toList, "--filter".toList, "type=container".toList] ++
    (if args.Container ≠ [] then ["--filter".toList, "container=".toList ++ args.Container]
     else []) ++
    (if args.EventType ≠ [] then ["--filter".toList, "event=".toList ++ args.EventType]
     else []) ++
    ["--since".toList, since, "--until".toList, until_, "--format".toList,
      "\x7b\x7bjson .\x7d\x7d".toList]

/-- Map lookup `attrs[k]` in a `map[string]string`: the empty string when the key is
absent. -/
def attributeValue (attrs : List (GoString × GoString)) (k : GoString) : GoString :=
  match attrs.lookup k with
  | some v => v
  | none => []

/-- The row written for a parsed event. The identifier is cut to its first 12 characters
(bytes in Go, which are the characters of an ASCII identifier). -/
def formatEvent (event : dockerEvent) : GoString :=
  let name := attributeValue event.Actor.Attributes "name".toList
  let name := if name = [] then
      (if event.Actor.ID.length > 12 then event.Actor.ID.take 12 else event.Actor.ID)
    else name
  let action := if event.Action = [] then event.Status else event.Action
  let attrs := (event.Actor.Attributes.filter (fun kv => kv.1 ≠ "name".toList)).map
    (fun kv => kv.1 ++ "=".toList ++ kv.2)
  let attrStr := if attrs.length > 0 then
      " (".toList ++ JoinSep ", ".toList attrs ++ ")".toList
    else []
  "  [".toList ++ Itoa event.Time ++ "] ".toList ++ name ++ ": ".toList ++ action ++
    attrStr ++ "\n".toList

/-- The loop over the output lines: blank lines are skipped, a line that does not decode is
written raw, the others as events. -/
def writeEvents (Unmarshal : GoString → Except GoString dockerEvent) :
    List GoString → GoString
  | [] => []
  | line :: rest =>
    if TrimSpace line = [] then writeEvents Unmarshal rest
    else
      match Unmarshal (TrimSpace line) with
      | .error _ =>
        "  (unparsed) ".toList ++ TrimSpace line ++ "\n".toList ++ writeEvents Unmarshal rest
      | .ok event => formatEvent event ++ writeEvents Unmarshal rest

/-- The function `handleContainerEvents`; `Unmarshal` stands for `json.Unmarshal` into a
`dockerEvent`. -/
def handleContainerEvents {σ : Type} (Unmarshal : GoString → Except GoString dockerEvent)
    (exec : Executor σ) (s : σ) (args : containerEventsArgs) :
    Except GoString GoString × σ :=
  let since := if args.Since = [] then "1h".toList else args.Since
  let until_ := if args.Until = [] then "now".toList else args.Until
  match exec.Exec s (containerEventsCommand args) with
  | (.error err, s1) => (.error ("failed to get events: ".toList ++ err), s1)
  | (.ok output, s1) =>
    if TrimSpace output = [] then
      (.ok "No events found in the specified time range.".toList, s1)
    else
      (.ok ("=== Container Events ===\n".toList ++
        (if args.Container ≠ [] then "Container: ".toList ++ args.Container ++ "\n".toList
         else []) ++
        "Time range: ".toList ++ since ++ " to ".toList ++ until_ ++ "\n".toList ++
        (if args.EventType ≠ [] then
          "Event filter: ".toList ++ args.EventType ++ "\n".toList
         else []) ++
        "\n".toList ++ writeEvents Unmarshal (Split (TrimSpace output))), s1)

/-! ## The file `tools/container_inspect.go` -/

/-- A value decoded by `json.Unmarshal` into `any`: nil, a bool, a number (kept as its
text), a string, a `[]any` or a `map[string]any`, the map being the list of its entries in
the order `range` is taken to visit them. -/
inductive JsonValue where
  | null : JsonValue
  | bool (b : Bool) : JsonValue
  | number (text : GoString) : JsonValue
  | string (s : GoString) : JsonValue
  | array (items : List JsonValue) : JsonValue
  | object (entries : List (GoString × JsonValue)) : JsonValue

/-- A Go `map[string]any`. -/
abbrev JsonObject := List (GoString × JsonValue)

/-- The argument record of the `container_inspect` tool. -/
structure containerInspectArgs where
  Container : GoString
  Section : GoString

/-- The type assertion `m[key].(string)` with the result discarded on failure: the empty
string for a missing key or a value that is not a string. -/
def stringField (m : JsonObject) (key : GoString) : GoString :=
  match m.lookup key with
  | some (.string s) => s
  | _ => []

/-- The function `getNestedMap`. -/
def getNestedMap (data : JsonObject) : List GoString → Option JsonObject
  | [] => some data
  | key :: keys =>
    match data.lookup key with
    | some (.object m) => getNestedMap m keys
    | _ => none

/-- The function `formatEnvSection`. -/
def formatEnvSection (data : JsonObject) : GoString :=
  match getNestedMap data ["Config".toList] with
  | none => "No Config section found.".toList
  | some config =>
    match config.lookup "Env".toList with
    | some (.array envSlice) =>
      "Environment Variables:\n".toList ++
        (envSlice.map (fun e =>
          match e with
          | .string s => "  ".toList ++ s ++ "\n".toList
          | _ => [])).flatten
    | _ => "No environment variables configured.".toList

/-- The rows written for the bindings of one port: one row per binding that is a map. -/
def writeBindings (port : GoString) (bindSlice : List JsonValue) : GoString :=
  (bindSlice.map (fun bind =>
    match bind with
    | .object bindMap =>
      let hostIP := stringField bindMap "HostIp".toList
      let hostPort := stringField bindMap "HostPort".toList
      let hostIP := if hostIP = [] then "0.0.0.0".toList else hostIP
      "  ".toList ++ port ++ " -> ".toList ++ hostIP ++ ":".toList ++ hostPort ++
        "\n".toList
    | _ => [])).flatten

/-- The function `formatPortsSection`. -/
def formatPortsSection (data : JsonObject) : GoString :=
  "Port Bindings:\n".toList ++
    (match getNestedMap data ["HostConfig".toList] with
     | none => []
     | some hostConfig =>
       match hostConfig.lookup "PortBindings".toList with
       | none => "  No port bindings configured.\n".toList
       | some pbRaw =>
         match pbRaw with
         | .object pb =>
           if pb.length > 0 then
             (pb.map (fun kv =>
               match kv.2 with
               | .array bindSlice => writeBindings kv.1 bindSlice
               | _ => [])).flatten
           else "  No port bindings configured.\n".toList
         | _ => "  No port bindings configured.\n".toList) ++
    (match getNestedMap data ["NetworkSettings".toList] with
     | none => []
     | some netSettings =>
       match netSettings.lookup "Ports".toList with
       | some (.object ports) =>
         if ports.length > 0 then
           "\nExposed Ports:\n".toList ++
             (ports.map (fun kv =>
               match kv.2 with
               | .null => "  ".toList ++ kv.1 ++ " -> (not mapped)\n".toList
               | .array mapSlice => writeBindings kv.1 mapSlice
               | _ => [])).flatten
         else []
       | _ => [])

/-- The function `formatVolumesSection`. -/
def formatVolumesSection (data : JsonObject) : GoString :=
  match data.lookup "Mounts".toList with
  | some (.array mountsSlice) =>
    if mountsSlice.length = 0 then "No volumes mounted.".toList
    else
      "Mounts:\n".toList ++
        (mountsSlice.map (fun m =>
          match m with
          | .object mount =>
            let rw := match mount.lookup "RW".toList with
              | some (.bool b) => b
              | _ => false
            "  [".toList ++ stringField mount "Type".toList ++ "] ".toList ++
              stringField mount "Source".toList ++ " -> ".toList ++
              stringField mount "Destination".toList ++ " (".toList ++
              (if rw then "rw".toList else "ro".toList) ++ ")\n".toList
          | _ => [])).flatten
  | _ => "No volumes mounted.".toList

/-- The row written for a field of a network that is a non-empty string. -/
def writeNetworkField (net : JsonObject) (key label : GoString) : GoString :=
  match net.lookup key with
  | some (.string v) => if v ≠ [] then label ++ v ++ "\n".toList else []
  | _ => []

/-- The function `formatNetworkSection`. -/
def formatNetworkSection (data : JsonObject) : GoString :=
  match getNestedMap data ["NetworkSettings".toList] with
  | none => "No network settings found.".toList
  | some netSettings =>
    match netSettings.lookup "Networks".toList with
    | some (.object networks) =>
      if networks.length = 0 then "No networks configured.".toList
      else
        "Networks:\n".toList ++
          (networks.map (fun kv =>
            "  ".toList ++ kv.1 ++ ":\n".toList ++
              (match kv.2 with
               | .object net =>
                 writeNetworkField net "IPAddress".toList "    IP Address: ".toList ++
                 writeNetworkField net "Gateway".toList "    Gateway:    ".toList ++
                 writeNetworkField net "MacAddress".toList "    MAC:        ".toList
               | _ => []))).flatten
    | _ => "No networks configured.".toList

/-- The function `formatAllSection`; `UnmarshalAny` stands for `json.Unmarshal` into `any`
and `MarshalIndent` for `json.MarshalIndent` with two blanks of indentation. -/
def formatAllSection (UnmarshalAny : GoString → Except GoString JsonValue)
    (MarshalIndent : JsonValue → Except GoString GoString) (rawJSON : GoString) : GoString :=
  match UnmarshalAny rawJSON with
  | .error _ => rawJSON
  | .ok data =>
    match MarshalIndent data with
    | .error _ => rawJSON
    | .ok pretty => pretty

/-- The function `handleContainerInspect`; `UnmarshalList` stands for `json.Unmarshal` into
a `[]map[string]any` and `Quote` for the verb `%q`. -/
def handleContainerInspect {σ : Type}
    (UnmarshalList : GoString → Except GoString (List JsonObject))
    (UnmarshalAny : GoString → Except GoString JsonValue)
    (MarshalIndent : JsonValue → Except GoString GoString) (Quote : GoString → GoString)
    (exec : Executor σ) (s : σ) (args : containerInspectArgs) :
    Except GoString GoString × σ :=
  if args.Container = [] then (.error "container name or ID is required".toList, s)
  else
    let section_ := if args.Section = [] then "all".toList else args.Section
    match exec.Exec s ["inspect".toList, args.Container] with
    | (.error err, s1) => (.error err, s1)
    | (.ok out, s1) =>
      match UnmarshalList out with
      | .error err => (.error ("failed to parse inspect JSON: ".toList ++ err), s1)
      | .ok inspectData =>
        match inspectData with
        | [] =>
          (.error ("no inspect data returned for container ".toList ++ args.Container), s1)
        | data :: _ =>
          if section_ = "env".toList then (.ok (formatEnvSection data), s1)
          else if section_ = "ports".toList then (.ok (formatPortsSection data), s1)
          else if section_ = "volumes".toList then (.ok (formatVolumesSection data), s1)
          else if section_ = "network".toList then (.ok (formatNetworkSection data), s1)
          else if section_ = "all".toList then
            (.ok (formatAllSection UnmarshalAny MarshalIndent out), s1)
          else
            (.error ("unknown section ".toList ++ Quote section_ ++
              ": must be one of env, ports, volumes, network, all".toList), s1)

/-! ## The file `tools/compose_logs.go` -/

/-- The argument record of the `compose_logs` tool. -/
structure composeLogsArgs where
  Project : GoString
  Tail : Int
  Since : GoString
  Timestamps : Bool

/-- The local struct `raw` of `parseComposeLogContainers`: a line of `docker ps`, the labels
being one comma-separated string. -/
structure rawLogContainer where
  ID : GoString
  Names : GoString
  Labels : GoString

/-- A container of a Compose project; the map `Labels` is the list of its entries. -/
structure composeLogContainer where
  ID : GoString
  Names : GoString
  Labels : List (GoString × GoString)

/-- The statement `labels[k] = v` on a `map[string]string`. -/
def setLabel : List (GoString × GoString) → GoString → GoString → List (GoString × GoString)
  | [], k, v => [(k, v)]
  | (k', v') :: rest, k, v =>
    if k' = k then (k', v) :: rest else (k', v') :: setLabel rest k v

/-- One turn of the loop over the comma-separated pairs. -/
def labelStep (labels : List (GoString × GoString)) (pair : GoString) :
    List (GoString × GoString) :=
  let kv := SplitN2 '=' pair
  if kv.length = 2 then setLabel labels (kv.getD 0 []) (kv.getD 1 []) else labels

/-- The map built from the labels string of a line. -/
def parseLabels (raw : GoString) : List (GoString × GoString) :=
  if raw ≠ [] then (SplitOn ',' raw).foldl labelStep [] else []

/-- The loop of `parseComposeLogContainers` over the lines. -/
def parseLogLines (Unmarshal : GoString → Except GoString rawLogContainer) :
    List GoString → Except GoString (List composeLogContainer)
  | [] => .ok []
  | line :: rest =>
    if TrimSpace line = [] then parseLogLines Unmarshal rest
    else
      match Unmarshal (TrimSpace line) with
      | .error err => .error ("failed to parse container JSON: ".toList ++ err)
      | .ok raw =>
        match parseLogLines Unmarshal rest with
        | .error err => .error err
        | .ok containers => .ok (⟨raw.ID, raw.Names, parseLabels raw.Labels⟩ :: containers)

/-- The function `parseComposeLogContainers`; `Unmarshal` stands for `json.Unmarshal` into
the struct `raw`. -/
def parseComposeLogContainers (Unmarshal : GoString → Except GoString rawLogContainer)
    (output : GoString) : Except GoString (List composeLogContainer) :=
  parseLogLines Unmarshal (Split (TrimSpace output))

/-- The name written before the log lines of a container: its service label, or its name
when the label is missing or empty. -/
def serviceNameOf (c : composeLogContainer) : GoString :=
  let serviceName := attributeValue c.Labels "com.docker.compose.service".toList
  if serviceName = [] then c.Names else serviceName

/-- The command line built for the logs of one container; `tail` is the line count after
the default has been applied. -/
def composeLogsCommand (args : composeLogsArgs) (tail : Int) (c : composeLogContainer) :
    List GoString :=
  ["logs".toList, "--tail".toList, Itoa tail] ++
    (if args.Since ≠ [] then ["--since".toList, args.Since] else []) ++
    (if args.Timestamps then ["--timestamps".toList] else []) ++
    [c.ID]

/-- The inner loop over the lines of a log output: empty lines are skipped, the others are
written after the service name in brackets. -/
def writeLogLines (serviceName : GoString) : List GoString → GoString
  | [] => []
  | line :: rest =>
    if line = [] then writeLogLines serviceName rest
    else
      "[".toList ++ serviceName ++ "] ".toList ++ line ++ "\n".toList ++
        writeLogLines serviceName rest

/-- The loop of `handleComposeLogs` over the containers: the text written and the state
after the last fetch. -/
def composeLogsLoop {σ : Type} (exec : Executor σ) (args : composeLogsArgs) (tail : Int) :
    σ → List composeLogContainer → GoString × σ
  | s, [] => ([], s)
  | s, c :: rest =>
    match exec.ExecCombined s (composeLogsCommand args tail c) with
    | (.error err, s1) =>
      ("[".toList ++ serviceNameOf c ++ "] error fetching logs: ".toList ++ err ++
        "\n".toList ++ (composeLogsLoop exec args tail s1 rest).1,
        (composeLogsLoop exec args tail s1 rest).2)
    | (.ok logOutput, s1) =>
      (writeLogLines (serviceNameOf c) (Split logOutput) ++
        (composeLogsLoop exec args tail s1 rest).1,
        (composeLogsLoop exec args tail s1 rest).2)

/-- The command line that lists the containers of a Compose project. -/
def composePsCommand (project : GoString) : List GoString :=
  ["ps".toList, "-a".toList, "--format".toList, "\x7b\x7bjson .\x7d\x7d".toList,
    "--filter".toList, "label=com.docker.compose.project=".toList ++ project]

/-- The function `handleComposeLogs`; `Unmarshal` stands for `json.Unmarshal` into the struct
`raw` and `Quote` for the verb `%q`. -/
def handleComposeLogs {σ : Type} (Unmarshal : GoString → Except GoString rawLogContainer)
    (Quote : GoString → GoString) (exec : Executor σ) (s : σ) (args : composeLogsArgs) :
    Except GoString GoString × σ :=
  match exec.Exec s (composePsCommand args.Project) with
  | (.error err, s1) => (.error ("failed to list containers: ".toList ++ err), s1)
  | (.ok psOutput, s1) =>
    if TrimSpace psOutput = [] then
      (.error ("no containers found for Compose project ".toList ++ Quote args.Project), s1)
    else
      match parseComposeLogContainers Unmarshal psOutput with
      | .error err => (.error err, s1)
      | .ok containers =>
        if containers.length = 0 then
          (.error ("no containers found for Compose project ".toList ++ Quote args.Project),
            s1)
        else
          let tail := if args.Tail ≤ 0 then 100 else args.Tail
          (.ok (composeLogsLoop exec args tail s1 containers).1,
            (composeLogsLoop exec args tail s1 containers).2)

/-! ## The file `tools/compose_up_down.go` -/

/-- The argument record of the `compose_up` tool. -/
structure composeUpArgs where
  Project : GoString
  Services : List GoString

/-- The argument record of the `compose_down` tool. -/
structure composeDownArgs where
  Project : GoString
  RemoveVolumes : Bool

/-- The one field read from a line of `docker ps` when the working directory is looked
for. -/
structure composeProjectContainer where
  ID : GoString

/-- The command line that asks for the working-directory label of a container. -/
def workDirCommand (id : GoString) : List GoString :=
  ["inspect".toList, "--format".toList,
    ("\x7b\x7bindex .Config.Labels \"com.docker.compose.project.working_dir\"" ++
      "\x7d\x7d").toList, id]

/-- The function `discoverWorkDir`; `Unmarshal` stands for `json.Unmarshal` into a
`composeProjectContainer` and `Quote` for the verb `%q`. -/
def discoverWorkDir {σ : Type}
    (Unmarshal : GoString → Except GoString composeProjectContainer)
    (Quote : GoString → GoString) (exec : Executor σ) (s : σ) (project : GoString) :
    Except GoString GoString × σ :=
  match exec.Exec s (composePsCommand project) with
  | (.error err, s1) =>
    (.error ("failed to list containers for project ".toList ++ Quote project ++
      ": ".toList ++ err), s1)
  | (.ok psOutput, s1) =>
    let psOutput := TrimSpace psOutput
    if psOutput = [] then
      (.error ("no containers found for project ".toList ++ Quote project ++
        (": cannot determine working directory. Start the project manually first or " ++
          "specify the compose file path").toList), s1)
    else
      let firstLine := (SplitN2 '\n' psOutput).getD 0 []
      match Unmarshal firstLine with
      | .error err => (.error ("failed to parse container JSON: ".toList ++ err), s1)
      | .ok c =>
        match exec.Exec s1 (workDirCommand c.ID) with
        | (.error err, s2) =>
          (.error ("failed to inspect container ".toList ++ c.ID ++ ": ".toList ++ err), s2)
        | (.ok workDir, s2) =>
          if TrimSpace workDir = [] then
            (.error ("container ".toList ++ c.ID ++
              " has no com.docker.compose.project.working_dir label".toList), s2)
          else (.ok (TrimSpace workDir), s2)

/-- The command line built by `handleComposeUp` for the working directory found. -/
def composeUpCommand (workDir : GoString) (args : composeUpArgs) : List GoString :=
  ["compose".toList, "--project-directory".toList, workDir, "-p".toList, args.Project,
    "up".toList, "-d".toList] ++ args.Services

/-- The command line built by `handleComposeDown` for the working directory found. -/
def composeDownCommand (workDir : GoString) (args : composeDownArgs) : List GoString :=
  ["compose".toList, "--project-directory".toList, workDir, "-p".toList, args.Project,
    "down".toList] ++ (if args.RemoveVolumes then ["--volumes".toList] else [])

/-- The function `handleComposeUp`. -/
def handleComposeUp {σ : Type}
    (Unmarshal : GoString → Except GoString composeProjectContainer)
    (Quote : GoString → GoString) (exec : Executor σ) (s : σ) (args : composeUpArgs) :
    Except GoString GoString × σ :=
  match discoverWorkDir Unmarshal Quote exec s args.Project with
  | (.error err, s1) => (.error err, s1)
  | (.ok workDir, s1) =>
    match exec.ExecCombined s1 (composeUpCommand workDir args) with
    | (.error err, s2) => (.error ("compose up failed: ".toList ++ err), s2)
    | (.ok output, s2) =>
      (.ok ("Compose project ".toList ++ Quote args.Project ++ " started (workdir: ".toList ++
        workDir ++ ")\n".toList ++ output), s2)

/-- The function `handleComposeDown`. -/
def handleComposeDown {σ : Type}
    (Unmarshal : GoString → Except GoString composeProjectContainer)
    (Quote : GoString → GoString) (exec : Executor σ) (s : σ) (args : composeDownArgs) :
    Except GoString GoString × σ :=
  match discoverWorkDir Unmarshal Quote exec s args.Project with
  | (.error err, s1) => (.error err, s1)
  | (.ok workDir, s1) =>
    match exec.ExecCombined s1 (composeDownCommand workDir args) with
    | (.error err, s2) => (.error ("compose down failed: ".toList ++ err), s2)
    | (.ok output, s2) =>
      (.ok ("Compose project ".toList ++ Quote args.Project ++ " stopped (workdir: ".toList ++
        workDir ++ ")\n".toList ++ output), s2)

/-! ## Notions used to state the properties of the log differ -/

/-- The trimmed, non-blank lines of a text, in order and with repetitions. -/
def nonBlankLines (text : GoString) : List GoString :=
  ((Split text).map TrimSpace).filter (fun l => l ≠ [])

/-- Well-formedness of a count map: keys are unique and are exactly the lines with a
positive count. -/
def CountMap.WF (m : CountMap) : Prop :=
  m.keys.Nodup ∧ ∀ k, k ∈ m.keys ↔ 0 < m.get k

/-- The first `case` of the switch. -/
def isOnly1 (c1 c2 : CountMap) (l : GoString) : Bool :=
  decide (c1.get l > 0 ∧ c2.get l = 0)

/-- The second `case` of the switch. -/
def isOnly2 (c1 c2 : CountMap) (l : GoString) : Bool :=
  decide (c1.get l = 0 ∧ c2.get l > 0)

/-- The third `case` of the switch, reached when the first two fail. -/
def isChanged (c1 c2 : CountMap) (l : GoString) : Bool :=
  !isOnly1 c1 c2 l && !isOnly2 c1 c2 l && decide (c1.get l ≠ c2.get l)

/-- The `default` case of the switch. -/
def isCommon (c1 c2 : CountMap) (l : GoString) : Bool :=
  !isOnly1 c1 c2 l && !isOnly2 c1 c2 l && decide (c1.get l = c2.get l)

/-- The number denoted by a string of decimal digits. -/
def digitsValue (cs : List Char) (acc : Nat) : Nat :=
  cs.foldl (fun v c => 10 * v + (c.toNat - 48)) acc

/-- Read a rendered count-change entry back: the line and the two decimal counts. -/
def parseChanged (e : GoString) : GoString × GoString × GoString :=
  let r := e.reverse.drop 2
  let b := (r.takeWhile Char.isDigit).reverse
  let r := (r.dropWhile Char.isDigit).drop 12
  let a := (r.takeWhile Char.isDigit).reverse
  let r := (r.dropWhile Char.isDigit).drop 11
  (r.reverse.drop 2, a, b)

/-- The line `l` is listed in the count-changes partition: some entry annotates it. -/
def Partitions.listsChanged (p : Partitions) (l : GoString) : Prop :=
  ∃ c1 c2, fmtChanged l c1 c2 ∈ p.changed

/-- Exactly one of four propositions holds. -/
def exactlyOne (a b c d : Prop) : Prop :=
  (a ∧ ¬b ∧ ¬c ∧ ¬d) ∨ (¬a ∧ b ∧ ¬c ∧ ¬d) ∨ (¬a ∧ ¬b ∧ c ∧ ¬d) ∨ (¬a ∧ ¬b ∧ ¬c ∧ d)

/-- A section body of the report as text: the single line `  (none)` for an empty
partition, otherwise the rows one per line. -/
def sectionText (rows : List GoString) : GoString :=
  if rows = [] then "  (none)\n".toList else (rows.map (fun r => r ++ "\n".toList)).flatten

/-- The two-blank indentation of a plain entry. -/
def indent (line : GoString) : GoString := "  ".toList ++ line

/-- The three title lines and the blank line that open the report. -/
def reportPreamble (args : logDiffArgs) : GoString :=
  "=== Log Diff: ".toList ++ args.Container ++ " ===\n".toList ++
  "Period 1: ".toList ++ args.Period1Start ++ " to ".toList ++ args.Period1End ++ "\n".toList ++
  "Period 2: ".toList ++ args.Period2Start ++ " to ".toList ++ args.Period2End ++ "\n\n".toList

/-! ## Notions used to state the properties of the context-window merger -/

/-- The values of a Go `int` on a 64-bit platform. -/
def isInt (x : Int) : Prop := -9223372036854775808 ≤ x ∧ x < 9223372036854775808

/-- The largest Go `int`, `2^63 - 1`. -/
def maxInt : Int := 9223372036854775807

/-- The caller contract on match indices: each is a position of `lines`. -/
def validIndices (lines : List GoString) (matchIndices : List Int) : Prop :=
  ∀ i ∈ matchIndices, 0 ≤ i ∧ i < (lines.length : Int)

/-- The index `k` lies in the closed range `r`. -/
def lineRange.covers (r : lineRange) (k : Int) : Prop := r.start ≤ k ∧ k ≤ r.end_

/-- The window of the specification around match `i`: `[max(0, i-radius),
min(len(lines)-1, i+radius)]`. -/
def specWindow (lines : List GoString) (radius : Int) (i : Int) : lineRange :=
  ⟨max 0 (i - radius), min ((lines.length : Int) - 1) (i + radius)⟩

/-- A range that lies within a slice of `n` lines and holds at least one index. -/
def properRange (n : Nat) (r : lineRange) : Prop :=
  0 ≤ r.start ∧ r.start ≤ r.end_ ∧ r.end_ < (n : Int)

/-- A range that starts at line 0 and either holds indices of the slice or, its end having
wrapped around, ends below `-1`. -/
def zeroRange (n : Nat) (r : lineRange) : Prop :=
  r.start = 0 ∧ (r.end_ < -1 ∨ 0 ≤ r.end_) ∧ -9223372036854775808 ≤ r.end_ ∧ r.end_ < (n : Int)

/-- The relation the output loops need between an earlier and a later merged range. -/
def emptyOrBefore (a b : lineRange) : Prop := a.end_ < a.start ∨ a.end_ < b.start

/-- A range whose indices, if any, are positions of a slice of `n` lines. -/
def inBounds (n : Nat) (r : lineRange) : Prop := 0 ≤ r.start ∧ r.end_ < (n : Int)

/-- The text of one output row: the marker, the line, a newline. -/
def rowText (lines : List GoString) (matchIndices : List Int) (i : Int) : GoString :=
  marker matchIndices i ++ lines.getD i.toNat [] ++ "\n".toList

/-- The text of the groups from group number `ri` on, all slice accesses being in bounds. -/
def groupsText (lines : List GoString) (matchIndices : List Int) :
    Nat → List lineRange → GoString
  | _, [] => []
  | ri, r :: rest =>
    (if ri > 0 then "--\n".toList else []) ++
      ((loopIndices r).map (rowText lines matchIndices)).flatten ++
      groupsText lines matchIndices (ri + 1) rest

/-- The ascending rearrangement of a list of indices. -/
def sortInts (xs : List Int) : List Int :=
  List.insertionSort (fun a b => a ≤ b) xs

/-- The number of places where two consecutive match indices `i`, `j` of the list are more
than `2 * radius + 1` apart. -/
def separatorCount (radius : Int) : List Int → Nat
  | [] => 0
  | [_] => 0
  | i :: j :: rest =>
    (if j - i > 2 * radius + 1 then 1 else 0) + separatorCount radius (j :: rest)

/-- The lines of the text written by the output loops from group number `ri` on: `--`
before every group but the first, then one row per index of the group. -/
def outputRows (lines : List GoString) (matchIndices : List Int) :
    Nat → List lineRange → List GoString
  | _, [] => []
  | ri, r :: rest =>
    (if ri > 0 then ["--".toList] else []) ++
      (loopIndices r).map (fun i => marker matchIndices i ++ lines.getD i.toNat []) ++
      outputRows lines matchIndices (ri + 1) rest

/-- The text made of the given lines, each followed by a newline. -/
def unlines (rows : List GoString) : GoString :=
  (rows.map (fun r => r ++ "\n".toList)).flatten

/-- The text without its last character when that is a newline. -/
def TrimOneNewline (s : GoString) : GoString :=
  if s.getLast? = some '\n' then s.dropLast else s

/-! ## Notions used to state the properties of the container listing -/

/-- The name of the group of unlabelled containers. -/
def standalone : GoString := "(standalone)".toList

/-- The containers that pass the project filter: all of them for an empty filter. -/
def keptContainers (Project : GoString) (containers : List containerInfo) :
    List containerInfo :=
  containers.filter (fun c => Project = [] ∨ c.composeProject = Project)

/-- The name of the group a container is put in. -/
def groupName (c : containerInfo) : GoString :=
  if c.composeProject = [] then standalone else c.composeProject

/-- The Compose project names of the kept containers, each once, in ascending order. -/
def projectNames (Project : GoString) (containers : List containerInfo) : List GoString :=
  sortStrings ((((keptContainers Project containers).map
    containerInfo.composeProject).filter (fun p => p ≠ [])).dedup)

/-- The kept containers without a Compose project. -/
def standaloneContainers (Project : GoString) (containers : List containerInfo) :
    List containerInfo :=
  (keptContainers Project containers).filter (fun c => c.composeProject = [])

/-- The listing as the specification words it: one group per Compose project in ascending
order of project name, holding the containers of that project in input order, then the
group `(standalone)` of the containers without a project, when there are any. -/
def specGroups (Project : GoString) (containers : List containerInfo) :
    List (GoString × List containerInfo) :=
  (projectNames Project containers).map (fun p =>
      (p, (keptContainers Project containers).filter (fun c => c.composeProject = p))) ++
    (if standaloneContainers Project containers = [] then []
     else [(standalone, standaloneContainers Project containers)])

/-- The text of a list of groups: the blocks, separated by an empty line. -/
def renderGroups (groups : List (GoString × List containerInfo)) : GoString :=
  JoinSep "\n".toList (groups.map (fun g => groupBlock g.1 g.2))

/-- The strict order of the group names: a name other than `(standalone)` comes before
`(standalone)` and before every greater name. -/
def groupBefore (a b : GoString) : Prop :=
  a ≠ standalone ∧ (b = standalone ∨ a < b)

/-! ## Notions used to state the properties of the health report and of the Compose logs -/

/-- An inspect output that stands for no value: empty, `null`, `<nil>` or `<no value>`. -/
def isNoValue (out : GoString) : Prop :=
  out = [] ∨ out = "null".toList ∨ out = "<nil>".toList ∨ out = "<no value>".toList

/-- The value of the last label with the given key among comma-separated `key=value`
pairs; `acc` when there is none. -/
def lastLabelValue (key : GoString) : List GoString → GoString → GoString
  | [], acc => acc
  | pair :: rest, acc =>
    if (SplitN2 '=' pair).length = 2 ∧ (SplitN2 '=' pair).getD 0 [] = key then
      lastLabelValue key rest ((SplitN2 '=' pair).getD 1 [])
    else lastLabelValue key rest acc

/-- The lines contributed by one container: for a log output, its non-empty lines, each
after the service name in brackets; for a failed fetch, the one line that reports it. -/
def containerLogRows (serviceName : GoString) (fetched : Except GoString GoString) :
    List GoString :=
  match fetched with
  | .error err => ["[".toList ++ serviceName ++ "] error fetching logs: ".toList ++ err]
  | .ok logOutput =>
    ((Split logOutput).filter (fun line => line ≠ [])).map
      (fun line => "[".toList ++ serviceName ++ "] ".toList ++ line)

/-- The lines of the result: those of every container in listing order, the logs being
fetched one container after the other with `tail` as the line count. -/
def composeLogRows {σ : Type} (exec : Executor σ) (args : composeLogsArgs) (tail : Int) :
    σ → List composeLogContainer → List GoString × σ
  | s, [] => ([], s)
  | s, c :: rest =>
    (containerLogRows (serviceNameOf c)
        (exec.ExecCombined s (composeLogsCommand args tail c)).1 ++
      (composeLogRows exec args tail
        (exec.ExecCombined s (composeLogsCommand args tail c)).2 rest).1,
     (composeLogRows exec args tail
        (exec.ExecCombined s (composeLogsCommand args tail c)).2 rest).2)

/-! ## Stand-ins for the standard library at the inputs of the tests -/

/-- The rendering by `%q` of a string of printable characters without quote or backslash:
the string between double quotes. -/
def plainQuote (s : GoString) : GoString := '"' :: s ++ ['"']

/-- The string `p` occurs in `line`. -/
def hasInfix (p line : GoString) : Bool := line.tails.any (fun t => p.isPrefixOf t)

/-- The behaviour of `regexp.Compile` on the patterns of the tests: a pattern without
metacharacters compiles and matches the lines in which it occurs; a pattern with an opening
bracket that is never closed is rejected with the message of `regexp`, which quotes the
pattern from the bracket on. Other patterns with a bracket are not meant to be given to this
stand-in. -/
def literalCompile (p : GoString) : Except GoString (GoString → Bool) :=
  if '[' ∈ p then
    .error ("error parsing regexp: missing closing ]: `".toList ++
      p.dropWhile (fun c => c ≠ '[') ++ "`".toList)
  else .ok (hasInfix p)

/-- A decoder that knows the given lines and rejects every other text. -/
def tableUnmarshal (table : List (GoString × containerInfo)) (line : GoString) :
    Except GoString containerInfo :=
  match table.lookup line with
  | some c => .ok c
  | none => .error "invalid character".toList

/-! ## Inputs of the repository's tests and of the specification's scenarios -/

/-- The arguments used by the tests of `handleLogDiff`. -/
def testArgs : logDiffArgs :=
  ⟨"myapp".toList, "2h".toList, "1h".toList, "1h".toList, "now".toList⟩

/-- The mock of `TestHandleLogDiff_IdenticalLogs`. -/
def identicalLogsMock : Mock :=
  (NewMock.On "logs --since 2h --until 1h myapp".toList
      (.ok "INFO: all good\nINFO: running".toList)).On
    "logs --since 1h --until now myapp".toList (.ok "INFO: all good\nINFO: running".toList)

/-- The mock of `TestHandleLogDiff_EmptyPeriod`. -/
def emptyPeriodMock : Mock :=
  (NewMock.On "logs --since 2h --until 1h myapp".toList
      (.ok "ERROR: something broke\nWARN: disk usage high".toList)).On
    "logs --since 1h --until now myapp".toList (.ok [])

/-- The ten lines of scenario B of the specification. -/
def scenarioLines : List GoString :=
  ["l0".toList, "l1".toList, "ERROR".toList, "l3".toList, "l4".toList, "l5".toList,
   "l6".toList, "ERROR2".toList, "l8".toList, "l9".toList]

/-- The six lines used to exhibit the merge on descending match indices. -/
def sixLines : List GoString :=
  ["a".toList, "b".toList, "c".toList, "d".toList, "e".toList, "f".toList]

/-- The mock of `TestHandleLogDiff_DockerError`. -/
def dockerErrorMock : Mock :=
  NewMock.On "logs --since 2h --until 1h myapp".toList (.error "container not found".toList)

/-- The mock and arguments of `TestHandleGetLogs_WithAllOptions`. -/
def allOptionsMock : Mock :=
  NewMock.On "logs --tail 50 --since 1h --until 30m --timestamps mycontainer".toList
    (.ok "2024-01-01T10:00:00Z line1\n2024-01-01T11:00:00Z line2".toList)

/-- The arguments of `TestHandleGetLogs_WithAllOptions`. -/
def allOptionsArgs : getLogsArgs :=
  ⟨"mycontainer".toList, 50, "1h".toList, "30m".toList, true⟩

/-- The mock of `TestHandleSearchLogs_BasicMatch`. -/
def basicMatchMock : Mock :=
  NewMock.On "logs --tail 1000 myapp".toList
    (.ok ("INFO starting server\nERROR connection refused\nINFO request handled\n" ++
      "ERROR timeout\nINFO shutting down").toList)

/-- The arguments of `TestHandleSearchLogs_BasicMatch`. -/
def basicMatchArgs : searchLogsArgs :=
  ⟨"myapp".toList, "ERROR".toList, 0, [], false, 0⟩

/-- A mock whose log output ends in a blank line. -/
def trailingBlankMock : Mock :=
  NewMock.On "logs --tail 1000 myapp".toList (.ok "INFO a\n\n".toList)

/-- The first container of `TestHandleListContainers_FilterByProject`. -/
def webappContainer : containerInfo :=
  ⟨"abc123".toList, "webapp-web-1".toList, "nginx:latest".toList, "running".toList,
    "Up 2 hours".toList, [], "com.docker.compose.project=webapp".toList, [], []⟩

/-- The second container of that test. -/
def apiContainer : containerInfo :=
  ⟨"def456".toList, "api-server-1".toList, "node:20".toList, "running".toList,
    "Up 1 hour".toList, [], "com.docker.compose.project=api".toList, [], []⟩

/-- The third container of that test, without labels. -/
def redisContainer : containerInfo :=
  ⟨"ghi789".toList, "my-redis".toList, "redis:7".toList, "running".toList,
    "Up 1 hour".toList, [], [], [], []⟩

/-- The first output line of `docker ps` in `TestHandleListContainers_FilterByProject`. -/
def webappLine : GoString :=
  ("\x7b\"ID\":\"abc123\",\"Names\":\"webapp-web-1\",\"Image\":\"nginx:latest\"," ++
   "\"State\":\"running\",\"Status\":\"Up 2 hours\",\"Ports\":\"\"," ++
   "\"Labels\":\"com.docker.compose.project=webapp\",\"CreatedAt\":\"\"," ++
   "\"Networks\":\"\"\x7d").toList

/-- The second output line of that test. -/
def apiLine : GoString :=
  ("\x7b\"ID\":\"def456\",\"Names\":\"api-server-1\",\"Image\":\"node:20\"," ++
   "\"State\":\"running\",\"Status\":\"Up 1 hour\",\"Ports\":\"\"," ++
   "\"Labels\":\"com.docker.compose.project=api\",\"CreatedAt\":\"\"," ++
   "\"Networks\":\"\"\x7d").toList

/-- The third output line of that test. -/
def redisLine : GoString :=
  ("\x7b\"ID\":\"ghi789\",\"Names\":\"my-redis\",\"Image\":\"redis:7\"," ++
   "\"State\":\"running\",\"Status\":\"Up 1 hour\",\"Ports\":\"\"," ++
   "\"Labels\":\"\",\"CreatedAt\":\"\",\"Networks\":\"\"\x7d").toList

/-- The mock of `TestHandleListContainers_FilterByProject`. -/
def filterByProjectMock : Mock :=
  NewMock.On "ps -a --format \x7b\x7bjson .\x7d\x7d".toList
    (.ok (webappLine ++ "\n".toList ++ apiLine ++ "\n".toList ++ redisLine))

/-- A container whose Compose project is named like the group of unlabelled containers. -/
def sentinelContainer : containerInfo :=
  ⟨"jkl012".toList, "odd-1".toList, "busybox".toList, "running".toList, "Up".toList, [],
    "com.docker.compose.project=(standalone)".toList, [], []⟩

/-- A container of the Compose project `a`. -/
def projectAContainer : containerInfo :=
  ⟨"mno345".toList, "a-1".toList, "busybox".toList, "running".toList, "Up".toList, [],
    "com.docker.compose.project=a".toList, [], []⟩

/-- The container `sentinelContainer` without its label. -/
def unlabelledContainer : containerInfo :=
  ⟨"jkl012".toList, "odd-1".toList, "busybox".toList, "running".toList, "Up".toList, [],
    [], [], []⟩

/-- The output line of `docker ps` for `sentinelContainer`. -/
def sentinelLine : GoString :=
  ("\x7b\"ID\":\"jkl012\",\"Names\":\"odd-1\",\"Image\":\"busybox\"," ++
   "\"State\":\"running\",\"Status\":\"Up\",\"Ports\":\"\"," ++
   "\"Labels\":\"com.docker.compose.project=(standalone)\",\"CreatedAt\":\"\"," ++
   "\"Networks\":\"\"\x7d").toList

/-- The output line of `docker ps` for `projectAContainer`. -/
def projectALine : GoString :=
  ("\x7b\"ID\":\"mno345\",\"Names\":\"a-1\",\"Image\":\"busybox\"," ++
   "\"State\":\"running\",\"Status\":\"Up\",\"Ports\":\"\"," ++
   "\"Labels\":\"com.docker.compose.project=a\",\"CreatedAt\":\"\"," ++
   "\"Networks\":\"\"\x7d").toList

/-- What `json.Unmarshal` makes of the output lines above. -/
def testUnmarshal : GoString → Except GoString containerInfo :=
  tableUnmarshal [(webappLine, webappContainer), (apiLine, apiContainer),
    (redisLine, redisContainer), (sentinelLine, sentinelContainer),
    (projectALine, projectAContainer)]

/-- A mock whose `docker ps` lists `sentinelContainer` and `projectAContainer`. -/
def sentinelMock : Mock :=
  NewMock.On "ps -a --format \x7b\x7bjson .\x7d\x7d".toList
    (.ok (sentinelLine ++ "\n".toList ++ projectALine))

/-- The container of `TestHandleListContainers_NotAllFlag`. -/
def runningContainer : containerInfo :=
  ⟨"abc123".toList, "running-container".toList, "nginx".toList, "running".toList,
    "Up 1 hour".toList, [], [], [], []⟩

/-- The output line of `docker ps` in `TestHandleListContainers_NotAllFlag`. -/
def runningLine : GoString :=
  ("\x7b\"ID\":\"abc123\",\"Names\":\"running-container\",\"Image\":\"nginx\"," ++
   "\"State\":\"running\",\"Status\":\"Up 1 hour\",\"Ports\":\"\"," ++
   "\"Labels\":\"\",\"CreatedAt\":\"\",\"Networks\":\"\"\x7d").toList

/-- The mock of `TestHandleListContainers_NotAllFlag`: only the command without `-a` is
registered. -/
def notAllFlagMock : Mock :=
  NewMock.On "ps --format \x7b\x7bjson .\x7d\x7d".toList (.ok runningLine)

/-- The output line of `docker events` in `TestHandleContainerEvents_CustomTimeRange`. -/
def restartEventLine : GoString :=
  ("\x7b\"status\":\"restart\",\"Action\":\"restart\",\"Type\":\"container\"," ++
   "\"Actor\":\x7b\"ID\":\"def456\",\"Attributes\":\x7b\"name\":\"api-server\"\x7d\x7d," ++
   "\"time\":1700050000\x7d").toList

/-- The mock of `TestHandleContainerEvents_CustomTimeRange`. -/
def customTimeRangeMock : Mock :=
  NewMock.On ("events --filter type=container --since 2024-01-01T00:00:00Z " ++
    "--until 2024-01-02T00:00:00Z --format \x7b\x7bjson .\x7d\x7d").toList
    (.ok restartEventLine)

/-- The arguments of `TestHandleContainerEvents_CustomTimeRange`. -/
def customTimeRangeArgs : containerEventsArgs :=
  ⟨[], "2024-01-01T00:00:00Z".toList, "2024-01-02T00:00:00Z".toList, []⟩

/-- What `json.Unmarshal` makes of the output line of that test. -/
def eventUnmarshal (line : GoString) : Except GoString dockerEvent :=
  if line = restartEventLine then
    .ok ⟨"restart".toList, "restart".toList, "container".toList,
      ⟨"def456".toList, [("name".toList, "api-server".toList)]⟩, 1700050000, []⟩
  else .error "invalid character".toList

/-- The mock of `TestHandleContainerHealth_NoHealthcheck`. -/
def noHealthcheckMock : Mock :=
  (NewMock.On "inspect --format \x7b\x7bjson .State.Health\x7d\x7d nocheck".toList
    (.ok "null".toList)).On
    "inspect --format \x7b\x7bjson .Config.Healthcheck\x7d\x7d nocheck".toList
    (.ok "null".toList)

/-- A short inspect output: an array with one object that has the field `Id`. -/
def shortInspectJSON : GoString := "[\x7b\"Id\":\"abc123\"\x7d]".toList

/-- What `json.Unmarshal` makes of `shortInspectJSON` as a `[]map[string]any`. -/
def shortUnmarshalList (text : GoString) : Except GoString (List JsonObject) :=
  if text = shortInspectJSON then .ok [[("Id".toList, .string "abc123".toList)]]
  else .error "unexpected end of JSON input".toList

/-- What `json.Unmarshal` makes of `shortInspectJSON` as an `any`. -/
def shortUnmarshalAny (text : GoString) : Except GoString JsonValue :=
  if text = shortInspectJSON then
    .ok (.array [.object [("Id".toList, .string "abc123".toList)]])
  else .error "unexpected end of JSON input".toList

/-- What `json.MarshalIndent` makes of the value of `shortInspectJSON`; the value is not
looked at. -/
def shortMarshalIndent (_ : JsonValue) : Except GoString GoString :=
  .ok "[\n  \x7b\n    \"Id\": \"abc123\"\n  \x7d\n]".toList

/-- The mock of `TestHandleContainerInspect_DefaultSection`, with the short output. -/
def defaultSectionMock : Mock :=
  NewMock.On "inspect mycontainer".toList (.ok shortInspectJSON)

/-- What `json.Unmarshal` makes of the two lines of `TestHandleComposeLogs_TwoServices`. -/
def twoServicesUnmarshal (line : GoString) : Except GoString rawLogContainer :=
  if line = ("\x7b\"ID\":\"abc123\",\"Names\":\"myapp-web-1\",\"Labels\":" ++
      "\"com.docker.compose.project=myapp,com.docker.compose.service=web\"\x7d").toList then
    .ok ⟨"abc123".toList, "myapp-web-1".toList,
      "com.docker.compose.project=myapp,com.docker.compose.service=web".toList⟩
  else if line = ("\x7b\"ID\":\"def456\",\"Names\":\"myapp-db-1\",\"Labels\":" ++
      "\"com.docker.compose.project=myapp,com.docker.compose.service=db\"\x7d").toList then
    .ok ⟨"def456".toList, "myapp-db-1".toList,
      "com.docker.compose.project=myapp,com.docker.compose.service=db".toList⟩
  else .error "invalid character".toList

/-- The listing of `TestHandleComposeLogs_TwoServices`. -/
def twoServicesListing : GoString :=
  ("\x7b\"ID\":\"abc123\",\"Names\":\"myapp-web-1\",\"Labels\":" ++
    "\"com.docker.compose.project=myapp,com.docker.compose.service=web\"\x7d\n" ++
    "\x7b\"ID\":\"def456\",\"Names\":\"myapp-db-1\",\"Labels\":" ++
    "\"com.docker.compose.project=myapp,com.docker.compose.service=db\"\x7d").toList

/-- The mock of `TestHandleComposeLogs_TwoServices`. -/
def twoServicesMock : Mock :=
  ((NewMock.On ("ps -a --format \x7b\x7bjson .\x7d\x7d --filter " ++
      "label=com.docker.compose.project=myapp").toList (.ok twoServicesListing)).On
    "logs --tail 100 abc123".toList (.ok "web log line 1\nweb log line 2\n".toList)).On
    "logs --tail 100 def456".toList (.ok "db log line 1\ndb log line 2\n".toList)

/-- The mock of that test when the logs of the second container cannot be fetched. -/
def failingFetchMock : Mock :=
  ((NewMock.On ("ps -a --format \x7b\x7bjson .\x7d\x7d --filter " ++
      "label=com.docker.compose.project=myapp").toList (.ok twoServicesListing)).On
    "logs --tail 100 abc123".toList (.ok "web log line 1\nweb log line 2\n".toList)).On
    "logs --tail 100 def456".toList (.error "No such container: def456".toList)

/-- The mock of `TestHandleSearchLogs_WithContextLines`. -/
def withContextMock : Mock :=
  NewMock.On "logs --tail 1000 myapp".toList
    (.ok ("line1\nline2\nERROR something broke\nline4\nline5\nline6\nline7\n" ++
      "ERROR another failure\nline9\nline10").toList)

/-- The arguments of `TestHandleSearchLogs_WithContextLines`. -/
def withContextArgs : searchLogsArgs :=
  ⟨"myapp".toList, "ERROR".toList, 0, [], false, 1⟩

/-- What `json.Unmarshal` makes of the listing line of the tests of `compose_down`. -/
def dbLineUnmarshal (line : GoString) : Except GoString composeProjectContainer :=
  if line = ("\x7b\"ID\":\"abc123\",\"Names\":\"myproject-db-1\"," ++
      "\"State\":\"exited\"\x7d").toList then .ok ⟨"abc123".toList⟩
  else .error "invalid character".toList

/-- The mock of `TestHandleComposeDown_RemoveVolumes`. -/
def removeVolumesMock : Mock :=
  ((NewMock.On ("ps -a --format \x7b\x7bjson .\x7d\x7d --filter " ++
      "label=com.docker.compose.project=myproject").toList
      (.ok ("\x7b\"ID\":\"abc123\",\"Names\":\"myproject-db-1\"," ++
        "\"State\":\"exited\"\x7d").toList)).On
    ("inspect --format \x7b\x7bindex .Config.Labels " ++
      "\"com.docker.compose.project.working_dir\"\x7d\x7d abc123").toList
      (.ok "/home/user/myproject\n".toList)).On
    "compose --project-directory /home/user/myproject -p myproject down --volumes".toList
      (.ok "Removing volume myproject_db-data ... done\n".toList)

/-- The mock of `TestHandleComposeUp_ProjectNotFound`. -/
def projectNotFoundMock : Mock :=
  NewMock.On ("ps -a --format \x7b\x7bjson .\x7d\x7d --filter " ++
    "label=com.docker.compose.project=ghost").toList (.ok [])

/-! ## Lemmas on the count map -/

theorem CountMap.get_incr (m : CountMap) (k k' : GoString) :
    (m.incr k).get k' = if k = k' then m.get k' + 1 else m.get k' := by
  induction m with
  | nil =>
    by_cases h : k = k' <;> simp [CountMap.incr, CountMap.get, h]
  | cons p rest ih =>
    obtain ⟨a, v⟩ := p
    by_cases ha : a = k
    · subst ha
      by_cases h : a = k' <;> simp [CountMap.incr, CountMap.get, h]
    · by_cases h : k = k'
      · subst h
        simp [CountMap.incr, CountMap.get, ha, ih]
      · by_cases h2 : a = k'
        · subst h2
          simp [CountMap.incr, CountMap.get, ha, h]
        · simp [CountMap.incr, CountMap.get, ha, h, h2, ih]

theorem CountMap.keys_incr (m : CountMap) (k : GoString) :
    (m.incr k).keys = setInsert m.keys k := by
  induction m with
  | nil => simp [CountMap.incr, CountMap.keys, setInsert]
  | cons p rest ih =>
    obtain ⟨a, v⟩ := p
    by_cases ha : a = k
    · subst ha
      simp [CountMap.incr, CountMap.keys, setInsert]
    · have hk : ¬ k = a := fun h => ha h.symm
      simp only [CountMap.keys] at ih
      by_cases hm : k ∈ List.map Prod.fst rest
      · simp [CountMap.incr, CountMap.keys, setInsert, ha, hk, hm, ih]
      · simp [CountMap.incr, CountMap.keys, setInsert, ha, hk, hm, ih]

theorem mem_setInsert (s : List GoString) (k x : GoString) :
    x ∈ setInsert s k ↔ x ∈ s ∨ x = k := by
  unfold setInsert
  by_cases h : k ∈ s
  · simp only [h, if_true]
    constructor
    · exact Or.inl
    · rintro (h1 | h1)
      · exact h1
      · subst h1; exact h
  · simp [h]

theorem nodup_setInsert (s : List GoString) (k : GoString) (h : s.Nodup) :
    (setInsert s k).Nodup := by
  unfold setInsert
  by_cases hk : k ∈ s
  · simpa [hk] using h
  · simp only [hk, if_false]
    rw [List.nodup_append]
    refine ⟨h, List.nodup_singleton k, ?_⟩
    intro a ha hb
    simp at hb
    subst hb
    exact hk ha

theorem mem_foldl_setInsert (ks s : List GoString) (x : GoString) :
    x ∈ ks.foldl setInsert s ↔ x ∈ s ∨ x ∈ ks := by
  induction ks generalizing s with
  | nil => simp
  | cons k ks ih =>
    simp only [List.foldl_cons, ih, mem_setInsert, List.mem_cons]
    tauto

theorem nodup_foldl_setInsert (ks s : List GoString) (h : s.Nodup) :
    (ks.foldl setInsert s).Nodup := by
  induction ks generalizing s with
  | nil => simpa using h
  | cons k ks ih => exact ih _ (nodup_setInsert s k h)

theorem CountMap.WF_nil : CountMap.WF [] := by
  simp [CountMap.WF, CountMap.keys, CountMap.get]

theorem CountMap.WF_incr (m : CountMap) (k : GoString) (h : m.WF) : (m.incr k).WF := by
  obtain ⟨hn, hk⟩ := h
  refine ⟨?_, ?_⟩
  · rw [CountMap.keys_incr]; exact nodup_setInsert _ _ hn
  · intro x
    rw [CountMap.keys_incr, mem_setInsert, CountMap.get_incr, hk]
    by_cases hx : k = x
    · subst hx; simp
    · have hx2 : ¬ x = k := fun h => hx h.symm
      simp [hx, hx2]

theorem countLinesStep_WF (m : CountMap) (line : GoString) (h : m.WF) :
    (countLinesStep m line).WF := by
  unfold countLinesStep
  by_cases hl : TrimSpace line = []
  · simpa [hl] using h
  · simp only [hl, if_false]
    exact CountMap.WF_incr _ _ h

theorem foldl_countLinesStep_WF (ls : List GoString) (m : CountMap) (h : m.WF) :
    (ls.foldl countLinesStep m).WF := by
  induction ls generalizing m with
  | nil => simpa using h
  | cons l ls ih => exact ih _ (countLinesStep_WF m l h)

theorem foldl_countLinesStep_get (ls : List GoString) (m : CountMap) (l : GoString) :
    (ls.foldl countLinesStep m).get l
      = m.get l + ((ls.map TrimSpace).filter (fun x => x ≠ [])).count l := by
  induction ls generalizing m with
  | nil => simp
  | cons a ls ih =>
    rw [List.foldl_cons, ih]
    unfold countLinesStep
    by_cases ha : TrimSpace a = []
    · simp [ha]
    · simp only [ha, if_false, CountMap.get_incr, List.map_cons]
      rw [List.filter_cons_of_pos (by simpa using ha), List.count_cons]
      by_cases hl : TrimSpace a = l
      · simp [hl]; omega
      · simp [hl]

theorem countLines_WF (text : GoString) : (countLines text).WF :=
  foldl_countLinesStep_WF _ _ CountMap.WF_nil

/-- The map built by `countLines` holds, for every string, its number of occurrences among
the trimmed non-blank lines. -/
theorem countLines_get (text l : GoString) :
    (countLines text).get l = (nonBlankLines text).count l := by
  unfold countLines nonBlankLines
  rw [foldl_countLinesStep_get]
  simp [CountMap.get]

theorem mem_keys_countLines (text l : GoString) :
    l ∈ (countLines text).keys ↔ l ∈ nonBlankLines text := by
  rw [(countLines_WF text).2, countLines_get, List.count_pos_iff]

theorem mem_allLines (A B l : GoString) :
    l ∈ allLines (countLines A) (countLines B) ↔ l ∈ nonBlankLines A ∨ l ∈ nonBlankLines B := by
  unfold allLines
  rw [mem_foldl_setInsert, mem_foldl_setInsert, mem_keys_countLines, mem_keys_countLines]
  simp

theorem nodup_allLines (c1 c2 : CountMap) : (allLines c1 c2).Nodup :=
  nodup_foldl_setInsert _ _ (nodup_foldl_setInsert _ _ List.nodup_nil)

/-! ## Lemmas on `sort.Strings` -/

theorem sortStrings_perm (xs : List GoString) : List.Perm (sortStrings xs) xs :=
  List.perm_insertionSort _ xs

theorem sortStrings_sorted (xs : List GoString) :
    List.Sorted (fun a b => a ≤ b) (sortStrings xs) :=
  List.sorted_insertionSort _ xs

theorem mem_sortStrings (xs : List GoString) (x : GoString) : x ∈ sortStrings xs ↔ x ∈ xs :=
  (sortStrings_perm xs).mem_iff

theorem nodup_sortStrings (xs : List GoString) (h : xs.Nodup) : (sortStrings xs).Nodup :=
  (sortStrings_perm xs).nodup_iff.mpr h

/-- Sorting does not depend on the order in which the elements arrive. -/
theorem sortStrings_congr (xs ys : List GoString) (h : List.Perm xs ys) :
    sortStrings xs = sortStrings ys :=
  List.eq_of_perm_of_sorted
    (((sortStrings_perm xs).trans h).trans (sortStrings_perm ys).symm)
    (sortStrings_sorted xs) (sortStrings_sorted ys)

/-- A sorted list without repetitions is strictly ascending. -/
theorem sortStrings_strict (xs : List GoString) (h : xs.Nodup) :
    List.Sorted (fun a b => a < b) (sortStrings xs) := by
  have hs := sortStrings_sorted xs
  have hn := nodup_sortStrings xs h
  unfold List.Sorted at hs ⊢
  unfold List.Nodup at hn
  exact (hs.and hn).imp (fun ⟨h1, h2⟩ => lt_of_le_of_ne h1 h2)

theorem foldl_classifyLine (c1 c2 : CountMap) (iter : List GoString) (acc : Partitions) :
    iter.foldl (classifyLine c1 c2) acc =
      ⟨acc.onlyIn1 ++ iter.filter (isOnly1 c1 c2),
       acc.onlyIn2 ++ iter.filter (isOnly2 c1 c2),
       acc.changed ++ (iter.filter (isChanged c1 c2)).map
         (fun l => fmtChanged l (c1.get l) (c2.get l)),
       acc.common ++ iter.filter (isCommon c1 c2)⟩ := by
  induction iter generalizing acc with
  | nil => simp
  | cons l iter ih =>
    rw [List.foldl_cons, ih]
    unfold classifyLine
    by_cases h1 : c1.get l > 0 ∧ c2.get l = 0
    · have e1 : isOnly1 c1 c2 l = true := by simp [isOnly1, h1]
      have e2 : isOnly2 c1 c2 l = false := by simp [isOnly2]; omega
      simp [h1, List.filter_cons, e1, e2, isChanged, isCommon]
    · by_cases h2 : c1.get l = 0 ∧ c2.get l > 0
      · have e1 : isOnly1 c1 c2 l = false := by simp [isOnly1]; omega
        have e2 : isOnly2 c1 c2 l = true := by simp [isOnly2, h2]
        simp [h1, h2, List.filter_cons, e1, e2, isChanged, isCommon]
      · have e1 : isOnly1 c1 c2 l = false := by simp [isOnly1]; omega
        have e2 : isOnly2 c1 c2 l = false := by simp [isOnly2]; omega
        by_cases h3 : c1.get l = c2.get l
        · have e3 : isChanged c1 c2 l = false := by simp [isChanged, h3]
          have e4 : isCommon c1 c2 l = true := by simp [isCommon, e1, e2, h3]
          have h3n : ¬ (c1.get l ≠ c2.get l) := fun h => h h3
          simp only [h1, h2, h3n, if_false]
          simp [List.filter_cons, e1, e2, e3, e4]
        · have e3 : isChanged c1 c2 l = true := by simp [isChanged, e1, e2, h3]
          have e4 : isCommon c1 c2 l = false := by simp [isCommon, h3]
          have h3n : c1.get l ≠ c2.get l := h3
          simp only [h1, h2, h3n, if_false, if_true]
          simp [List.filter_cons, e1, e2, e3, e4, h3]

/-- The partitions computed for any visiting order of the key set. -/
theorem classify_eq (c1 c2 : CountMap) (iter : List GoString) :
    classify c1 c2 iter =
      ⟨sortStrings (iter.filter (isOnly1 c1 c2)),
       sortStrings (iter.filter (isOnly2 c1 c2)),
       sortStrings ((iter.filter (isChanged c1 c2)).map
         (fun l => fmtChanged l (c1.get l) (c2.get l))),
       sortStrings (iter.filter (isCommon c1 c2))⟩ := by
  unfold classify
  rw [foldl_classifyLine]
  simp

/-- The partitions do not depend on the order in which the map is iterated. -/
theorem classify_perm (c1 c2 : CountMap) (iter iter' : List GoString)
    (h : List.Perm iter iter') : classify c1 c2 iter = classify c1 c2 iter' := by
  rw [classify_eq, classify_eq]
  rw [sortStrings_congr _ _ (h.filter (isOnly1 c1 c2)),
      sortStrings_congr _ _ (h.filter (isOnly2 c1 c2)),
      sortStrings_congr _ _ (h.filter (isCommon c1 c2)),
      sortStrings_congr _ _ ((h.filter (isChanged c1 c2)).map _)]

/-! ## The rendered count-change entry determines its line and counts -/

theorem span_digits (p : Char → Bool) (xs ys : List Char) (c : Char)
    (hx : ∀ x ∈ xs, p x = true) (hc : p c = false) :
    (xs ++ c :: ys).takeWhile p = xs ∧ (xs ++ c :: ys).dropWhile p = c :: ys := by
  induction xs with
  | nil => simp [List.takeWhile, List.dropWhile, hc]
  | cons x xs ih =>
    have hx1 : p x = true := hx x (List.mem_cons_self _ _)
    have ih2 := ih (fun y hy => hx y (List.mem_cons_of_mem _ hy))
    simp [List.takeWhile, List.dropWhile, hx1, ih2.1, ih2.2]

theorem digitChar_isDigit : ∀ d, d < 10 → (Nat.digitChar d).isDigit = true := by decide

theorem digitChar_val : ∀ d, d < 10 → (Nat.digitChar d).toNat - 48 = d := by decide

theorem toDigitsCore_isDigit (fuel n : Nat) (ds : List Char)
    (h : ∀ c ∈ ds, c.isDigit = true) : ∀ c ∈ Nat.toDigitsCore 10 fuel n ds, c.isDigit = true := by
  induction fuel generalizing n ds with
  | zero => simpa [Nat.toDigitsCore] using h
  | succ fuel ih =>
    have hd : (Nat.digitChar (n % 10)).isDigit = true :=
      digitChar_isDigit _ (Nat.mod_lt _ (by decide))
    have hcons : ∀ c ∈ Nat.digitChar (n % 10) :: ds, c.isDigit = true := by
      intro c hc
      rcases List.mem_cons.mp hc with h1 | h1
      · rw [h1]; exact hd
      · exact h c h1
    unfold Nat.toDigitsCore
    by_cases h0 : n / 10 = 0
    · simpa [h0] using hcons
    · simp only [h0, if_false]
      exact ih _ _ hcons

theorem fmtInt_isDigit (n : Nat) : ∀ c ∈ fmtInt n, c.isDigit = true :=
  toDigitsCore_isDigit _ _ _ (by simp)

theorem toDigitsCore_value (fuel n : Nat) (ds : List Char) (h : n < fuel) :
    digitsValue (Nat.toDigitsCore 10 fuel n ds) 0 = digitsValue ds n := by
  induction fuel generalizing n ds with
  | zero => omega
  | succ fuel ih =>
    have hv := digitChar_val (n % 10) (Nat.mod_lt _ (by decide))
    unfold Nat.toDigitsCore
    by_cases h0 : n / 10 = 0
    · simp only [h0, if_true]
      have : n % 10 = n := by omega
      simp only [digitsValue, List.foldl_cons, Nat.mul_zero, Nat.zero_add, hv]
      rw [this]
    · simp only [h0, if_false]
      rw [ih _ _ (by omega)]
      have : 10 * (n / 10) + n % 10 = n := by omega
      simp [digitsValue, hv, this]

theorem fmtInt_injective (a b : Nat) (h : fmtInt a = fmtInt b) : a = b := by
  have ha := toDigitsCore_value (a + 1) a [] (by omega)
  have hb := toDigitsCore_value (b + 1) b [] (by omega)
  unfold fmtInt Nat.toDigits at h
  rw [h, hb] at ha
  simpa [digitsValue] using ha.symm

theorem parseChanged_fmtChanged (l : GoString) (a b : Nat) :
    parseChanged (fmtChanged l a b) = (l, fmtInt a, fmtInt b) := by
  have hA : ∀ c ∈ (fmtInt a).reverse, c.isDigit = true := fun c hc =>
    fmtInt_isDigit a c (List.mem_reverse.mp hc)
  have hB : ∀ c ∈ (fmtInt b).reverse, c.isDigit = true := fun c hc =>
    fmtInt_isDigit b c (List.mem_reverse.mp hc)
  have e1 : (fmtChanged l a b).reverse =
      ')' :: 'x' :: ((fmtInt b).reverse ++ ' ' :: (':' :: '2' :: 'd' :: 'o' :: 'i' :: 'r' ::
        'e' :: 'p' :: ' ' :: ',' :: 'x' :: ((fmtInt a).reverse ++ ' ' :: (':' :: '1' :: 'd' ::
        'o' :: 'i' :: 'r' :: 'e' :: 'p' :: '(' :: ' ' :: (l.reverse ++ [' ', ' ']))))) := by
    simp [fmtChanged, List.reverse_append]
  have s1 := span_digits Char.isDigit (fmtInt b).reverse
    (':' :: '2' :: 'd' :: 'o' :: 'i' :: 'r' ::
        'e' :: 'p' :: ' ' :: ',' :: 'x' :: ((fmtInt a).reverse ++ ' ' :: (':' :: '1' :: 'd' ::
        'o' :: 'i' :: 'r' :: 'e' :: 'p' :: '(' :: ' ' :: (l.reverse ++ [' ', ' ']))))
    ' ' hB (by decide)
  have s2 := span_digits Char.isDigit (fmtInt a).reverse
    (':' :: '1' :: 'd' :: 'o' :: 'i' :: 'r' :: 'e' :: 'p' :: '(' :: ' ' :: (l.reverse ++ [' ', ' ']))
    ' ' hA (by decide)
  unfold parseChanged
  simp only [e1, List.drop_succ_cons, List.drop_zero, s1.1, s1.2, s2.1, s2.2]
  simp

theorem fmtChanged_injective (l l' : GoString) (a b a' b' : Nat)
    (h : fmtChanged l a b = fmtChanged l' a' b') : l = l' ∧ a = a' ∧ b = b' := by
  have h1 := parseChanged_fmtChanged l a b
  rw [h, parseChanged_fmtChanged] at h1
  simp only [Prod.mk.injEq] at h1
  exact ⟨h1.1.symm, fmtInt_injective _ _ h1.2.1.symm, fmtInt_injective _ _ h1.2.2.symm⟩

theorem diffLogs_eq (A B : GoString) :
    diffLogs A B =
      ⟨sortStrings ((allLines (countLines A) (countLines B)).filter
          (isOnly1 (countLines A) (countLines B))),
       sortStrings ((allLines (countLines A) (countLines B)).filter
          (isOnly2 (countLines A) (countLines B))),
       sortStrings (((allLines (countLines A) (countLines B)).filter
          (isChanged (countLines A) (countLines B))).map
            (fun l => fmtChanged l ((countLines A).get l) ((countLines B).get l))),
       sortStrings ((allLines (countLines A) (countLines B)).filter
          (isCommon (countLines A) (countLines B)))⟩ :=
  classify_eq _ _ _

theorem mem_allLines_of_pos (A B l : GoString)
    (h : 0 < (nonBlankLines A).count l ∨ 0 < (nonBlankLines B).count l) :
    l ∈ allLines (countLines A) (countLines B) := by
  rw [mem_allLines]
  rcases h with h | h
  · exact Or.inl (List.count_pos_iff.mp h)
  · exact Or.inr (List.count_pos_iff.mp h)

theorem mem_onlyIn1 (A B l : GoString) :
    l ∈ (diffLogs A B).onlyIn1 ↔
      0 < (nonBlankLines A).count l ∧ (nonBlankLines B).count l = 0 := by
  rw [diffLogs_eq]
  simp only [mem_sortStrings, List.mem_filter, isOnly1, countLines_get, decide_eq_true_eq]
  constructor
  · exact fun h => h.2
  · exact fun h => ⟨mem_allLines_of_pos A B l (Or.inl h.1), h⟩

theorem mem_onlyIn2 (A B l : GoString) :
    l ∈ (diffLogs A B).onlyIn2 ↔
      (nonBlankLines A).count l = 0 ∧ 0 < (nonBlankLines B).count l := by
  rw [diffLogs_eq]
  simp only [mem_sortStrings, List.mem_filter, isOnly2, countLines_get, decide_eq_true_eq]
  constructor
  · exact fun h => h.2
  · exact fun h => ⟨mem_allLines_of_pos A B l (Or.inr h.2), h⟩

theorem mem_common (A B l : GoString) :
    l ∈ (diffLogs A B).common ↔
      (nonBlankLines A).count l = (nonBlankLines B).count l ∧ 0 < (nonBlankLines A).count l := by
  rw [diffLogs_eq]
  simp only [mem_sortStrings, List.mem_filter, isCommon, isOnly1, isOnly2, countLines_get,
    Bool.and_eq_true, Bool.not_eq_true', decide_eq_false_iff_not, decide_eq_true_eq]
  constructor
  · rintro ⟨hm, ⟨h1, h2⟩, h3⟩
    rcases (mem_allLines A B l).mp hm with h | h
    · exact ⟨h3, List.count_pos_iff.mpr h⟩
    · have := List.count_pos_iff.mpr h
      exact ⟨h3, by omega⟩
  · rintro ⟨h1, h2⟩
    refine ⟨mem_allLines_of_pos A B l (Or.inl h2), ⟨?_, ?_⟩, h1⟩ <;> omega

theorem mem_changed (A B e : GoString) :
    e ∈ (diffLogs A B).changed ↔
      ∃ l, (0 < (nonBlankLines A).count l ∧ 0 < (nonBlankLines B).count l ∧
            (nonBlankLines A).count l ≠ (nonBlankLines B).count l) ∧
           e = fmtChanged l ((nonBlankLines A).count l) ((nonBlankLines B).count l) := by
  rw [diffLogs_eq]
  simp only [mem_sortStrings, List.mem_map, List.mem_filter, isChanged, isOnly1, isOnly2,
    countLines_get, Bool.and_eq_true, Bool.not_eq_true', decide_eq_false_iff_not,
    decide_eq_true_eq]
  constructor
  · rintro ⟨l, ⟨hm, ⟨h1, h2⟩, h3⟩, rfl⟩
    refine ⟨l, ⟨?_, ?_, h3⟩, rfl⟩
    · rcases (mem_allLines A B l).mp hm with h | h
      · exact List.count_pos_iff.mpr h
      · have := List.count_pos_iff.mpr h
        omega
    · rcases (mem_allLines A B l).mp hm with h | h
      · have := List.count_pos_iff.mpr h
        omega
      · exact List.count_pos_iff.mpr h
  · rintro ⟨l, ⟨h1, h2, h3⟩, rfl⟩
    refine ⟨l, ⟨mem_allLines_of_pos A B l (Or.inl h1), ⟨?_, ?_⟩, h3⟩, rfl⟩ <;> omega

/-- An entry `fmtChanged l c1 c2` is listed exactly when `c1`, `c2` are the counts of `l`
and the line falls in the third case of the switch. -/
theorem fmtChanged_mem_changed (A B l : GoString) (c1 c2 : Nat) :
    fmtChanged l c1 c2 ∈ (diffLogs A B).changed ↔
      c1 = (nonBlankLines A).count l ∧ c2 = (nonBlankLines B).count l ∧
        0 < c1 ∧ 0 < c2 ∧ c1 ≠ c2 := by
  rw [mem_changed]
  constructor
  · rintro ⟨l', ⟨h1, h2, h3⟩, he⟩
    obtain ⟨rfl, rfl, rfl⟩ := fmtChanged_injective _ _ _ _ _ _ he
    exact ⟨rfl, rfl, h1, h2, h3⟩
  · rintro ⟨rfl, rfl, h1, h2, h3⟩
    exact ⟨l, ⟨h1, h2, h3⟩, rfl⟩

theorem listsChanged_iff (A B l : GoString) :
    (diffLogs A B).listsChanged l ↔
      0 < (nonBlankLines A).count l ∧ 0 < (nonBlankLines B).count l ∧
        (nonBlankLines A).count l ≠ (nonBlankLines B).count l := by
  unfold Partitions.listsChanged
  constructor
  · rintro ⟨c1, c2, h⟩
    obtain ⟨rfl, rfl, h1, h2, h3⟩ := (fmtChanged_mem_changed A B l c1 c2).mp h
    exact ⟨h1, h2, h3⟩
  · rintro ⟨h1, h2, h3⟩
    exact ⟨_, _, (fmtChanged_mem_changed A B l _ _).mpr ⟨rfl, rfl, h1, h2, h3⟩⟩

theorem nodup_partitions (A B : GoString) :
    (diffLogs A B).onlyIn1.Nodup ∧ (diffLogs A B).onlyIn2.Nodup ∧
      (diffLogs A B).changed.Nodup ∧ (diffLogs A B).common.Nodup := by
  have hn := nodup_allLines (countLines A) (countLines B)
  rw [diffLogs_eq]
  refine ⟨nodup_sortStrings _ (hn.filter _), nodup_sortStrings _ (hn.filter _),
    nodup_sortStrings _ ?_, nodup_sortStrings _ (hn.filter _)⟩
  refine List.Nodup.map_on ?_ (hn.filter _)
  intro x _ y _ hxy
  exact (fmtChanged_injective _ _ _ _ _ _ hxy).1

/-! ## The log differ: claims C1 to C7 -/

theorem handleLogDiff_ok {σ : Type} (exec : Executor σ) (s s1 s2 : σ) (args : logDiffArgs)
    (logs1 logs2 : GoString)
    (h1 : fetchLogs exec s args.Container args.Period1Start args.Period1End = (.ok logs1, s1))
    (h2 : fetchLogs exec s1 args.Container args.Period2Start args.Period2End = (.ok logs2, s2)) :
    handleLogDiff exec s args = (.ok (renderReport args (diffLogs logs1 logs2)), s2) := by
  unfold handleLogDiff
  rw [h1]
  simp only []
  rw [h2]

theorem writeIndented_eq (entries : List GoString) :
    writeIndented entries = sectionText (entries.map indent) := by
  unfold writeIndented sectionText
  cases entries with
  | nil => simp
  | cons a rest => simp [indent, Function.comp_def]

theorem writeChanged_eq (entries : List GoString) :
    writeChanged entries = sectionText entries := by
  unfold writeChanged sectionText
  cases entries with
  | nil => simp
  | cons a rest => simp

/-- C1. Partition completeness: every trimmed non-blank line of either text is listed in
exactly one of the four partitions and only once there; no partition lists a line that
occurs in neither text. -/
theorem C1_partition_completeness (A B : GoString) :
    (∀ l, l ∈ nonBlankLines A ∨ l ∈ nonBlankLines B →
      exactlyOne (l ∈ (diffLogs A B).onlyIn1) (l ∈ (diffLogs A B).onlyIn2)
        ((diffLogs A B).listsChanged l) (l ∈ (diffLogs A B).common)) ∧
    ((diffLogs A B).onlyIn1.Nodup ∧ (diffLogs A B).onlyIn2.Nodup ∧
      (diffLogs A B).changed.Nodup ∧ (diffLogs A B).common.Nodup) ∧
    (∀ l, l ∈ (diffLogs A B).onlyIn1 ∨ l ∈ (diffLogs A B).onlyIn2 ∨
        (diffLogs A B).listsChanged l ∨ l ∈ (diffLogs A B).common →
      l ∈ nonBlankLines A ∨ l ∈ nonBlankLines B) ∧
    (∀ e ∈ (diffLogs A B).changed, ∃ l c1 c2, e = fmtChanged l c1 c2 ∧
      (l ∈ nonBlankLines A ∨ l ∈ nonBlankLines B)) := by
  refine ⟨?_, nodup_partitions A B, ?_, ?_⟩
  · intro l hl
    have hp : 0 < (nonBlankLines A).count l ∨ 0 < (nonBlankLines B).count l := by
      rcases hl with h | h
      · exact Or.inl (List.count_pos_iff.mpr h)
      · exact Or.inr (List.count_pos_iff.mpr h)
    unfold exactlyOne
    rw [mem_onlyIn1, mem_onlyIn2, listsChanged_iff, mem_common]
    omega
  · intro l hl
    rw [mem_onlyIn1, mem_onlyIn2, listsChanged_iff, mem_common] at hl
    have hp : 0 < (nonBlankLines A).count l ∨ 0 < (nonBlankLines B).count l := by omega
    rcases hp with h | h
    · exact Or.inl (List.count_pos_iff.mp h)
    · exact Or.inr (List.count_pos_iff.mp h)
  · intro e he
    obtain ⟨l, ⟨h1, _, _⟩, rfl⟩ := (mem_changed A B e).mp he
    exact ⟨l, _, _, rfl, Or.inl (List.count_pos_iff.mp h1)⟩

/-- C2. Classification rule: with `c1`, `c2` the occurrence counts of `l` among the trimmed
non-blank lines of the two texts, `l` is only-in-1 iff `c1 > 0 ∧ c2 = 0`, only-in-2 iff
`c1 = 0 ∧ c2 > 0`, count-changed iff both are positive and differ (and then its entry carries
exactly these counts), common iff `c1 = c2 > 0`; a line with `N > 1` occurrences on one side
and none on the other is only-in, never count-changed. -/
theorem C2_classification_rule (A B l : GoString) :
    (l ∈ (diffLogs A B).onlyIn1 ↔
      (nonBlankLines A).count l > 0 ∧ (nonBlankLines B).count l = 0) ∧
    (l ∈ (diffLogs A B).onlyIn2 ↔
      (nonBlankLines A).count l = 0 ∧ (nonBlankLines B).count l > 0) ∧
    ((diffLogs A B).listsChanged l ↔
      (nonBlankLines A).count l > 0 ∧ (nonBlankLines B).count l > 0 ∧
        (nonBlankLines A).count l ≠ (nonBlankLines B).count l) ∧
    (∀ c1 c2, fmtChanged l c1 c2 ∈ (diffLogs A B).changed →
      c1 = (nonBlankLines A).count l ∧ c2 = (nonBlankLines B).count l) ∧
    (l ∈ (diffLogs A B).common ↔
      (nonBlankLines A).count l = (nonBlankLines B).count l ∧ (nonBlankLines A).count l > 0) ∧
    (∀ N, N > 1 →
      ((nonBlankLines A).count l = N ∧ (nonBlankLines B).count l = 0 →
        l ∈ (diffLogs A B).onlyIn1 ∧ ¬ (diffLogs A B).listsChanged l) ∧
      ((nonBlankLines A).count l = 0 ∧ (nonBlankLines B).count l = N →
        l ∈ (diffLogs A B).onlyIn2 ∧ ¬ (diffLogs A B).listsChanged l)) := by
  refine ⟨mem_onlyIn1 A B l, mem_onlyIn2 A B l, listsChanged_iff A B l, ?_, mem_common A B l, ?_⟩
  · intro c1 c2 h
    obtain ⟨h1, h2, _⟩ := (fmtChanged_mem_changed A B l c1 c2).mp h
    exact ⟨h1, h2⟩
  · intro N hN
    rw [mem_onlyIn1, mem_onlyIn2, listsChanged_iff]
    omega

theorem sorted_partitions (A B : GoString) :
    List.Sorted (fun a b => a ≤ b) (diffLogs A B).onlyIn1 ∧
    List.Sorted (fun a b => a ≤ b) (diffLogs A B).onlyIn2 ∧
    List.Sorted (fun a b => a ≤ b) (diffLogs A B).changed ∧
    List.Sorted (fun a b => a ≤ b) (diffLogs A B).common := by
  rw [diffLogs_eq]
  exact ⟨sortStrings_sorted _, sortStrings_sorted _, sortStrings_sorted _, sortStrings_sorted _⟩

/-- Two ascending lists without repetitions and with the same elements are equal. -/
theorem sorted_ext (xs ys : List GoString) (hx : xs.Nodup) (hy : ys.Nodup)
    (sx : List.Sorted (fun a b => a ≤ b) xs) (sy : List.Sorted (fun a b => a ≤ b) ys)
    (h : ∀ a, a ∈ xs ↔ a ∈ ys) : xs = ys :=
  List.eq_of_perm_of_sorted ((List.perm_ext_iff_of_nodup hx hy).mpr h) sx sy

/-- C3. Symmetry: swapping the two texts swaps the two only-in partitions, keeps the common
partition, and keeps the count-changed lines with the two counts of every entry swapped. -/
theorem C3_symmetry (A B : GoString) :
    (diffLogs B A).onlyIn1 = (diffLogs A B).onlyIn2 ∧
    (diffLogs B A).onlyIn2 = (diffLogs A B).onlyIn1 ∧
    (diffLogs B A).common = (diffLogs A B).common ∧
    (∀ l, (diffLogs B A).listsChanged l ↔ (diffLogs A B).listsChanged l) ∧
    (∀ l c1 c2, fmtChanged l c2 c1 ∈ (diffLogs B A).changed ↔
      fmtChanged l c1 c2 ∈ (diffLogs A B).changed) := by
  have nAB := nodup_partitions A B
  have nBA := nodup_partitions B A
  have sAB := sorted_partitions A B
  have sBA := sorted_partitions B A
  refine ⟨?_, ?_, ?_, ?_, ?_⟩
  · refine sorted_ext _ _ nBA.1 nAB.2.1 sBA.1 sAB.2.1 (fun l => ?_)
    rw [mem_onlyIn1, mem_onlyIn2]
    omega
  · refine sorted_ext _ _ nBA.2.1 nAB.1 sBA.2.1 sAB.1 (fun l => ?_)
    rw [mem_onlyIn1, mem_onlyIn2]
    omega
  · refine sorted_ext _ _ nBA.2.2.2 nAB.2.2.2 sBA.2.2.2 sAB.2.2.2 (fun l => ?_)
    rw [mem_common, mem_common]
    omega
  · intro l
    rw [listsChanged_iff, listsChanged_iff]
    omega
  · intro l c1 c2
    rw [fmtChanged_mem_changed, fmtChanged_mem_changed]
    omega

/-- C4. Diffing a text against itself: both only-in partitions and the count-changes
partition are empty and rendered as `  (none)`, and the common partition is the ascending
list of the distinct trimmed non-blank lines of the text; this is the report returned when
both fetches yield the same text. -/
theorem C4_identical_logs {σ : Type} (exec : Executor σ) (s s1 s2 : σ) (args : logDiffArgs)
    (A : GoString)
    (h1 : fetchLogs exec s args.Container args.Period1Start args.Period1End = (.ok A, s1))
    (h2 : fetchLogs exec s1 args.Container args.Period2Start args.Period2End = (.ok A, s2)) :
    (diffLogs A A).onlyIn1 = [] ∧ (diffLogs A A).onlyIn2 = [] ∧ (diffLogs A A).changed = [] ∧
    (∀ l, l ∈ (diffLogs A A).common ↔ l ∈ nonBlankLines A) ∧
    (diffLogs A A).common.Nodup ∧
    (diffLogs A A).common = sortStrings (nonBlankLines A).dedup ∧
    handleLogDiff exec s args =
      (.ok (reportPreamble args ++
        "--- Only in Period 1 ---\n".toList ++ "  (none)\n".toList ++
        "\n--- Only in Period 2 ---\n".toList ++ "  (none)\n".toList ++
        "\n--- Count Changes ---\n".toList ++ "  (none)\n".toList ++
        "\n--- Common (unchanged) ---\n".toList ++
        sectionText ((sortStrings (nonBlankLines A).dedup).map indent)), s2) := by
  have e1 : (diffLogs A A).onlyIn1 = [] := by
    refine List.eq_nil_iff_forall_not_mem.mpr (fun l hl => ?_)
    rw [mem_onlyIn1] at hl
    omega
  have e2 : (diffLogs A A).onlyIn2 = [] := by
    refine List.eq_nil_iff_forall_not_mem.mpr (fun l hl => ?_)
    rw [mem_onlyIn2] at hl
    omega
  have e3 : (diffLogs A A).changed = [] := by
    refine List.eq_nil_iff_forall_not_mem.mpr (fun e he => ?_)
    obtain ⟨l, ⟨_, _, h⟩, _⟩ := (mem_changed A A e).mp he
    exact h rfl
  have e4 : ∀ l, l ∈ (diffLogs A A).common ↔ l ∈ nonBlankLines A := by
    intro l
    rw [mem_common, ← List.count_pos_iff]
    constructor
    · exact fun h => h.2
    · exact fun h => ⟨rfl, h⟩
  have e5 : (diffLogs A A).common = sortStrings (nonBlankLines A).dedup := by
    refine sorted_ext _ _ (nodup_partitions A A).2.2.2
      (nodup_sortStrings _ (List.nodup_dedup _)) (sorted_partitions A A).2.2.2
      (sortStrings_sorted _) (fun l => ?_)
    rw [e4, mem_sortStrings, List.mem_dedup]
  refine ⟨e1, e2, e3, e4, (nodup_partitions A A).2.2.2, e5, ?_⟩
  rw [handleLogDiff_ok exec s s1 s2 args A A h1 h2]
  unfold renderReport reportPreamble
  rw [e1, e2, e3, e5, writeIndented_eq (sortStrings _)]
  simp only [writeIndented, writeChanged, List.length_nil, if_true, List.append_assoc]

/-- C4 at the input of `TestHandleLogDiff_IdenticalLogs`. -/
theorem C4_identical_logs_witness :
    (diffLogs "INFO: all good\nINFO: running".toList "INFO: all good\nINFO: running".toList).onlyIn1
      = [] ∧
    (diffLogs "INFO: all good\nINFO: running".toList "INFO: all good\nINFO: running".toList).common
      = sortStrings (nonBlankLines "INFO: all good\nINFO: running".toList).dedup :=
  have h := C4_identical_logs mockExecutor identicalLogsMock
    (identicalLogsMock.exec ["logs".toList, "--since".toList, "2h".toList, "--until".toList,
      "1h".toList, "myapp".toList]).2
    ((identicalLogsMock.exec ["logs".toList, "--since".toList, "2h".toList, "--until".toList,
      "1h".toList, "myapp".toList]).2.exec ["logs".toList, "--since".toList, "1h".toList,
      "--until".toList, "now".toList, "myapp".toList]).2
    testArgs "INFO: all good\nINFO: running".toList rfl rfl
  ⟨h.1, h.2.2.2.2.2.1⟩

/-- C5 as stated fails: for the texts `a\nb\nb` and `a\nb` the count-changes partition is
not `["b (periodA: 2x, periodB: 1x)"]`; its entry is indented and labelled `period1`,
`period2`. -/
theorem C5_counterexample :
    (diffLogs "a\nb\nb".toList "a\nb".toList).changed
        ≠ ["b (periodA: 2x, periodB: 1x)".toList] ∧
    (diffLogs "a\nb\nb".toList "a\nb".toList).changed
        = ["  b (period1: 2x, period2: 1x)".toList] := by
  decide

/-- C5, amended. A line `l` with positive, different counts `c1`, `c2` has the entry
`"  <l> (period1: <c1>x, period2: <c2>x)"`, with the line text and both counts in decimal,
and no other entry annotates `l`; for the texts `a\nb\nb` and `a\nb` the partitions are
`[]`, `[]`, `["  b (period1: 2x, period2: 1x)"]`, `["a"]`. -/
theorem C5_changed_entry (A B l : GoString) (c1 c2 : Nat)
    (h1 : (nonBlankLines A).count l = c1) (h2 : (nonBlankLines B).count l = c2)
    (hpos1 : 0 < c1) (hpos2 : 0 < c2) (hne : c1 ≠ c2) :
    fmtChanged l c1 c2 ∈ (diffLogs A B).changed ∧
    fmtChanged l c1 c2 =
      "  ".toList ++ l ++ " (period1: ".toList ++ (Nat.repr c1).toList ++
        "x, period2: ".toList ++ (Nat.repr c2).toList ++ "x)".toList ∧
    (∀ d1 d2, fmtChanged l d1 d2 ∈ (diffLogs A B).changed → d1 = c1 ∧ d2 = c2) ∧
    diffLogs "a\nb\nb".toList "a\nb".toList =
      ⟨[], [], ["  b (period1: 2x, period2: 1x)".toList], ["a".toList]⟩ := by
  refine ⟨?_, rfl, ?_, by decide⟩
  · exact (fmtChanged_mem_changed A B l c1 c2).mpr ⟨h1.symm, h2.symm, hpos1, hpos2, hne⟩
  · intro d1 d2 h
    obtain ⟨e1, e2, _⟩ := (fmtChanged_mem_changed A B l d1 d2).mp h
    exact ⟨e1.trans h1, e2.trans h2⟩

/-- C5 at the texts `a\nb\nb` and `a\nb`, for the line `b` with counts 2 and 1. -/
theorem C5_changed_entry_witness :
    fmtChanged "b".toList 2 1 ∈ (diffLogs "a\nb\nb".toList "a\nb".toList).changed :=
  (C5_changed_entry "a\nb\nb".toList "a\nb".toList "b".toList 2 1
    (by decide) (by decide) (by decide) (by decide) (by decide)).1

/-- C6 as stated fails: with `retry` and `retry #2` both count-changed, the entry of
`retry #2` comes first although `retry` is the smaller line, so the count-changes sequence
is not ascending in the text of the annotated lines. -/
theorem C6_counterexample :
    (diffLogs "retry\nretry\nretry #2\nretry #2".toList "retry\nretry #2".toList).changed
      = [fmtChanged "retry #2".toList 2 1, fmtChanged "retry".toList 2 1] ∧
    "retry".toList < "retry #2".toList ∧
    ¬ List.Sorted (fun a b => a ≤ b)
      ((diffLogs "retry\nretry\nretry #2\nretry #2".toList
          "retry\nretry #2".toList).changed.map (fun e => (parseChanged e).1)) := by
  decide

/-- C6, amended. Each of the four sequences is strictly ascending in the lexicographic
order of its entries as stored: the line itself for the only-in and common partitions, the
rendered entry `"  <line> (period1: ..."` for count-changes; and the four sequences are the
same for every order in which the key set is iterated. -/
theorem C6_sorted_output (A B : GoString) :
    List.Sorted (fun a b => a < b) (diffLogs A B).onlyIn1 ∧
    List.Sorted (fun a b => a < b) (diffLogs A B).onlyIn2 ∧
    List.Sorted (fun a b => a < b) (diffLogs A B).changed ∧
    List.Sorted (fun a b => a < b) (diffLogs A B).common ∧
    (∀ iter, List.Perm iter (allLines (countLines A) (countLines B)) →
      classify (countLines A) (countLines B) iter = diffLogs A B) := by
  have hn := nodup_allLines (countLines A) (countLines B)
  refine ⟨?_, ?_, ?_, ?_, fun iter h => classify_perm _ _ _ _ h⟩
  · rw [diffLogs_eq]; exact sortStrings_strict _ (hn.filter _)
  · rw [diffLogs_eq]; exact sortStrings_strict _ (hn.filter _)
  · rw [diffLogs_eq]
    refine sortStrings_strict _ (List.Nodup.map_on ?_ (hn.filter _))
    intro x _ y _ hxy
    exact (fmtChanged_injective _ _ _ _ _ _ hxy).1
  · rw [diffLogs_eq]; exact sortStrings_strict _ (hn.filter _)

/-- C7. Layout of the report: after the title lines come the four section headers in the
order Only in Period 1, Only in Period 2, Count Changes, Common (unchanged), each followed
by its body, which is the single line `  (none)` for an empty partition and one row per
entry otherwise; when period 2 has no non-blank line its section is `  (none)` and every
non-blank line of period 1 is listed under Only in Period 1. -/
theorem C7_report_layout {σ : Type} (exec : Executor σ) (s s1 s2 : σ) (args : logDiffArgs)
    (logs1 logs2 : GoString)
    (h1 : fetchLogs exec s args.Container args.Period1Start args.Period1End = (.ok logs1, s1))
    (h2 : fetchLogs exec s1 args.Container args.Period2Start args.Period2End = (.ok logs2, s2)) :
    (handleLogDiff exec s args).1 =
      .ok (reportPreamble args ++
        "--- Only in Period 1 ---\n".toList ++
          sectionText ((diffLogs logs1 logs2).onlyIn1.map indent) ++ "\n".toList ++
        "--- Only in Period 2 ---\n".toList ++
          sectionText ((diffLogs logs1 logs2).onlyIn2.map indent) ++ "\n".toList ++
        "--- Count Changes ---\n".toList ++
          sectionText (diffLogs logs1 logs2).changed ++ "\n".toList ++
        "--- Common (unchanged) ---\n".toList ++
          sectionText ((diffLogs logs1 logs2).common.map indent)) ∧
    sectionText [] = "  (none)\n".toList ∧
    (∀ r rows, sectionText (r :: rows) = r ++ "\n".toList ++
      (rows.map (fun x => x ++ "\n".toList)).flatten) ∧
    (nonBlankLines logs2 = [] →
      sectionText ((diffLogs logs1 logs2).onlyIn2.map indent) = "  (none)\n".toList ∧
      (∀ l, l ∈ (diffLogs logs1 logs2).onlyIn1 ↔ l ∈ nonBlankLines logs1) ∧
      (∀ l ∈ nonBlankLines logs1,
        indent l ∈ (diffLogs logs1 logs2).onlyIn1.map indent)) := by
  refine ⟨?_, rfl, ?_, ?_⟩
  · rw [handleLogDiff_ok exec s s1 s2 args logs1 logs2 h1 h2]
    unfold renderReport reportPreamble
    simp only [writeIndented_eq, writeChanged_eq, List.append_assoc]
    rfl
  · intro r rows
    simp [sectionText]
  · intro hB
    have hc : ∀ l, (nonBlankLines logs2).count l = 0 := by
      intro l; rw [hB]; rfl
    have e2 : (diffLogs logs1 logs2).onlyIn2 = [] := by
      refine List.eq_nil_iff_forall_not_mem.mpr (fun l hl => ?_)
      rw [mem_onlyIn2, hc] at hl
      omega
    have e1 : ∀ l, l ∈ (diffLogs logs1 logs2).onlyIn1 ↔ l ∈ nonBlankLines logs1 := by
      intro l
      rw [mem_onlyIn1, hc, ← List.count_pos_iff]
      simp
    refine ⟨?_, e1, ?_⟩
    · rw [e2]; rfl
    · intro l hl
      exact List.mem_map_of_mem _ ((e1 l).mpr hl)

/-- C7 at the input of `TestHandleLogDiff_EmptyPeriod`. -/
theorem C7_report_layout_witness :
    sectionText ((diffLogs "ERROR: something broke\nWARN: disk usage high".toList []).onlyIn2.map
      indent) = "  (none)\n".toList ∧
    (∀ l ∈ nonBlankLines "ERROR: something broke\nWARN: disk usage high".toList,
      indent l ∈ (diffLogs "ERROR: something broke\nWARN: disk usage high".toList []).onlyIn1.map
        indent) :=
  have h := (C7_report_layout mockExecutor emptyPeriodMock
    (emptyPeriodMock.exec ["logs".toList, "--since".toList, "2h".toList, "--until".toList,
      "1h".toList, "myapp".toList]).2
    ((emptyPeriodMock.exec ["logs".toList, "--since".toList, "2h".toList, "--until".toList,
      "1h".toList, "myapp".toList]).2.exec ["logs".toList, "--since".toList, "1h".toList,
      "--until".toList, "now".toList, "myapp".toList]).2
    testArgs "ERROR: something broke\nWARN: disk usage high".toList [] rfl rfl).2.2.2
    (by decide)
  ⟨h.1, h.2.2⟩

/-! ## The context-window merger: the output loops -/

theorem mem_loopIndices (r : lineRange) (k : Int) :
    k ∈ loopIndices r ↔ r.start ≤ k ∧ k ≤ r.end_ := by
  unfold loopIndices
  simp only [List.mem_map, List.mem_range]
  constructor
  · rintro ⟨j, hj, rfl⟩
    omega
  · rintro ⟨h1, h2⟩
    exact ⟨(k - r.start).toNat, by omega, by omega⟩

theorem loopIndices_sorted (r : lineRange) : List.Sorted (fun a b => a < b) (loopIndices r) := by
  unfold loopIndices List.Sorted
  refine List.Pairwise.map _ ?_ (List.pairwise_lt_range _)
  intro a b hab
  omega

theorem loopIndices_eq_nil (r : lineRange) (h : r.end_ < r.start) : loopIndices r = [] := by
  refine List.eq_nil_iff_forall_not_mem.mpr (fun k hk => ?_)
  rw [mem_loopIndices] at hk
  omega

/-- The output loops visit strictly increasing indices as soon as every merged range is
empty or ends before each later range starts. -/
theorem flatten_loopIndices_sorted (merged : List lineRange)
    (h : List.Pairwise (fun a b => a.end_ < a.start ∨ a.end_ < b.start) merged) :
    List.Sorted (fun a b => a < b) (merged.map loopIndices).flatten := by
  unfold List.Sorted
  rw [List.pairwise_flatten]
  refine ⟨?_, ?_⟩
  · intro l hl
    obtain ⟨r, _, rfl⟩ := List.mem_map.mp hl
    exact loopIndices_sorted r
  · rw [List.pairwise_map]
    refine h.imp ?_
    intro a b hab x hx y hy
    rw [mem_loopIndices] at hx hy
    omega

theorem mergeRanges_cons (r0 : lineRange) (rest : List lineRange) :
    mergeRanges (r0 :: rest) =
      some ((mergeLoop rest ([], r0)).1 ++ [(mergeLoop rest ([], r0)).2]) := rfl

/-- An invariant of `merged` that every step of the merge loop preserves holds at its end. -/
theorem mergeLoop_invariant (P : List lineRange × lineRange → Prop) (Q : lineRange → Prop)
    (hstep : ∀ st r, P st → Q r → P (mergeStep st r)) :
    ∀ (rest : List lineRange) (st : List lineRange × lineRange),
      P st → (∀ r ∈ rest, Q r) → P (mergeLoop rest st) := by
  intro rest
  induction rest with
  | nil => intro st h _; exact h
  | cons r rest ih =>
    intro st h hq
    exact ih _ (hstep st r h (hq r (List.mem_cons_self _ _)))
      (fun x hx => hq x (List.mem_cons_of_mem _ hx))

/-! ## The context-window merger: the ranges built around the matches -/

/-- Without overflow the first loop computes the clamped window of the specification. -/
theorem contextRange_eq (n : Nat) (c idx : Int) (hn : (n : Int) < 9223372036854775808)
    (hc : 0 ≤ c) (hi : 0 ≤ idx ∧ idx < (n : Int)) (hfit : idx + c < 9223372036854775808) :
    contextRange n c idx = ⟨max 0 (idx - c), min ((n : Int) - 1) (idx + c)⟩ := by
  unfold contextRange wrapInt
  simp only [lineRange.mk.injEq]
  constructor <;> omega

theorem contextRange_proper (n : Nat) (c idx : Int) (hn : (n : Int) < 9223372036854775808)
    (hc : 0 ≤ c) (hi : 0 ≤ idx ∧ idx < (n : Int)) (hfit : idx + c < 9223372036854775808) :
    properRange n (contextRange n c idx) ∧
      (contextRange n c idx).start ≤ idx ∧ idx ≤ (contextRange n c idx).end_ := by
  rw [contextRange_eq n c idx hn hc hi hfit]
  unfold properRange
  simp only []
  omega

theorem contextRange_zero (n : Nat) (c idx : Int) (hn : (n : Int) < 4611686018427387904)
    (hc : 0 ≤ c ∧ c < 9223372036854775808) (hi : 0 ≤ idx ∧ idx < (n : Int))
    (hbig : 9223372036854775808 < c + (n : Int)) :
    zeroRange n (contextRange n c idx) := by
  unfold zeroRange contextRange wrapInt
  simp only []
  omega

theorem contextRange_negative (n : Nat) (c ia ib : Int) (hn : (n : Int) < 4611686018427387904)
    (hc : -9223372036854775808 ≤ c ∧ c < 0) (ha : 0 ≤ ia ∧ ia < (n : Int))
    (hb : 0 ≤ ib ∧ ib < (n : Int)) :
    (contextRange n c ia).end_ < (contextRange n c ia).start ∧
      ¬ ((contextRange n c ib).start ≤ wrapInt ((contextRange n c ia).end_ + 1) ∧
          (contextRange n c ib).end_ > (contextRange n c ia).end_) := by
  unfold contextRange wrapInt
  simp only []
  omega

/-! ## The context-window merger: invariants of the merge loop -/

theorem pairwise_of_all_empty (l : List lineRange) (h : ∀ a ∈ l, a.end_ < a.start) :
    List.Pairwise emptyOrBefore l := by
  induction l with
  | nil => exact List.Pairwise.nil
  | cons a l ih =>
    refine List.Pairwise.cons (fun b _ => Or.inl (h a (List.mem_cons_self _ _))) ?_
    exact ih (fun x hx => h x (List.mem_cons_of_mem _ hx))

/-- Proper ranges: the merged ranges stay proper and each ends more than one line before
every later one starts. -/
theorem mergeStep_proper (n : Nat) (hn : (n : Int) < 9223372036854775808)
    (st : List lineRange × lineRange) (r : lineRange)
    (h : (∀ a ∈ st.1 ++ [st.2], properRange n a) ∧
      List.Pairwise (fun a b => a.end_ + 1 < b.start) (st.1 ++ [st.2]))
    (hr : properRange n r) :
    (∀ a ∈ (mergeStep st r).1 ++ [(mergeStep st r).2], properRange n a) ∧
      List.Pairwise (fun a b => a.end_ + 1 < b.start)
        ((mergeStep st r).1 ++ [(mergeStep st r).2]) := by
  obtain ⟨init, last⟩ := st
  obtain ⟨hall, hpw⟩ := h
  simp only at hall hpw
  have hlast : properRange n last := hall last (by simp)
  have hinit : ∀ a ∈ init, properRange n a := fun a ha => hall a (by simp [ha])
  rw [List.pairwise_append] at hpw
  obtain ⟨hpi, _, hcross⟩ := hpw
  have hcross2 : ∀ a ∈ init, a.end_ + 1 < last.start := fun a ha => hcross a ha last (by simp)
  unfold properRange at hlast hr
  have hw : wrapInt (last.end_ + 1) = last.end_ + 1 := by unfold wrapInt; omega
  unfold mergeStep
  simp only [hw]
  by_cases h1 : r.start ≤ last.end_ + 1
  · by_cases h2 : r.end_ > last.end_
    · simp only [h1, h2, if_true]
      refine ⟨?_, ?_⟩
      · intro a ha
        rcases List.mem_append.mp ha with ha | ha
        · exact hinit a ha
        · simp only [List.mem_singleton] at ha
          subst ha
          unfold properRange
          simp only []
          omega
      · rw [List.pairwise_append]
        refine ⟨hpi, List.pairwise_singleton _ _, ?_⟩
        intro a ha b hb
        simp only [List.mem_singleton] at hb
        subst hb
        exact hcross2 a ha
    · simp only [h1, h2, if_true, if_false]
      exact ⟨hall, by rw [List.pairwise_append]; exact ⟨hpi, List.pairwise_singleton _ _, hcross⟩⟩
  · simp only [h1, if_false]
    refine ⟨?_, ?_⟩
    · intro a ha
      rcases List.mem_append.mp ha with ha | ha
      · exact hall a ha
      · simp only [List.mem_singleton] at ha
        subst ha
        exact hr
    · rw [List.pairwise_append]
      refine ⟨by rw [List.pairwise_append]; exact ⟨hpi, List.pairwise_singleton _ _, hcross⟩,
        List.pairwise_singleton _ _, ?_⟩
      intro a ha b hb
      simp only [List.mem_singleton] at hb
      subst hb
      rcases List.mem_append.mp ha with ha | ha
      · have := hcross2 a ha
        omega
      · simp only [List.mem_singleton] at ha
        subst ha
        omega

/-- Ranges starting at line 0: every merged range before the last is empty. -/
theorem mergeStep_zero (n : Nat) (hn : (n : Int) < 9223372036854775808)
    (st : List lineRange × lineRange) (r : lineRange)
    (h : zeroRange n st.2 ∧ ∀ a ∈ st.1, a.end_ < a.start) (hr : zeroRange n r) :
    zeroRange n (mergeStep st r).2 ∧ ∀ a ∈ (mergeStep st r).1, a.end_ < a.start := by
  obtain ⟨init, last⟩ := st
  obtain ⟨hlast, hinit⟩ := h
  simp only at hlast hinit
  unfold zeroRange at hlast hr
  have hw : wrapInt (last.end_ + 1) = last.end_ + 1 := by unfold wrapInt; omega
  unfold mergeStep
  simp only [hw]
  by_cases h1 : r.start ≤ last.end_ + 1
  · by_cases h2 : r.end_ > last.end_
    · simp only [h1, h2, if_true]
      refine ⟨?_, hinit⟩
      unfold zeroRange
      simp only []
      omega
    · simp only [h1, h2, if_true, if_false]
      exact ⟨hlast, hinit⟩
  · simp only [h1, if_false]
    refine ⟨hr, ?_⟩
    intro a ha
    rcases List.mem_append.mp ha with ha | ha
    · exact hinit a ha
    · simp only [List.mem_singleton] at ha
      subst ha
      omega

/-- Ranges none of which can extend another: the merged ranges are ranges of the input. -/
theorem mergeStep_members (raws : List lineRange)
    (hraws : ∀ a ∈ raws, ∀ b ∈ raws,
      ¬ (b.start ≤ wrapInt (a.end_ + 1) ∧ b.end_ > a.end_))
    (st : List lineRange × lineRange) (r : lineRange)
    (h : st.2 ∈ raws ∧ ∀ a ∈ st.1, a ∈ raws) (hr : r ∈ raws) :
    (mergeStep st r).2 ∈ raws ∧ ∀ a ∈ (mergeStep st r).1, a ∈ raws := by
  obtain ⟨init, last⟩ := st
  obtain ⟨hlast, hinit⟩ := h
  simp only at hlast hinit
  have hno := hraws last hlast r hr
  unfold mergeStep
  simp only []
  by_cases h1 : r.start ≤ wrapInt (last.end_ + 1)
  · by_cases h2 : r.end_ > last.end_
    · exact absurd ⟨h1, h2⟩ hno
    · simp only [h1, h2, if_true, if_false]
      exact ⟨hlast, hinit⟩
  · simp only [h1, if_false]
    refine ⟨hr, ?_⟩
    intro a ha
    rcases List.mem_append.mp ha with ha | ha
    · exact hinit a ha
    · simp only [List.mem_singleton] at ha
      subst ha
      exact hlast

/-! ## The context-window merger: claims C8 to C10 -/

theorem buildRanges_cons (lines : List GoString) (i : Int) (rest : List Int) (c : Int) :
    buildRanges lines (i :: rest) c =
      contextRange lines.length c i :: buildRanges lines rest c := rfl

theorem mem_buildRanges (lines : List GoString) (ms : List Int) (c : Int) (r : lineRange) :
    r ∈ buildRanges lines ms c ↔ ∃ i ∈ ms, contextRange lines.length c i = r := by
  unfold buildRanges
  exact List.mem_map

/-- Whatever the radius, each merged range is empty or ends before every later merged range
starts. -/
theorem merged_emptyOrBefore (lines : List GoString) (matchIndices : List Int) (c : Int)
    (hlen : lines.length < 4611686018427387904) (hc : isInt c)
    (hvalid : validIndices lines matchIndices) (merged : List lineRange)
    (hm : mergeRanges (buildRanges lines matchIndices c) = some merged) :
    List.Pairwise emptyOrBefore merged := by
  have hn : (lines.length : Int) < 4611686018427387904 := by exact_mod_cast hlen
  have hn2 : (lines.length : Int) < 9223372036854775808 := by omega
  unfold isInt at hc
  cases matchIndices with
  | nil => simp [buildRanges, mergeRanges] at hm
  | cons i0 rest =>
    rw [buildRanges_cons, mergeRanges_cons] at hm
    simp only [Option.some.injEq] at hm
    subst hm
    have hi0 := hvalid i0 (List.mem_cons_self _ _)
    have hrest : ∀ i ∈ rest, 0 ≤ i ∧ i < (lines.length : Int) :=
      fun i hi => hvalid i (List.mem_cons_of_mem _ hi)
    by_cases hpos : 0 ≤ c
    · by_cases hfit : c + (lines.length : Int) ≤ 9223372036854775808
      · have key := mergeLoop_invariant
          (fun st => (∀ a ∈ st.1 ++ [st.2], properRange lines.length a) ∧
            List.Pairwise (fun a b => a.end_ + 1 < b.start) (st.1 ++ [st.2]))
          (properRange lines.length)
          (fun st r h hr => mergeStep_proper lines.length hn2 st r h hr)
          (buildRanges lines rest c) ([], contextRange lines.length c i0)
          ⟨by
              intro a ha
              simp only [List.nil_append, List.mem_singleton] at ha
              subst ha
              exact (contextRange_proper _ c i0 hn2 hpos hi0 (by omega)).1,
            by simp⟩
          (by
            intro r hr
            obtain ⟨i, hi, rfl⟩ := (mem_buildRanges lines rest c r).mp hr
            have := hrest i hi
            exact (contextRange_proper _ c i hn2 hpos this (by omega)).1)
        refine key.2.imp ?_
        intro a b hab
        exact Or.inr (by omega)
      · have key := mergeLoop_invariant
          (fun st => zeroRange lines.length st.2 ∧ ∀ a ∈ st.1, a.end_ < a.start)
          (zeroRange lines.length)
          (fun st r h hr => mergeStep_zero lines.length hn2 st r h hr)
          (buildRanges lines rest c) ([], contextRange lines.length c i0)
          ⟨contextRange_zero _ c i0 hn ⟨hpos, hc.2⟩ hi0 (by omega), by simp⟩
          (by
            intro r hr
            obtain ⟨i, hi, rfl⟩ := (mem_buildRanges lines rest c r).mp hr
            exact contextRange_zero _ c i hn ⟨hpos, hc.2⟩ (hrest i hi) (by omega))
        rw [List.pairwise_append]
        refine ⟨pairwise_of_all_empty _ key.2, List.pairwise_singleton _ _, ?_⟩
        intro a ha b _
        exact Or.inl (key.2 a ha)
    · have hneg : -9223372036854775808 ≤ c ∧ c < 0 := ⟨hc.1, by omega⟩
      have hraws : ∀ a ∈ buildRanges lines (i0 :: rest) c,
          ∀ b ∈ buildRanges lines (i0 :: rest) c,
            a.end_ < a.start ∧ ¬ (b.start ≤ wrapInt (a.end_ + 1) ∧ b.end_ > a.end_) := by
        intro a ha b hb
        obtain ⟨ia, hia, rfl⟩ := (mem_buildRanges _ _ _ a).mp ha
        obtain ⟨ib, hib, rfl⟩ := (mem_buildRanges _ _ _ b).mp hb
        exact contextRange_negative _ c ia ib hn hneg (hvalid ia hia) (hvalid ib hib)
      have key := mergeLoop_invariant
        (fun st => st.2 ∈ buildRanges lines (i0 :: rest) c ∧
          ∀ a ∈ st.1, a ∈ buildRanges lines (i0 :: rest) c)
        (fun r => r ∈ buildRanges lines (i0 :: rest) c)
        (fun st r h hr => mergeStep_members _ (fun a ha b hb => (hraws a ha b hb).2) st r h hr)
        (buildRanges lines rest c) ([], contextRange lines.length c i0)
        ⟨by rw [buildRanges_cons]; exact List.mem_cons_self _ _, by simp⟩
        (by
          intro r hr
          rw [buildRanges_cons]
          exact List.mem_cons_of_mem _ hr)
      refine pairwise_of_all_empty _ ?_
      intro a ha
      rcases List.mem_append.mp ha with ha | ha
      · exact (hraws a (key.2 a ha) a (key.2 a ha)).1
      · simp only [List.mem_singleton] at ha
        subst ha
        exact (hraws _ key.1 _ key.1).1

theorem mergeRanges_isSome (lines : List GoString) (matchIndices : List Int) (c : Int)
    (hne : matchIndices ≠ []) :
    ∃ merged, mergeRanges (buildRanges lines matchIndices c) = some merged := by
  cases matchIndices with
  | nil => exact absurd rfl hne
  | cons i0 rest => exact ⟨_, mergeRanges_cons _ _⟩

/-- C9. Merge non-overlap: for a slice of lines (fewer than 2^62 of them, as for any slice of
strings a 64-bit process can hold), a non-empty list of valid match indices in any order and
any radius a Go `int` can hold, the line indices visited by the output loops of
`formatWithContext`, read in output order, are strictly increasing; no index is printed
twice. -/
theorem C9_merge_non_overlap (lines : List GoString) (matchIndices : List Int)
    (contextLines : Int) (hlen : lines.length < 4611686018427387904)
    (hc : isInt contextLines) (hne : matchIndices ≠ [])
    (hvalid : validIndices lines matchIndices) :
    List.Sorted (fun a b => a < b) (emittedIndices lines matchIndices contextLines) ∧
    (emittedIndices lines matchIndices contextLines).Nodup ∧
    ∃ merged, mergeRanges (buildRanges lines matchIndices contextLines) = some merged ∧
      emittedIndices lines matchIndices contextLines = (merged.map loopIndices).flatten ∧
      formatWithContext lines matchIndices contextLines =
        (writeGroups lines matchIndices 0 merged).map TrimRightNewline := by
  obtain ⟨merged, hm⟩ := mergeRanges_isSome lines matchIndices contextLines hne
  have hpw := merged_emptyOrBefore lines matchIndices contextLines hlen hc hvalid merged hm
  have hs : List.Sorted (fun a b => a < b) (emittedIndices lines matchIndices contextLines) := by
    unfold emittedIndices
    rw [hm]
    exact flatten_loopIndices_sorted merged hpw
  refine ⟨hs, hs.nodup, merged, hm, ?_, ?_⟩
  · unfold emittedIndices
    rw [hm]
  · unfold formatWithContext
    rw [hm]

/-- C9 at scenario B: matches 2 and 7 with radius 1 in ten lines. -/
theorem C9_merge_non_overlap_witness :
    List.Sorted (fun a b => a < b) (emittedIndices scenarioLines [2, 7] 1) :=
  (C9_merge_non_overlap scenarioLines [2, 7] 1 (by decide) ⟨by decide, by decide⟩ (by decide)
    (by unfold validIndices; decide)).1

theorem mergeStep_last_start (st : List lineRange × lineRange) (r : lineRange) :
    (mergeStep st r).2.start = st.2.start ∨ (mergeStep st r).2.start = r.start := by
  unfold mergeStep
  by_cases h1 : r.start ≤ wrapInt (st.2.end_ + 1)
  · by_cases h2 : r.end_ > st.2.end_
    · simp [h1, h2]
    · simp [h1, h2]
  · simp [h1]

/-- One step of the merge loop never covers an index outside the ranges seen so far, and
covers all of them when the new range does not start before the last merged one. -/
theorem mergeStep_covers (n : Nat) (hn : (n : Int) < 9223372036854775808)
    (st : List lineRange × lineRange) (r : lineRange)
    (hlast : properRange n st.2) (hr : properRange n r) (k : Int) :
    ((∃ m ∈ (mergeStep st r).1 ++ [(mergeStep st r).2], m.covers k) →
      (∃ m ∈ st.1 ++ [st.2], m.covers k) ∨ r.covers k) ∧
    (st.2.start ≤ r.start →
      ((∃ m ∈ st.1 ++ [st.2], m.covers k) ∨ r.covers k) →
      ∃ m ∈ (mergeStep st r).1 ++ [(mergeStep st r).2], m.covers k) := by
  obtain ⟨init, last⟩ := st
  simp only at hlast
  unfold properRange at hlast hr
  have hw : wrapInt (last.end_ + 1) = last.end_ + 1 := by unfold wrapInt; omega
  unfold mergeStep
  simp only [hw]
  by_cases h1 : r.start ≤ last.end_ + 1
  · by_cases h2 : r.end_ > last.end_
    · simp only [h1, h2, if_true]
      refine ⟨?_, ?_⟩
      · rintro ⟨m, hm, hk⟩
        rcases List.mem_append.mp hm with hm | hm
        · exact Or.inl ⟨m, List.mem_append_left _ hm, hk⟩
        · simp only [List.mem_singleton] at hm
          subst hm
          unfold lineRange.covers at hk
          simp only at hk
          by_cases hle : k ≤ last.end_
          · exact Or.inl ⟨last, by simp, ⟨hk.1, hle⟩⟩
          · exact Or.inr ⟨by omega, hk.2⟩
      · intro hs h
        rcases h with ⟨m, hm, hk⟩ | hk
        · rcases List.mem_append.mp hm with hm | hm
          · exact ⟨m, List.mem_append_left _ hm, hk⟩
          · simp only [List.mem_singleton] at hm
            rw [hm] at hk
            unfold lineRange.covers at hk
            exact ⟨⟨last.start, r.end_⟩, by simp, ⟨hk.1, by simp only []; omega⟩⟩
        · unfold lineRange.covers at hk
          exact ⟨⟨last.start, r.end_⟩, by simp, ⟨by simp only []; omega, hk.2⟩⟩
    · simp only [h1, h2, if_true, if_false]
      refine ⟨fun h => Or.inl h, ?_⟩
      intro hs h
      rcases h with h | hk
      · exact h
      · unfold lineRange.covers at hk
        exact ⟨last, by simp, ⟨by omega, by omega⟩⟩
  · simp only [h1, if_false]
    refine ⟨?_, ?_⟩
    · rintro ⟨m, hm, hk⟩
      rcases List.mem_append.mp hm with hm | hm
      · exact Or.inl ⟨m, hm, hk⟩
      · simp only [List.mem_singleton] at hm
        subst hm
        exact Or.inr hk
    · intro _ h
      rcases h with ⟨m, hm, hk⟩ | hk
      · exact ⟨m, List.mem_append_left _ hm, hk⟩
      · exact ⟨r, by simp, hk⟩

/-- The merge loop over proper ranges: what the merged ranges cover. -/
theorem mergeLoop_covers (n : Nat) (hn : (n : Int) < 9223372036854775808) (k : Int) :
    ∀ (rest : List lineRange) (st : List lineRange × lineRange),
      ((∀ a ∈ st.1 ++ [st.2], properRange n a) ∧
        List.Pairwise (fun a b => a.end_ + 1 < b.start) (st.1 ++ [st.2])) →
      (∀ r ∈ rest, properRange n r) →
      ((∃ m ∈ (mergeLoop rest st).1 ++ [(mergeLoop rest st).2], m.covers k) →
        (∃ m ∈ st.1 ++ [st.2], m.covers k) ∨ ∃ r ∈ rest, r.covers k) ∧
      (List.Pairwise (fun a b => a.start ≤ b.start) rest →
        (∀ r ∈ rest, st.2.start ≤ r.start) →
        ((∃ m ∈ st.1 ++ [st.2], m.covers k) ∨ ∃ r ∈ rest, r.covers k) →
        ∃ m ∈ (mergeLoop rest st).1 ++ [(mergeLoop rest st).2], m.covers k) := by
  intro rest
  induction rest with
  | nil =>
    intro st _ _
    refine ⟨fun h => Or.inl h, ?_⟩
    intro _ _ h
    rcases h with h | ⟨r, hr, _⟩
    · exact h
    · simp at hr
  | cons r rest ih =>
    intro st hst hq
    have hr : properRange n r := hq r (List.mem_cons_self _ _)
    have hlast : properRange n st.2 := hst.1 st.2 (by simp)
    have hst2 := mergeStep_proper n hn st r hst hr
    have step := mergeStep_covers n hn st r hlast hr k
    have ih2 := ih (mergeStep st r) hst2 (fun x hx => hq x (List.mem_cons_of_mem _ hx))
    refine ⟨?_, ?_⟩
    · intro h
      rcases ih2.1 h with h1 | ⟨x, hx, hk⟩
      · rcases step.1 h1 with h2 | h2
        · exact Or.inl h2
        · exact Or.inr ⟨r, List.mem_cons_self _ _, h2⟩
      · exact Or.inr ⟨x, List.mem_cons_of_mem _ hx, hk⟩
    · intro hsorted hle h
      rw [List.pairwise_cons] at hsorted
      have hler : st.2.start ≤ r.start := hle r (List.mem_cons_self _ _)
      refine ih2.2 hsorted.2 ?_ ?_
      · intro x hx
        rcases mergeStep_last_start st r with e | e
        · rw [e]; exact hle x (List.mem_cons_of_mem _ hx)
        · rw [e]; exact hsorted.1 x hx
      · rcases h with h | ⟨x, hx, hk⟩
        · exact Or.inl (step.2 hler (Or.inl h))
        · rcases List.mem_cons.mp hx with e | hx
          · subst e
            exact Or.inl (step.2 hler (Or.inr hk))
          · exact Or.inr ⟨x, hx, hk⟩

theorem contextRange_eq_specWindow (lines : List GoString) (c i : Int)
    (hlen : lines.length < 9223372036854775808) (hc : 0 ≤ c)
    (hi : 0 ≤ i ∧ i < (lines.length : Int)) (hfit : i + c < 9223372036854775808) :
    contextRange lines.length c i = specWindow lines c i :=
  contextRange_eq lines.length c i (by exact_mod_cast hlen) hc hi hfit

/-- Without overflow, whatever the order of the matches: the merged ranges are proper and
each ends more than one line before every later one starts. -/
theorem mergeLoop_proper (lines : List GoString) (i0 : Int) (rest : List Int) (c : Int)
    (hlen : lines.length < 9223372036854775808) (hc : 0 ≤ c)
    (hvalid : validIndices lines (i0 :: rest))
    (hfit : ∀ i ∈ i0 :: rest, i + c < 9223372036854775808) :
    (∀ a ∈ (mergeLoop (buildRanges lines rest c) ([], contextRange lines.length c i0)).1 ++
        [(mergeLoop (buildRanges lines rest c) ([], contextRange lines.length c i0)).2],
      properRange lines.length a) ∧
    List.Pairwise (fun a b => a.end_ + 1 < b.start)
      ((mergeLoop (buildRanges lines rest c) ([], contextRange lines.length c i0)).1 ++
        [(mergeLoop (buildRanges lines rest c) ([], contextRange lines.length c i0)).2]) := by
  have hn : (lines.length : Int) < 9223372036854775808 := by exact_mod_cast hlen
  refine mergeLoop_invariant
    (fun st => (∀ a ∈ st.1 ++ [st.2], properRange lines.length a) ∧
      List.Pairwise (fun a b => a.end_ + 1 < b.start) (st.1 ++ [st.2]))
    (properRange lines.length)
    (fun st r h hr => mergeStep_proper lines.length hn st r h hr)
    (buildRanges lines rest c) ([], contextRange lines.length c i0) ⟨?_, by simp⟩ ?_
  · intro a ha
    simp only [List.nil_append, List.mem_singleton] at ha
    subst ha
    exact (contextRange_proper _ c i0 hn hc (hvalid i0 (List.mem_cons_self _ _))
      (hfit i0 (List.mem_cons_self _ _))).1
  · intro r hr
    obtain ⟨i, hi, rfl⟩ := (mem_buildRanges lines rest c r).mp hr
    exact (contextRange_proper _ c i hn hc (hvalid i (List.mem_cons_of_mem _ hi))
      (hfit i (List.mem_cons_of_mem _ hi))).1

/-- Ascending matches without overflow: every index of a per-match window lies in a merged
range. -/
theorem merged_covers_windows (lines : List GoString) (i0 : Int) (rest : List Int)
    (radius : Int) (hlen : lines.length < 9223372036854775808) (hr : 0 ≤ radius)
    (hvalid : validIndices lines (i0 :: rest))
    (hfit : ∀ i ∈ i0 :: rest, i + radius < 9223372036854775808)
    (hsorted : List.Sorted (fun a b => a ≤ b) (i0 :: rest)) (k : Int)
    (h : ∃ i ∈ i0 :: rest, (specWindow lines radius i).covers k) :
    ∃ m ∈ (mergeLoop (buildRanges lines rest radius)
        ([], contextRange lines.length radius i0)).1 ++
        [(mergeLoop (buildRanges lines rest radius)
          ([], contextRange lines.length radius i0)).2], m.covers k := by
  have hn : (lines.length : Int) < 9223372036854775808 := by exact_mod_cast hlen
  have hi0 := hvalid i0 (List.mem_cons_self _ _)
  have hf0 := hfit i0 (List.mem_cons_self _ _)
  have hinit : (∀ a ∈ ([] : List lineRange) ++ [contextRange lines.length radius i0],
        properRange lines.length a) ∧
      List.Pairwise (fun a b => a.end_ + 1 < b.start)
        (([] : List lineRange) ++ [contextRange lines.length radius i0]) := by
    refine ⟨?_, by simp⟩
    intro a ha
    simp only [List.nil_append, List.mem_singleton] at ha
    subst ha
    exact (contextRange_proper _ radius i0 hn hr hi0 hf0).1
  have hq : ∀ r ∈ buildRanges lines rest radius, properRange lines.length r := by
    intro r hr2
    obtain ⟨i, hi, rfl⟩ := (mem_buildRanges lines rest radius r).mp hr2
    exact (contextRange_proper _ radius i hn hr (hvalid i (List.mem_cons_of_mem _ hi))
      (hfit i (List.mem_cons_of_mem _ hi))).1
  obtain ⟨i, hi, hk⟩ := h
  unfold List.Sorted at hsorted
  rw [List.pairwise_cons] at hsorted
  have mono : ∀ a b : Int, a ≤ b → 0 ≤ a ∧ a < (lines.length : Int) →
      0 ≤ b ∧ b < (lines.length : Int) → a + radius < 9223372036854775808 →
      b + radius < 9223372036854775808 →
      (contextRange lines.length radius a).start ≤
        (contextRange lines.length radius b).start := by
    intro a b hab ha hb hfa hfb
    rw [contextRange_eq _ radius a hn hr ha hfa, contextRange_eq _ radius b hn hr hb hfb]
    simp only []
    omega
  refine (mergeLoop_covers lines.length hn k _ _ hinit hq).2 ?_ ?_ ?_
  · unfold buildRanges
    rw [List.pairwise_map]
    refine hsorted.2.imp_of_mem ?_
    intro a b ha hb hab
    exact mono a b hab (hvalid a (List.mem_cons_of_mem _ ha))
      (hvalid b (List.mem_cons_of_mem _ hb)) (hfit a (List.mem_cons_of_mem _ ha))
      (hfit b (List.mem_cons_of_mem _ hb))
  · intro r hr2
    obtain ⟨j, hj, rfl⟩ := (mem_buildRanges lines rest radius r).mp hr2
    exact mono i0 j (hsorted.1 j hj) hi0 (hvalid j (List.mem_cons_of_mem _ hj)) hf0
      (hfit j (List.mem_cons_of_mem _ hj))
  · rcases List.mem_cons.mp hi with e | hi
    · subst e
      refine Or.inl ⟨contextRange lines.length radius i, by simp, ?_⟩
      rw [contextRange_eq_specWindow lines radius i hlen hr hi0 hf0]
      exact hk
    · refine Or.inr ⟨contextRange lines.length radius i,
        (mem_buildRanges lines rest radius _).mpr ⟨i, hi, rfl⟩, ?_⟩
      rw [contextRange_eq_specWindow lines radius i hlen hr
        (hvalid i (List.mem_cons_of_mem _ hi)) (hfit i (List.mem_cons_of_mem _ hi))]
      exact hk

/-- C10 as stated fails: for the descending matches 5 and 0 with radius 0 in six lines the
merged list is the single range `[5, 5]`, which misses line 0 of the window of match 0. -/
theorem C10_counterexample :
    mergeRanges (buildRanges sixLines [5, 0] 0) = some [⟨5, 5⟩] ∧
    ¬ (∀ k : Int, (∃ m ∈ [(⟨5, 5⟩ : lineRange)], m.covers k) ↔
        ∃ i ∈ [(5 : Int), 0], (specWindow sixLines 0 i).covers k) := by
  refine ⟨by decide, ?_⟩
  intro h
  have h0 := (h 0).mpr ⟨0, by simp, by unfold lineRange.covers specWindow; decide⟩
  obtain ⟨m, hm, hk⟩ := h0
  simp only [List.mem_singleton] at hm
  subst hm
  unfold lineRange.covers at hk
  simp only at hk
  omega

/-- C10, amended. For a non-empty list of valid match indices and a radius `>= 0` such that
no `i + radius` exceeds the largest `int`, the merged range list is ordered by start, any
two consecutive merged ranges satisfy `next.start > prev.end + 1`, and the merged ranges
cover only indices of the per-match windows `[max(0, i-radius), min(len(lines)-1,
i+radius)]`; when the match indices are ascending the two unions are equal. -/
theorem C10_merged_range_invariant (lines : List GoString) (matchIndices : List Int)
    (radius : Int) (hlen : lines.length < 9223372036854775808) (hne : matchIndices ≠ [])
    (hvalid : validIndices lines matchIndices) (hr : 0 ≤ radius)
    (hfit : ∀ i ∈ matchIndices, i + radius < 9223372036854775808) :
    ∃ merged, mergeRanges (buildRanges lines matchIndices radius) = some merged ∧
      List.Sorted (fun a b => a.start < b.start) merged ∧
      List.Chain' (fun prev next => next.start > prev.end_ + 1) merged ∧
      (∀ k, (∃ m ∈ merged, m.covers k) →
        ∃ i ∈ matchIndices, (specWindow lines radius i).covers k) ∧
      (List.Sorted (fun a b => a ≤ b) matchIndices →
        ∀ k, (∃ m ∈ merged, m.covers k) ↔
          ∃ i ∈ matchIndices, (specWindow lines radius i).covers k) := by
  have hn : (lines.length : Int) < 9223372036854775808 := by exact_mod_cast hlen
  cases matchIndices with
  | nil => exact absurd rfl hne
  | cons i0 rest =>
    have hi0 := hvalid i0 (List.mem_cons_self _ _)
    have hf0 := hfit i0 (List.mem_cons_self _ _)
    have hPV := mergeLoop_proper lines i0 rest radius hlen hr hvalid hfit
    have hinit : (∀ a ∈ ([] : List lineRange) ++ [contextRange lines.length radius i0],
          properRange lines.length a) ∧
        List.Pairwise (fun a b => a.end_ + 1 < b.start)
          (([] : List lineRange) ++ [contextRange lines.length radius i0]) := by
      refine ⟨?_, by simp⟩
      intro a ha
      simp only [List.nil_append, List.mem_singleton] at ha
      subst ha
      exact (contextRange_proper _ radius i0 hn hr hi0 hf0).1
    have hq : ∀ r ∈ buildRanges lines rest radius, properRange lines.length r := by
      intro r hr2
      obtain ⟨i, hi, rfl⟩ := (mem_buildRanges lines rest radius r).mp hr2
      exact (contextRange_proper _ radius i hn hr (hvalid i (List.mem_cons_of_mem _ hi))
        (hfit i (List.mem_cons_of_mem _ hi))).1
    have hsub : ∀ k, (∃ m ∈ (mergeLoop (buildRanges lines rest radius)
          ([], contextRange lines.length radius i0)).1 ++
          [(mergeLoop (buildRanges lines rest radius)
            ([], contextRange lines.length radius i0)).2], m.covers k) →
        ∃ i ∈ i0 :: rest, (specWindow lines radius i).covers k := by
      intro k h
      rcases (mergeLoop_covers lines.length hn k _ _ hinit hq).1 h with ⟨m, hm, hk⟩ | ⟨r, hr2, hk⟩
      · simp only [List.nil_append, List.mem_singleton] at hm
        subst hm
        rw [contextRange_eq_specWindow lines radius i0 hlen hr hi0 hf0] at hk
        exact ⟨i0, List.mem_cons_self _ _, hk⟩
      · obtain ⟨i, hi, rfl⟩ := (mem_buildRanges lines rest radius r).mp hr2
        rw [contextRange_eq_specWindow lines radius i hlen hr
          (hvalid i (List.mem_cons_of_mem _ hi)) (hfit i (List.mem_cons_of_mem _ hi))] at hk
        exact ⟨i, List.mem_cons_of_mem _ hi, hk⟩
    refine ⟨_, mergeRanges_cons _ _, ?_, ?_, hsub, ?_⟩
    · unfold List.Sorted
      refine hPV.2.imp_of_mem ?_
      intro a b ha _ hab
      have := hPV.1 a ha
      unfold properRange at this
      omega
    · refine List.Pairwise.chain' (hPV.2.imp ?_)
      intro a b hab
      omega
    · intro hsorted k
      refine ⟨hsub k, ?_⟩
      intro h
      exact merged_covers_windows lines i0 rest radius hlen hr hvalid hfit hsorted k h

/-- C10 at scenario B: matches 2 and 7 with radius 1 in ten lines give the merged ranges
`[1, 3]` and `[6, 8]`. -/
theorem C10_merged_range_invariant_witness :
    ∃ merged, mergeRanges (buildRanges scenarioLines [2, 7] 1) = some merged ∧
      List.Sorted (fun a b => a.start < b.start) merged ∧
      List.Chain' (fun prev next => next.start > prev.end_ + 1) merged :=
  have h := C10_merged_range_invariant scenarioLines [2, 7] 1 (by decide) (by decide)
    (by unfold validIndices; decide) (by decide) (by decide)
  h.imp (fun _ hm => ⟨hm.1, hm.2.1, hm.2.2.1⟩)

theorem writeLine_valid (lines : List GoString) (ms : List Int) (i : Int)
    (hi : 0 ≤ i ∧ i < (lines.length : Int)) :
    writeLine lines ms i = some (rowText lines ms i) := by
  have hlt : i.toNat < lines.length := by omega
  have hneg : ¬ i < 0 := by omega
  unfold writeLine lineAt rowText
  simp only [hneg, if_false]
  rw [List.get?_eq_get hlt]
  simp [List.getD_eq_getElem?_getD, List.getElem?_eq_getElem hlt]

theorem writeLines_valid (lines : List GoString) (ms : List Int) (is : List Int)
    (h : ∀ i ∈ is, 0 ≤ i ∧ i < (lines.length : Int)) :
    writeLines lines ms is = some ((is.map (rowText lines ms)).flatten) := by
  induction is with
  | nil => rfl
  | cons i rest ih =>
    unfold writeLines
    rw [writeLine_valid lines ms i (h i (List.mem_cons_self _ _)),
      ih (fun x hx => h x (List.mem_cons_of_mem _ hx))]
    simp

theorem writeGroups_valid (lines : List GoString) (ms : List Int) (merged : List lineRange)
    (h : ∀ r ∈ merged, properRange lines.length r) (ri : Nat) :
    writeGroups lines ms ri merged = some (groupsText lines ms ri merged) := by
  induction merged generalizing ri with
  | nil => rfl
  | cons r rest ih =>
    have hr := h r (List.mem_cons_self _ _)
    unfold properRange at hr
    unfold writeGroups groupsText
    rw [writeLines_valid lines ms (loopIndices r) (by
        intro i hi
        rw [mem_loopIndices] at hi
        omega),
      ih (fun x hx => h x (List.mem_cons_of_mem _ hx))]

/-- Coverage when no `i + radius` overflows: for ascending valid matches and a radius
`>= 0`, `formatWithContext` does not panic, its text is the rows of the merged groups
(separated by `--`) without the final newline, every match index is visited exactly once
and its row carries the marker `> `, and every other visited index carries two blanks. -/
theorem coverage_without_overflow (lines : List GoString) (matchIndices : List Int)
    (radius : Int) (hlen : lines.length < 4611686018427387904) (hne : matchIndices ≠ [])
    (hvalid : validIndices lines matchIndices) (hr : 0 ≤ radius)
    (hsorted : List.Sorted (fun a b => a ≤ b) matchIndices)
    (hfit : ∀ i ∈ matchIndices, i + radius < 9223372036854775808) :
    (∃ merged, mergeRanges (buildRanges lines matchIndices radius) = some merged ∧
      formatWithContext lines matchIndices radius =
        some (TrimRightNewline (groupsText lines matchIndices 0 merged))) ∧
    (∀ i ∈ matchIndices, (emittedIndices lines matchIndices radius).count i = 1 ∧
      rowText lines matchIndices i = "> ".toList ++ lines.getD i.toNat [] ++ "\n".toList) ∧
    (∀ j ∈ emittedIndices lines matchIndices radius, j ∉ matchIndices →
      rowText lines matchIndices j = "  ".toList ++ lines.getD j.toNat [] ++ "\n".toList) := by
  have hlen2 : lines.length < 9223372036854775808 := by omega
  have hn : (lines.length : Int) < 9223372036854775808 := by exact_mod_cast hlen2
  have hc : isInt radius := by
    obtain ⟨i, hi⟩ := List.exists_mem_of_ne_nil _ hne
    have := hfit i hi
    have := hvalid i hi
    unfold isInt
    omega
  cases matchIndices with
  | nil => exact absurd rfl hne
  | cons i0 rest =>
    have hPV := mergeLoop_proper lines i0 rest radius hlen2 hr hvalid hfit
    have hm := mergeRanges_cons (contextRange lines.length radius i0)
      (buildRanges lines rest radius)
    rw [← buildRanges_cons] at hm
    have hpw := merged_emptyOrBefore lines (i0 :: rest) radius hlen hc hvalid _ hm
    have hem : emittedIndices lines (i0 :: rest) radius =
        (((mergeLoop (buildRanges lines rest radius)
          ([], contextRange lines.length radius i0)).1 ++
          [(mergeLoop (buildRanges lines rest radius)
            ([], contextRange lines.length radius i0)).2]).map loopIndices).flatten := by
      unfold emittedIndices
      rw [hm]
    refine ⟨⟨_, hm, ?_⟩, ?_, ?_⟩
    · unfold formatWithContext
      rw [hm]
      simp only []
      rw [writeGroups_valid lines (i0 :: rest) _ hPV.1 0]
      rfl
    · intro i hi
      refine ⟨?_, by simp [rowText, marker, hi]⟩
      have hnd : (emittedIndices lines (i0 :: rest) radius).Nodup := by
        rw [hem]
        exact (flatten_loopIndices_sorted _ hpw).nodup
      refine List.count_eq_one_of_mem hnd ?_
      have hwin : (specWindow lines radius i).covers i := by
        have := hvalid i hi
        unfold lineRange.covers specWindow
        simp only []
        omega
      obtain ⟨m, hm2, hk⟩ := merged_covers_windows lines i0 rest radius hlen2 hr hvalid hfit
        hsorted i ⟨i, hi, hwin⟩
      rw [hem, List.mem_flatten]
      exact ⟨loopIndices m, List.mem_map_of_mem _ hm2, (mem_loopIndices m i).mpr hk⟩
    · intro j _ hj
      simp [rowText, marker, hj]

/-- C8 fails on the code at radius `2^63 - 1`: with the lines `a`, `b` and the single match
index 1, the sum `1 + radius` wraps around to `-2^63`, the range built is `[0, -2^63]`, no
line is written, and the text returned is empty although line 1 matched. -/
theorem C8_overflow_loses_match :
    validIndices ["a".toList, "b".toList] [1] ∧ 0 ≤ maxInt ∧ isInt maxInt ∧
    buildRanges ["a".toList, "b".toList] [1] maxInt = [⟨0, -9223372036854775808⟩] ∧
    emittedIndices ["a".toList, "b".toList] [1] maxInt = [] ∧
    formatWithContext ["a".toList, "b".toList] [1] maxInt = some [] := by
  refine ⟨by unfold validIndices; decide, by decide, ⟨by decide, by decide⟩, by decide,
    by decide, by decide⟩

/-! ## Error handling and command construction: claims C14 to C18 -/

theorem fetchLogs_recording {σ : Type} (exec : Executor σ) (s : σ)
    (calls : List (List GoString)) (container since until_ : GoString) :
    fetchLogs (recording exec) (s, calls) container since until_ =
      ((fetchLogs exec s container since until_).1,
        ((fetchLogs exec s container since until_).2,
          calls ++ [["logs".toList, "--since".toList, since, "--until".toList, until_,
            container]])) := rfl

/-- C17. Error propagation of log_diff: when the first fetch fails the result is the error
`failed to fetch period 1 logs: <cause>`, no text, and the executor has been invoked once
only, for period 1; when the first fetch succeeds and the second fails the result is the
error `failed to fetch period 2 logs: <cause>`. -/
theorem C17_error_propagation {σ : Type} (exec : Executor σ) (s : σ) (args : logDiffArgs) :
    (∀ err s1,
      fetchLogs exec s args.Container args.Period1Start args.Period1End = (.error err, s1) →
      handleLogDiff exec s args =
        (.error ("failed to fetch period 1 logs: ".toList ++ err), s1) ∧
      "period 1".toList <:+: "failed to fetch period 1 logs: ".toList ++ err ∧
      err <:+: "failed to fetch period 1 logs: ".toList ++ err ∧
      (handleLogDiff (recording exec) (s, []) args).2.2 =
        [["logs".toList, "--since".toList, args.Period1Start, "--until".toList,
          args.Period1End, args.Container]]) ∧
    (∀ logs1 s1 err s2,
      fetchLogs exec s args.Container args.Period1Start args.Period1End = (.ok logs1, s1) →
      fetchLogs exec s1 args.Container args.Period2Start args.Period2End = (.error err, s2) →
      handleLogDiff exec s args =
        (.error ("failed to fetch period 2 logs: ".toList ++ err), s2) ∧
      "period 2".toList <:+: "failed to fetch period 2 logs: ".toList ++ err ∧
      err <:+: "failed to fetch period 2 logs: ".toList ++ err) := by
  refine ⟨?_, ?_⟩
  · intro err s1 h
    refine ⟨?_, ⟨"failed to fetch ".toList, " logs: ".toList ++ err, rfl⟩,
      ⟨"failed to fetch period 1 logs: ".toList, [], by simp⟩, ?_⟩
    · unfold handleLogDiff
      rw [h]
    · unfold handleLogDiff
      rw [fetchLogs_recording, h]
      rfl
  · intro logs1 s1 err s2 h1 h2
    refine ⟨?_, ⟨"failed to fetch ".toList, " logs: ".toList ++ err, rfl⟩,
      ⟨"failed to fetch period 2 logs: ".toList, [], by simp⟩⟩
    unfold handleLogDiff
    rw [h1]
    simp only []
    rw [h2]

/-- C17 at the input of `TestHandleLogDiff_DockerError`: one recorded call, for period 1. -/
theorem C17_error_propagation_witness :
    (handleLogDiff mockExecutor dockerErrorMock testArgs).1 =
      .error "failed to fetch period 1 logs: container not found".toList ∧
    (handleLogDiff mockExecutor dockerErrorMock testArgs).2.calls =
      [["logs".toList, "--since".toList, "2h".toList, "--until".toList, "1h".toList,
        "myapp".toList]] :=
  have h := (C17_error_propagation mockExecutor dockerErrorMock testArgs).1
    "container not found".toList
    (dockerErrorMock.exec ["logs".toList, "--since".toList, "2h".toList, "--until".toList,
      "1h".toList, "myapp".toList]).2 rfl
  ⟨by rw [h.1]; rfl, by rw [h.1]; rfl⟩

/-- C16. Input validation of search_logs: with an empty Container, an empty Pattern or a
Pattern that does not compile, `handleSearchLogs` returns an error and the executor has not
been invoked; for a Pattern that does not compile the message starts with
`invalid regex pattern`. -/
theorem C16_input_validation {σ : Type} (Compile : GoString → Except GoString (GoString → Bool))
    (Quote : GoString → GoString) (exec : Executor σ) (s : σ) (args : searchLogsArgs) :
    (args.Container = [] ∨ args.Pattern = [] ∨ (∃ err, Compile args.Pattern = .error err) →
      ∃ msg, handleSearchLogs Compile Quote (recording exec) (s, []) args =
        some (.error msg, (s, []))) ∧
    (args.Container = [] →
      handleSearchLogs Compile Quote (recording exec) (s, []) args =
        some (.error "container name or ID is required".toList, (s, []))) ∧
    (args.Container ≠ [] → args.Pattern = [] →
      handleSearchLogs Compile Quote (recording exec) (s, []) args =
        some (.error "pattern is required".toList, (s, []))) ∧
    (∀ err, args.Container ≠ [] → args.Pattern ≠ [] → Compile args.Pattern = .error err →
      handleSearchLogs Compile Quote (recording exec) (s, []) args =
        some (.error ("invalid regex pattern ".toList ++ Quote args.Pattern ++ ": ".toList ++
          err), (s, [])) ∧
      "invalid regex pattern".toList <:+:
        "invalid regex pattern ".toList ++ Quote args.Pattern ++ ": ".toList ++ err) := by
  have h1 : args.Container = [] →
      handleSearchLogs Compile Quote (recording exec) (s, []) args =
        some (.error "container name or ID is required".toList, (s, [])) := by
    intro hc
    unfold handleSearchLogs
    simp [hc]
  have h2 : args.Container ≠ [] → args.Pattern = [] →
      handleSearchLogs Compile Quote (recording exec) (s, []) args =
        some (.error "pattern is required".toList, (s, [])) := by
    intro hc hp
    unfold handleSearchLogs
    simp [hc, hp]
  have h3 : ∀ err, args.Container ≠ [] → args.Pattern ≠ [] → Compile args.Pattern = .error err →
      handleSearchLogs Compile Quote (recording exec) (s, []) args =
        some (.error ("invalid regex pattern ".toList ++ Quote args.Pattern ++ ": ".toList ++
          err), (s, [])) := by
    intro err hc hp he
    unfold handleSearchLogs
    simp only [hc, hp, if_false]
    rw [he]
  refine ⟨?_, h1, h2, ?_⟩
  · intro h
    by_cases hc : args.Container = []
    · exact ⟨_, h1 hc⟩
    · by_cases hp : args.Pattern = []
      · exact ⟨_, h2 hc hp⟩
      · rcases h with h | h | ⟨err, he⟩
        · exact absurd h hc
        · exact absurd h hp
        · exact ⟨_, h3 err hc hp he⟩
  · intro err hc hp he
    refine ⟨h3 err hc hp he, ⟨[], " ".toList ++ Quote args.Pattern ++ ": ".toList ++ err, ?_⟩⟩
    simp [List.append_assoc]

/-- C16 at the input of `TestHandleSearchLogs_InvalidRegex`. -/
theorem C16_input_validation_witness :
    handleSearchLogs literalCompile plainQuote (recording mockExecutor) (NewMock, [])
        ⟨"myapp".toList, "[invalid".toList, 0, [], false, 0⟩ =
      some (.error ("invalid regex pattern ".toList ++ plainQuote "[invalid".toList ++
        ": ".toList ++ "error parsing regexp: missing closing ]: `[invalid`".toList),
        (NewMock, [])) :=
  ((C16_input_validation literalCompile plainQuote mockExecutor NewMock
    ⟨"myapp".toList, "[invalid".toList, 0, [], false, 0⟩).2.2.2
    "error parsing regexp: missing closing ]: `[invalid`".toList (by decide) (by decide)
    rfl).1

theorem getLogsCommand_eq (args : getLogsArgs) :
    getLogsCommand args =
      ["logs".toList, "--tail".toList,
        if args.Tail > 0 then Itoa args.Tail else "100".toList] ++
      (if args.Since ≠ [] then ["--since".toList, args.Since] else []) ++
      (if args.Until ≠ [] then ["--until".toList, args.Until] else []) ++
      (if args.Timestamps then ["--timestamps".toList] else []) ++
      [args.Container] := by
  unfold getLogsCommand
  by_cases ht : args.Tail ≤ 0
  · have h2 : ¬ args.Tail > 0 := by omega
    simp only [ht, h2, if_true, if_false]
    rfl
  · have h2 : args.Tail > 0 := by omega
    simp only [ht, h2, if_true, if_false]

/-- C18. Command construction of get_logs: with a non-empty Container, `handleGetLogs`
invokes the executor exactly once, with `logs --tail t`, then `--since Since` and
`--until Until` when these are non-empty, `--timestamps` when requested, and the Container,
where `t` is `Tail` in decimal when `Tail > 0` and `100` otherwise. -/
theorem C18_get_logs_command {σ : Type} (Quote : GoString → GoString) (exec : Executor σ)
    (s : σ) (args : getLogsArgs) (h : args.Container ≠ []) :
    (handleGetLogs Quote (recording exec) (s, []) args).2.2 =
      [["logs".toList, "--tail".toList,
          if args.Tail > 0 then Itoa args.Tail else "100".toList] ++
        (if args.Since ≠ [] then ["--since".toList, args.Since] else []) ++
        (if args.Until ≠ [] then ["--until".toList, args.Until] else []) ++
        (if args.Timestamps then ["--timestamps".toList] else []) ++
        [args.Container]] ∧
    (args.Tail > 0 → Itoa args.Tail = Nat.toDigits 10 args.Tail.toNat) ∧
    (handleGetLogs Quote exec s args).2 = (exec.ExecCombined s (getLogsCommand args)).2 := by
  refine ⟨?_, ?_, ?_⟩
  · rw [← getLogsCommand_eq]
    unfold handleGetLogs
    simp only [h, if_false]
    have hrec : (recording exec).ExecCombined (s, []) (getLogsCommand args) =
        ((exec.ExecCombined s (getLogsCommand args)).1,
          ((exec.ExecCombined s (getLogsCommand args)).2, [getLogsCommand args])) := rfl
    rw [hrec]
    rcases exec.ExecCombined s (getLogsCommand args) with ⟨r, s1⟩
    cases r with
    | error err => rfl
    | ok output =>
      by_cases ho : output = []
      · simp [ho]
      · simp [ho]
  · intro ht
    unfold Itoa fmtInt
    have : ¬ args.Tail < 0 := by omega
    simp [this]
  · unfold handleGetLogs
    simp only [h, if_false]
    rcases exec.ExecCombined s (getLogsCommand args) with ⟨r, s1⟩
    cases r with
    | error err => rfl
    | ok output =>
      by_cases ho : output = []
      · simp [ho]
      · simp [ho]

/-- C18 at the input of `TestHandleGetLogs_WithAllOptions`. -/
theorem C18_get_logs_command_witness :
    (handleGetLogs plainQuote (recording mockExecutor) (allOptionsMock, []) allOptionsArgs).2.2 =
      [["logs".toList, "--tail".toList, "50".toList, "--since".toList, "1h".toList,
        "--until".toList, "30m".toList, "--timestamps".toList, "mycontainer".toList]] :=
  (C18_get_logs_command plainQuote mockExecutor allOptionsMock allOptionsArgs
    (by decide)).1.trans (by decide)

theorem lineAt_append (pre : List GoString) (l : GoString) (rest : List GoString) :
    lineAt (pre ++ l :: rest) (pre.length : Int) = some l := by
  unfold lineAt
  have h : ¬ ((pre.length : Int) < 0) := by omega
  simp only [h, if_false, Int.toNat_ofNat]
  rw [List.get?_eq_getElem?, List.getElem?_append_right (le_refl _)]
  simp

theorem collectLines_findMatches (re : GoString → Bool) (ls : List GoString) :
    ∀ pre : List GoString,
      collectLines (pre ++ ls) (findMatches re ls (pre.length : Int)) = some (ls.filter re) := by
  induction ls with
  | nil => intro pre; rfl
  | cons l rest ih =>
    intro pre
    have ih2 := ih (pre ++ [l])
    have hlen : (((pre ++ [l]).length : Nat) : Int) = (pre.length : Int) + 1 := by
      simp
    rw [hlen, List.append_assoc] at ih2
    simp only [List.singleton_append] at ih2
    unfold findMatches
    by_cases hm : re l = true
    · simp only [hm, if_true]
      unfold collectLines
      rw [lineAt_append, ih2]
      simp [List.filter_cons, hm]
    · have hm2 : re l = false := by simpa using hm
      simp only [hm2, Bool.false_eq_true, if_false]
      rw [ih2]
      simp [List.filter_cons, hm2]

theorem findMatches_length (re : GoString → Bool) (ls : List GoString) :
    ∀ i : Int, (findMatches re ls i).length = (ls.filter re).length := by
  induction ls with
  | nil => intro i; rfl
  | cons l rest ih =>
    intro i
    unfold findMatches
    by_cases hm : re l = true
    · simp [hm, List.filter_cons, ih]
    · simp [hm, List.filter_cons, ih]

/-- C14. Search without context: for a non-empty fetched text in which at least one line
matches and `ContextLines <= 0`, the result is the header `Found N matches for pattern
<quoted pattern>:`, a blank line, and the matching lines of the text joined by newlines, in
their original order, `N` being their number. -/
theorem C14_search_without_context {σ : Type}
    (Compile : GoString → Except GoString (GoString → Bool)) (Quote : GoString → GoString)
    (exec : Executor σ) (s s1 : σ) (args : searchLogsArgs) (re : GoString → Bool)
    (output : GoString) (hc : args.Container ≠ []) (hp : args.Pattern ≠ [])
    (hre : Compile args.Pattern = .ok re)
    (hex : exec.ExecCombined s (searchLogsCommand args) = (.ok output, s1))
    (hout : output ≠ [])
    (hmatch : ∃ line ∈ Split (TrimRightNewline output), re line = true)
    (hctx : args.ContextLines ≤ 0) :
    handleSearchLogs Compile Quote exec s args =
      some (.ok ("Found ".toList ++
          Itoa (((Split (TrimRightNewline output)).filter re).length : Nat) ++
          " matches for pattern ".toList ++ Quote args.Pattern ++ ":\n\n".toList ++
          JoinSep "\n".toList ((Split (TrimRightNewline output)).filter re)), s1) ∧
    (∀ line ∈ (Split (TrimRightNewline output)).filter re,
      line ∈ Split (TrimRightNewline output) ∧ re line = true) := by
  refine ⟨?_, fun line hl => List.mem_filter.mp hl⟩
  have hlen := findMatches_length re (Split (TrimRightNewline output)) 0
  have hcol := collectLines_findMatches re (Split (TrimRightNewline output)) []
  simp only [List.nil_append, List.length_nil, Nat.cast_zero] at hcol
  have hpos : (findMatches re (Split (TrimRightNewline output)) 0).length ≠ 0 := by
    rw [hlen]
    obtain ⟨line, hl, hm⟩ := hmatch
    exact Nat.pos_iff_ne_zero.mp (List.length_pos_of_mem (List.mem_filter.mpr ⟨hl, hm⟩))
  have hnc : ¬ args.ContextLines > 0 := by omega
  unfold handleSearchLogs
  simp only [hc, hp, if_false]
  rw [hre]
  simp only []
  rw [hex]
  simp only []
  unfold searchOutput
  simp only [hout, hpos, hnc, if_false]
  rw [hcol, hlen]
  simp [List.append_assoc]

/-- C14 at the input of `TestHandleSearchLogs_BasicMatch`. -/
theorem C14_search_without_context_witness :
    (handleSearchLogs literalCompile plainQuote mockExecutor basicMatchMock basicMatchArgs).map
        (fun r => r.1) =
      some (.ok ("Found 2 matches for pattern \"ERROR\":\n\n" ++
        "ERROR connection refused\nERROR timeout").toList) :=
  have h := (C14_search_without_context literalCompile plainQuote mockExecutor basicMatchMock
    (basicMatchMock.exec ["logs".toList, "--tail".toList, "1000".toList, "myapp".toList]).2
    basicMatchArgs (hasInfix "ERROR".toList)
    ("INFO starting server\nERROR connection refused\nINFO request handled\n" ++
      "ERROR timeout\nINFO shutting down").toList
    (by decide) (by decide) rfl rfl (by decide)
    ⟨"ERROR timeout".toList, by decide, by decide⟩ (by decide)).1
  by rw [h]; rfl

theorem findMatches_eq_nil (re : GoString → Bool) (ls : List GoString)
    (h : ∀ line ∈ ls, re line = false) : ∀ i : Int, findMatches re ls i = [] := by
  induction ls with
  | nil => intro i; rfl
  | cons l rest ih =>
    intro i
    unfold findMatches
    have hl := h l (List.mem_cons_self _ _)
    simp only [hl, Bool.false_eq_true, if_false]
    exact ih (fun x hx => h x (List.mem_cons_of_mem _ hx)) _

/-- C15 as stated fails: for the fetched text `INFO a` followed by two newlines and a
pattern that matches no line, the message counts 1 log line, whereas removing a single
trailing newline and splitting gives 2 lines. -/
theorem C15_counterexample :
    (handleSearchLogs literalCompile plainQuote mockExecutor trailingBlankMock
        basicMatchArgs).map (fun r => r.1) =
      some (.ok "No matches found for pattern \"ERROR\" in 1 log lines.".toList) ∧
    (Split (TrimOneNewline "INFO a\n\n".toList)).length = 2 := by
  refine ⟨rfl, by decide⟩

/-- C15, amended. For a non-empty fetched text in which no line matches, the result is
`No matches found for pattern <quoted pattern> in M log lines.`, where `M` is the number of
pieces obtained by removing every trailing newline from the text and splitting the rest on
newlines; blank lines inside the text are counted, those at its end are not. -/
theorem C15_no_match_line_count {σ : Type}
    (Compile : GoString → Except GoString (GoString → Bool)) (Quote : GoString → GoString)
    (exec : Executor σ) (s s1 : σ) (args : searchLogsArgs) (re : GoString → Bool)
    (output : GoString) (hc : args.Container ≠ []) (hp : args.Pattern ≠ [])
    (hre : Compile args.Pattern = .ok re)
    (hex : exec.ExecCombined s (searchLogsCommand args) = (.ok output, s1))
    (hout : output ≠ [])
    (hnone : ∀ line ∈ Split (TrimRightNewline output), re line = false) :
    handleSearchLogs Compile Quote exec s args =
      some (.ok ("No matches found for pattern ".toList ++ Quote args.Pattern ++
        " in ".toList ++ Itoa ((Split (TrimRightNewline output)).length : Nat) ++
        " log lines.".toList), s1) ∧
    (Split (TrimRightNewline "a\n\nb\n\n\n".toList)).length = 3 := by
  refine ⟨?_, by decide⟩
  have hnil := findMatches_eq_nil re (Split (TrimRightNewline output)) hnone 0
  unfold handleSearchLogs
  simp only [hc, hp, if_false]
  rw [hre]
  simp only []
  rw [hex]
  simp only []
  unfold searchOutput
  simp only [hout, if_false]
  rw [hnil]
  simp

/-- C15 at the input of `TestHandleSearchLogs_NoMatches`, with the pattern `WARN`. -/
theorem C15_no_match_line_count_witness :
    (handleSearchLogs literalCompile plainQuote mockExecutor basicMatchMock
        ⟨"myapp".toList, "WARN".toList, 0, [], false, 0⟩).map (fun r => r.1) =
      some (.ok "No matches found for pattern \"WARN\" in 5 log lines.".toList) :=
  have h := (C15_no_match_line_count literalCompile plainQuote mockExecutor basicMatchMock
    (basicMatchMock.exec ["logs".toList, "--tail".toList, "1000".toList, "myapp".toList]).2
    ⟨"myapp".toList, "WARN".toList, 0, [], false, 0⟩ (hasInfix "WARN".toList)
    ("INFO starting server\nERROR connection refused\nINFO request handled\n" ++
      "ERROR timeout\nINFO shutting down").toList
    (by decide) (by decide) rfl rfl (by decide) (by decide)).1
  by rw [h]; rfl

/-! ## The context-window merger: claims C11 to C13 -/

/-- Whatever the match index and the radius, the range built by the first loop starts at
`0` or later and ends before `len(lines)`. -/
theorem contextRange_inBounds (n : Nat) (c idx : Int) (hn : (n : Int) < 9223372036854775808) :
    inBounds n (contextRange n c idx) := by
  unfold inBounds contextRange wrapInt
  simp only []
  omega

theorem mergeStep_inBounds (n : Nat) (st : List lineRange × lineRange) (r : lineRange)
    (h : ∀ a ∈ st.1 ++ [st.2], inBounds n a) (hr : inBounds n r) :
    ∀ a ∈ (mergeStep st r).1 ++ [(mergeStep st r).2], inBounds n a := by
  obtain ⟨init, last⟩ := st
  simp only at h
  have hlast : inBounds n last := h last (by simp)
  unfold inBounds at hlast hr
  unfold mergeStep
  simp only []
  by_cases h1 : r.start ≤ wrapInt (last.end_ + 1)
  · by_cases h2 : r.end_ > last.end_
    · simp only [h1, h2, if_true]
      intro a ha
      rcases List.mem_append.mp ha with ha | ha
      · exact h a (List.mem_append_left _ ha)
      · simp only [List.mem_singleton] at ha
        rw [ha]
        unfold inBounds
        simp only []
        omega
    · simp only [h1, h2, if_true, if_false]
      exact h
  · simp only [h1, if_false]
    intro a ha
    rcases List.mem_append.mp ha with ha | ha
    · exact h a ha
    · simp only [List.mem_singleton] at ha
      rw [ha]
      exact hr

theorem writeGroups_inBounds (lines : List GoString) (ms : List Int)
    (merged : List lineRange) (h : ∀ r ∈ merged, inBounds lines.length r) (ri : Nat) :
    writeGroups lines ms ri merged = some (groupsText lines ms ri merged) := by
  induction merged generalizing ri with
  | nil => rfl
  | cons r rest ih =>
    have hr := h r (List.mem_cons_self _ _)
    unfold inBounds at hr
    unfold writeGroups groupsText
    rw [writeLines_valid lines ms (loopIndices r) (by
        intro i hi
        rw [mem_loopIndices] at hi
        omega),
      ih (fun x hx => h x (List.mem_cons_of_mem _ hx))]

/-- The merged ranges of a non-empty list of match indices are all within the slice. -/
theorem merged_inBounds (lines : List GoString) (matchIndices : List Int) (c : Int)
    (hlen : lines.length < 9223372036854775808) (merged : List lineRange)
    (hm : mergeRanges (buildRanges lines matchIndices c) = some merged) :
    ∀ r ∈ merged, inBounds lines.length r := by
  have hn : (lines.length : Int) < 9223372036854775808 := by exact_mod_cast hlen
  cases matchIndices with
  | nil => simp [buildRanges, mergeRanges] at hm
  | cons i0 rest =>
    rw [buildRanges_cons, mergeRanges_cons] at hm
    simp only [Option.some.injEq] at hm
    subst hm
    refine mergeLoop_invariant (fun st => ∀ a ∈ st.1 ++ [st.2], inBounds lines.length a)
      (inBounds lines.length) (fun st r h hr => mergeStep_inBounds lines.length st r h hr)
      (buildRanges lines rest c) ([], contextRange lines.length c i0) ?_ ?_
    · intro a ha
      simp only [List.nil_append, List.mem_singleton] at ha
      rw [ha]
      exact contextRange_inBounds _ c i0 hn
    · intro r hr
      obtain ⟨i, _, rfl⟩ := (mem_buildRanges lines rest c r).mp hr
      exact contextRange_inBounds _ c i hn

/-- For a non-empty list of match indices `formatWithContext` never panics: its text is the
rows of the merged groups without the final newlines. -/
theorem formatWithContext_total (lines : List GoString) (matchIndices : List Int) (c : Int)
    (hlen : lines.length < 9223372036854775808) (hne : matchIndices ≠ []) :
    ∃ merged, mergeRanges (buildRanges lines matchIndices c) = some merged ∧
      formatWithContext lines matchIndices c =
        some (TrimRightNewline (groupsText lines matchIndices 0 merged)) := by
  obtain ⟨merged, hm⟩ := mergeRanges_isSome lines matchIndices c hne
  refine ⟨merged, hm, ?_⟩
  unfold formatWithContext
  rw [hm]
  simp only []
  rw [writeGroups_inBounds lines matchIndices merged
    (merged_inBounds lines matchIndices c hlen merged hm) 0]
  rfl

/-- Clamping where it works: a match at index 0 is clamped for every radius `> 0`, and a
match at any index `i` is clamped whenever `i + radius` does not exceed the largest
`int`. -/
theorem clamping_without_overflow (n : Nat) (c i : Int)
    (hn : (n : Int) < 9223372036854775808) (hc : 0 < c ∧ c < 9223372036854775808)
    (hi : 0 ≤ i ∧ i < (n : Int)) (hfit : i = 0 ∨ i + c < 9223372036854775808) :
    0 ≤ (contextRange n c i).start ∧ (contextRange n c i).start ≤ i ∧
      i ≤ (contextRange n c i).end_ ∧ (contextRange n c i).end_ ≤ (n : Int) - 1 := by
  unfold contextRange wrapInt
  simp only []
  omega

/-- C12 fails on the code for a match at the last index: with the lines `a`, `b`, the
match index 1 and the radius `2^63 - 1`, the sum `1 + radius` wraps around, the range built
is `[0, -2^63]`, whose end is negative and below the match index; `formatWithContext` does not
panic but returns the empty text. -/
theorem C12_last_index_wraps :
    0 < maxInt ∧ isInt maxInt ∧ ((["a".toList, "b".toList].length : Int) - 1 = 1) ∧
    contextRange ["a".toList, "b".toList].length maxInt 1 = ⟨0, -9223372036854775808⟩ ∧
    ¬ (1 ≤ (contextRange ["a".toList, "b".toList].length maxInt 1).end_) ∧
    (contextRange ["a".toList, "b".toList].length maxInt 1).end_ < 0 ∧
    formatWithContext ["a".toList, "b".toList] [1] maxInt = some [] := by
  refine ⟨by decide, ⟨by decide, by decide⟩, by decide, by decide, by decide, by decide,
    by decide⟩

theorem sortInts_perm (xs : List Int) : List.Perm (sortInts xs) xs :=
  List.perm_insertionSort _ xs

theorem sortInts_sorted (xs : List Int) : List.Sorted (fun a b => a ≤ b) (sortInts xs) :=
  List.sorted_insertionSort _ xs

theorem emittedIndices_eq (lines : List GoString) (ms : List Int) (c : Int)
    (merged : List lineRange) (hm : mergeRanges (buildRanges lines ms c) = some merged) :
    emittedIndices lines ms c = (merged.map loopIndices).flatten := by
  unfold emittedIndices
  rw [hm]

theorem mem_emittedIndices (lines : List GoString) (ms : List Int) (c : Int)
    (merged : List lineRange) (hm : mergeRanges (buildRanges lines ms c) = some merged)
    (j : Int) : j ∈ emittedIndices lines ms c ↔ ∃ m ∈ merged, m.covers j := by
  rw [emittedIndices_eq lines ms c merged hm, List.mem_flatten]
  constructor
  · rintro ⟨l, hl, hj⟩
    obtain ⟨m, hm2, rfl⟩ := List.mem_map.mp hl
    exact ⟨m, hm2, (mem_loopIndices m j).mp hj⟩
  · rintro ⟨m, hm2, hj⟩
    exact ⟨loopIndices m, List.mem_map_of_mem _ hm2, (mem_loopIndices m j).mpr hj⟩

/-- Without overflow: the merged ranges are proper, separated by more than one line, cover
only indices of the per-match windows, and cover all of them when the matches ascend. -/
theorem merged_spec (lines : List GoString) (ms : List Int) (radius : Int)
    (merged : List lineRange) (hlen : lines.length < 9223372036854775808)
    (hvalid : validIndices lines ms) (hr : 0 ≤ radius)
    (hfit : ∀ i ∈ ms, i + radius < 9223372036854775808)
    (hm : mergeRanges (buildRanges lines ms radius) = some merged) :
    (∀ a ∈ merged, properRange lines.length a) ∧
    List.Pairwise (fun a b => a.end_ + 1 < b.start) merged ∧
    (∀ k, (∃ m ∈ merged, m.covers k) → ∃ i ∈ ms, (specWindow lines radius i).covers k) ∧
    (List.Sorted (fun a b => a ≤ b) ms →
      ∀ k, (∃ i ∈ ms, (specWindow lines radius i).covers k) → ∃ m ∈ merged, m.covers k) := by
  have hn : (lines.length : Int) < 9223372036854775808 := by exact_mod_cast hlen
  cases ms with
  | nil => simp [buildRanges, mergeRanges] at hm
  | cons i0 rest =>
    rw [buildRanges_cons, mergeRanges_cons] at hm
    simp only [Option.some.injEq] at hm
    subst hm
    have hi0 := hvalid i0 (List.mem_cons_self _ _)
    have hf0 := hfit i0 (List.mem_cons_self _ _)
    have hPV := mergeLoop_proper lines i0 rest radius hlen hr hvalid hfit
    have hinit : (∀ a ∈ ([] : List lineRange) ++ [contextRange lines.length radius i0],
          properRange lines.length a) ∧
        List.Pairwise (fun a b => a.end_ + 1 < b.start)
          (([] : List lineRange) ++ [contextRange lines.length radius i0]) := by
      refine ⟨?_, by simp⟩
      intro a ha
      simp only [List.nil_append, List.mem_singleton] at ha
      subst ha
      exact (contextRange_proper _ radius i0 hn hr hi0 hf0).1
    have hq : ∀ r ∈ buildRanges lines rest radius, properRange lines.length r := by
      intro r hr2
      obtain ⟨i, hi, rfl⟩ := (mem_buildRanges lines rest radius r).mp hr2
      exact (contextRange_proper _ radius i hn hr (hvalid i (List.mem_cons_of_mem _ hi))
        (hfit i (List.mem_cons_of_mem _ hi))).1
    refine ⟨hPV.1, hPV.2, ?_, ?_⟩
    · intro k h
      rcases (mergeLoop_covers lines.length hn k _ _ hinit hq).1 h with
        ⟨m, hm, hk⟩ | ⟨r, hr2, hk⟩
      · simp only [List.nil_append, List.mem_singleton] at hm
        subst hm
        rw [contextRange_eq_specWindow lines radius i0 hlen hr hi0 hf0] at hk
        exact ⟨i0, List.mem_cons_self _ _, hk⟩
      · obtain ⟨i, hi, rfl⟩ := (mem_buildRanges lines rest radius r).mp hr2
        rw [contextRange_eq_specWindow lines radius i hlen hr
          (hvalid i (List.mem_cons_of_mem _ hi)) (hfit i (List.mem_cons_of_mem _ hi))] at hk
        exact ⟨i, List.mem_cons_of_mem _ hi, hk⟩
    · intro hsorted k h
      exact merged_covers_windows lines i0 rest radius hlen hr hvalid hfit hsorted k h

/-- A list of non-empty ranges, each ending more than one line before every later one
starts, is determined by the set of indices it covers. -/
theorem canonical_ranges_unique :
    ∀ (L1 L2 : List lineRange),
      (∀ a ∈ L1, a.start ≤ a.end_) → List.Pairwise (fun a b => a.end_ + 1 < b.start) L1 →
      (∀ a ∈ L2, a.start ≤ a.end_) → List.Pairwise (fun a b => a.end_ + 1 < b.start) L2 →
      (∀ k, (∃ m ∈ L1, m.covers k) ↔ (∃ m ∈ L2, m.covers k)) → L1 = L2 := by
  intro L1
  induction L1 with
  | nil =>
    intro L2 _ _ h2 _ hcov
    cases L2 with
    | nil => rfl
    | cons b t2 =>
      have hb := h2 b (List.mem_cons_self _ _)
      obtain ⟨m, hm, _⟩ := (hcov b.start).mpr ⟨b, List.mem_cons_self _ _, ⟨le_refl _, hb⟩⟩
      simp at hm
  | cons a t1 ih =>
    intro L2 h1 p1 h2 p2 hcov
    cases L2 with
    | nil =>
      have ha := h1 a (List.mem_cons_self _ _)
      obtain ⟨m, hm, _⟩ := (hcov a.start).mp ⟨a, List.mem_cons_self _ _, ⟨le_refl _, ha⟩⟩
      simp at hm
    | cons b t2 =>
      have ha := h1 a (List.mem_cons_self _ _)
      have hb := h2 b (List.mem_cons_self _ _)
      rw [List.pairwise_cons] at p1 p2
      have key : ∀ (x y : lineRange) (tx ty : List lineRange), x.start ≤ x.end_ →
          (∀ z ∈ ty, y.end_ + 1 < z.start) → (∀ z ∈ ty, z.start ≤ z.end_) →
          (∀ z ∈ tx, x.end_ + 1 < z.start) →
          (∀ k, (∃ m ∈ x :: tx, m.covers k) → (∃ m ∈ y :: ty, m.covers k)) →
          (∀ k, (∃ m ∈ y :: ty, m.covers k) → (∃ m ∈ x :: tx, m.covers k)) →
          y.start ≤ y.end_ → y.start ≤ x.start ∧ (y.start = x.start → x.end_ ≤ y.end_) := by
        intro x y tx ty hx hy hyv hxg hxy hyx hyy
        have hs : y.start ≤ x.start := by
          obtain ⟨m, hm, hk⟩ := hxy x.start ⟨x, List.mem_cons_self _ _, ⟨le_refl _, hx⟩⟩
          unfold lineRange.covers at hk
          rcases List.mem_cons.mp hm with e | hm
          · subst e; exact hk.1
          · have := hy m hm
            omega
        refine ⟨hs, ?_⟩
        intro he
        by_contra hlt
        obtain ⟨m, hm, hk⟩ := hxy (y.end_ + 1)
          ⟨x, List.mem_cons_self _ _, ⟨by omega, by omega⟩⟩
        unfold lineRange.covers at hk
        rcases List.mem_cons.mp hm with e | hm
        · subst e; omega
        · have := hy m hm
          omega
      have k1 := key a b t1 t2 ha p2.1 (fun z hz => h2 z (List.mem_cons_of_mem _ hz)) p1.1
        (fun k => (hcov k).mp) (fun k => (hcov k).mpr) hb
      have k2 := key b a t2 t1 hb p1.1 (fun z hz => h1 z (List.mem_cons_of_mem _ hz)) p2.1
        (fun k => (hcov k).mpr) (fun k => (hcov k).mp) ha
      have es : a.start = b.start := by omega
      have ee : a.end_ = b.end_ := by
        have := k1.2 es.symm
        have := k2.2 es
        omega
      have eab : a = b := by
        cases a; cases b
        simp only [lineRange.mk.injEq]
        exact ⟨es, ee⟩
      subst eab
      have tails : ∀ (tx ty : List lineRange), (∀ z ∈ tx, a.end_ + 1 < z.start) →
          (∀ z ∈ tx, z.start ≤ z.end_) →
          (∀ k, (∃ m ∈ a :: tx, m.covers k) → (∃ m ∈ a :: ty, m.covers k)) →
          ∀ k, (∃ m ∈ tx, m.covers k) → (∃ m ∈ ty, m.covers k) := by
        intro tx ty hg hv hxy k hk
        obtain ⟨x, hx, hkx⟩ := hk
        obtain ⟨m, hm, hkm⟩ := hxy k ⟨x, List.mem_cons_of_mem _ hx, hkx⟩
        rcases List.mem_cons.mp hm with e | hm
        · subst e
          unfold lineRange.covers at hkx hkm
          have := hg x hx
          omega
        · exact ⟨m, hm, hkm⟩
      have := ih t2 (fun z hz => h1 z (List.mem_cons_of_mem _ hz)) p1.2
        (fun z hz => h2 z (List.mem_cons_of_mem _ hz)) p2.2
        (fun k => ⟨tails t1 t2 p1.1 (fun z hz => h1 z (List.mem_cons_of_mem _ hz))
            (fun k => (hcov k).mp) k,
          tails t2 t1 p2.1 (fun z hz => h2 z (List.mem_cons_of_mem _ hz))
            (fun k => (hcov k).mpr) k⟩)
      rw [this]

theorem rowText_congr (lines : List GoString) (A B : List Int) (h : ∀ i, i ∈ A ↔ i ∈ B)
    (i : Int) : rowText lines A i = rowText lines B i := by
  unfold rowText marker
  by_cases hi : i ∈ A
  · have hb : i ∈ B := (h i).mp hi
    simp [hi, hb]
  · have hb : i ∉ B := fun hb => hi ((h i).mpr hb)
    simp [hi, hb]

theorem groupsText_congr (lines : List GoString) (A B : List Int) (h : ∀ i, i ∈ A ↔ i ∈ B) :
    ∀ (merged : List lineRange) (ri : Nat),
      groupsText lines A ri merged = groupsText lines B ri merged := by
  intro merged
  induction merged with
  | nil => intro ri; rfl
  | cons r rest ih =>
    intro ri
    unfold groupsText
    rw [ih (ri + 1), funext (rowText_congr lines A B h)]

/-- Ascending lists of valid matches with the same elements give the same text, when no
`i + radius` overflows. -/
theorem formatWithContext_ascending_congr (lines : List GoString) (A B : List Int)
    (radius : Int) (hlen : lines.length < 9223372036854775808) (hne : A ≠ [])
    (hvalid : validIndices lines A) (hr : 0 ≤ radius)
    (hfit : ∀ i ∈ A, i + radius < 9223372036854775808)
    (hA : List.Sorted (fun a b => a ≤ b) A) (hB : List.Sorted (fun a b => a ≤ b) B)
    (h : ∀ i, i ∈ A ↔ i ∈ B) :
    formatWithContext lines A radius = formatWithContext lines B radius := by
  have hneB : B ≠ [] := by
    obtain ⟨i, hi⟩ := List.exists_mem_of_ne_nil _ hne
    exact List.ne_nil_of_mem ((h i).mp hi)
  have hvalidB : validIndices lines B := fun i hi => hvalid i ((h i).mpr hi)
  have hfitB : ∀ i ∈ B, i + radius < 9223372036854775808 := fun i hi => hfit i ((h i).mpr hi)
  obtain ⟨mA, hmA, eA⟩ := formatWithContext_total lines A radius hlen hne
  obtain ⟨mB, hmB, eB⟩ := formatWithContext_total lines B radius hlen hneB
  have sA := merged_spec lines A radius mA hlen hvalid hr hfit hmA
  have sB := merged_spec lines B radius mB hlen hvalidB hr hfitB hmB
  have hcov : ∀ k, (∃ m ∈ mA, m.covers k) ↔ (∃ m ∈ mB, m.covers k) := by
    intro k
    constructor
    · intro hk
      obtain ⟨i, hi, hw⟩ := sA.2.2.1 k hk
      exact sB.2.2.2 hB k ⟨i, (h i).mp hi, hw⟩
    · intro hk
      obtain ⟨i, hi, hw⟩ := sB.2.2.1 k hk
      exact sA.2.2.2 hA k ⟨i, (h i).mpr hi, hw⟩
  have heq : mA = mB := canonical_ranges_unique mA mB
    (fun a ha => (sA.1 a ha).2.1) sA.2.1 (fun a ha => (sB.1 a ha).2.1) sB.2.1 hcov
  rw [eA, eB, heq, groupsText_congr lines A B h mB 0]

/-- C11 as stated fails: for the six lines `a` to `f` and radius 0, the descending list
`[5, 0]` gives the text `> f`, its ascending rearrangement `[0, 5]` gives `> a`, `--`,
`> f`. -/
theorem C11_counterexample :
    List.Perm [(5 : Int), 0] (sortInts [5, 0]) ∧ sortInts [5, 0] = [0, 5] ∧
    formatWithContext sixLines [5, 0] 0 = some "> f".toList ∧
    formatWithContext sixLines (sortInts [5, 0]) 0 = some "> a\n--\n> f".toList ∧
    formatWithContext sixLines [5, 0] 0 ≠ formatWithContext sixLines (sortInts [5, 0]) 0 := by
  refine ⟨(sortInts_perm _).symm, by decide, by decide, by decide, by decide⟩

/-- C11, amended. `formatWithContext` merges the ranges in the order of the match indices
and does not sort them. For valid match indices and a radius `>= 0` without overflow: two
ascending lists with the same elements give the same text, so every ascending list gives
the text of its ascending rearrangement; any permutation prints only lines that the
ascending rearrangement prints, each with the same marker. -/
theorem C11_order_dependence (lines : List GoString) (ms : List Int) (radius : Int)
    (hlen2 : lines.length < 9223372036854775808) (hne : ms ≠ [])
    (hvalid : validIndices lines ms) (hr : 0 ≤ radius)
    (hfit : ∀ i ∈ ms, i + radius < 9223372036854775808) :
    (∀ ms', List.Sorted (fun a b => a ≤ b) ms' → (∀ i, i ∈ ms' ↔ i ∈ ms) →
      formatWithContext lines ms' radius = formatWithContext lines (sortInts ms) radius) ∧
    (∀ ms', List.Perm ms' ms →
      ∀ j ∈ emittedIndices lines ms' radius,
        j ∈ emittedIndices lines (sortInts ms) radius ∧
        rowText lines ms' j = rowText lines (sortInts ms) j) := by
  have hS : ∀ i, i ∈ sortInts ms ↔ i ∈ ms := fun i => (sortInts_perm ms).mem_iff
  have hneS : sortInts ms ≠ [] := by
    obtain ⟨i, hi⟩ := List.exists_mem_of_ne_nil _ hne
    exact List.ne_nil_of_mem ((hS i).mpr hi)
  have hvalidS : validIndices lines (sortInts ms) := fun i hi => hvalid i ((hS i).mp hi)
  have hfitS : ∀ i ∈ sortInts ms, i + radius < 9223372036854775808 :=
    fun i hi => hfit i ((hS i).mp hi)
  refine ⟨?_, ?_⟩
  · intro ms' hs' h'
    have hne' : ms' ≠ [] := by
      obtain ⟨i, hi⟩ := List.exists_mem_of_ne_nil _ hne
      exact List.ne_nil_of_mem ((h' i).mpr hi)
    exact formatWithContext_ascending_congr lines ms' (sortInts ms) radius hlen2 hne'
      (fun i hi => hvalid i ((h' i).mp hi)) hr (fun i hi => hfit i ((h' i).mp hi)) hs'
      (sortInts_sorted ms) (fun i => (h' i).trans (hS i).symm)
  · intro ms' hp j hj
    have h' : ∀ i, i ∈ ms' ↔ i ∈ ms := fun i => hp.mem_iff
    have hne' : ms' ≠ [] := by
      obtain ⟨i, hi⟩ := List.exists_mem_of_ne_nil _ hne
      exact List.ne_nil_of_mem ((h' i).mpr hi)
    obtain ⟨m1, hm1⟩ := mergeRanges_isSome lines ms' radius hne'
    obtain ⟨m2, hm2⟩ := mergeRanges_isSome lines (sortInts ms) radius hneS
    have s1 := merged_spec lines ms' radius m1 hlen2 (fun i hi => hvalid i ((h' i).mp hi)) hr
      (fun i hi => hfit i ((h' i).mp hi)) hm1
    have s2 := merged_spec lines (sortInts ms) radius m2 hlen2 hvalidS hr hfitS hm2
    refine ⟨?_, rowText_congr lines ms' (sortInts ms) (fun i => (h' i).trans (hS i).symm) j⟩
    rw [mem_emittedIndices lines ms' radius m1 hm1] at hj
    rw [mem_emittedIndices lines (sortInts ms) radius m2 hm2]
    obtain ⟨i, hi, hw⟩ := s1.2.2.1 j hj
    exact s2.2.2.2 (sortInts_sorted ms) j ⟨i, (hS i).mpr ((h' i).mp hi), hw⟩

/-- C11 at the six lines with the matches `[5, 0]` and radius 0: the ascending list
`[0, 0, 5]` gives the text of `[0, 5]`. -/
theorem C11_order_dependence_witness :
    formatWithContext sixLines [0, 0, 5] 0 = formatWithContext sixLines (sortInts [5, 0]) 0 :=
  (C11_order_dependence sixLines [5, 0] 0 (by decide) (by decide)
    (by unfold validIndices; decide) (by decide) (by decide)).1 [0, 0, 5] (by decide)
    (by
      intro i
      simp only [List.mem_cons, List.mem_singleton, List.not_mem_nil, or_false]
      tauto)

/-- One step of the merge loop on ascending matches without overflow: the last merged range
then ends where the window of the current match ends, and a range is added exactly when the
current match is more than `2 * radius + 1` after the previous one. -/
theorem mergeStep_ascending (n : Nat) (c prev j : Int) (st : List lineRange × lineRange)
    (hn : (n : Int) < 9223372036854775808) (hc : 0 ≤ c)
    (hp : 0 ≤ prev ∧ prev < (n : Int)) (hj : 0 ≤ j ∧ j < (n : Int)) (hle : prev ≤ j)
    (hfp : prev + c < 9223372036854775808) (hfj : j + c < 9223372036854775808)
    (hst : st.2.end_ = (contextRange n c prev).end_) :
    (mergeStep st (contextRange n c j)).2.end_ = (contextRange n c j).end_ ∧
    (mergeStep st (contextRange n c j)).1.length =
      st.1.length + (if j - prev > 2 * c + 1 then 1 else 0) := by
  obtain ⟨init, last⟩ := st
  simp only at hst
  rw [contextRange_eq n c prev hn hc hp hfp] at hst
  rw [contextRange_eq n c j hn hc hj hfj]
  simp only at hst
  have hw : wrapInt (last.end_ + 1) = last.end_ + 1 := by unfold wrapInt; omega
  unfold mergeStep
  simp only [hw]
  by_cases h1 : max 0 (j - c) ≤ last.end_ + 1
  · have hsep : ¬ (j - prev > 2 * c + 1) := by omega
    by_cases h2 : min ((n : Int) - 1) (j + c) > last.end_
    · rw [if_pos h1, if_pos h2, if_neg hsep]
      exact ⟨rfl, rfl⟩
    · rw [if_pos h1, if_neg h2, if_neg hsep]
      refine ⟨?_, rfl⟩
      show last.end_ = min ((n : Int) - 1) (j + c)
      omega
  · have hsep : j - prev > 2 * c + 1 := by omega
    rw [if_neg h1, if_pos hsep]
    exact ⟨rfl, by simp⟩

/-- The merge loop on ascending matches without overflow adds one range per place where
consecutive matches are more than `2 * radius + 1` apart. -/
theorem mergeLoop_length (lines : List GoString) (radius : Int)
    (hlen : lines.length < 9223372036854775808) (hr : 0 ≤ radius) :
    ∀ (rest : List Int) (prev : Int) (st : List lineRange × lineRange),
      validIndices lines (prev :: rest) →
      (∀ i ∈ prev :: rest, i + radius < 9223372036854775808) →
      List.Sorted (fun a b => a ≤ b) (prev :: rest) →
      st.2.end_ = (contextRange lines.length radius prev).end_ →
      (mergeLoop (buildRanges lines rest radius) st).1.length =
        st.1.length + separatorCount radius (prev :: rest) := by
  have hn : (lines.length : Int) < 9223372036854775808 := by exact_mod_cast hlen
  intro rest
  induction rest with
  | nil =>
    intro prev st _ _ _ _
    simp [buildRanges, mergeLoop, separatorCount]
  | cons j rest ih =>
    intro prev st hvalid hfit hsorted hst
    have hp := hvalid prev (List.mem_cons_self _ _)
    have hj := hvalid j (List.mem_cons_of_mem _ (List.mem_cons_self _ _))
    have hfp := hfit prev (List.mem_cons_self _ _)
    have hfj := hfit j (List.mem_cons_of_mem _ (List.mem_cons_self _ _))
    unfold List.Sorted at hsorted
    rw [List.pairwise_cons] at hsorted
    have hle : prev ≤ j := hsorted.1 j (List.mem_cons_self _ _)
    have step := mergeStep_ascending lines.length radius prev j st hn hr hp hj hle hfp hfj hst
    have ih2 := ih j (mergeStep st (contextRange lines.length radius j))
      (fun i hi => hvalid i (List.mem_cons_of_mem _ hi))
      (fun i hi => hfit i (List.mem_cons_of_mem _ hi)) hsorted.2 step.1
    rw [buildRanges_cons]
    have hfold : mergeLoop (contextRange lines.length radius j :: buildRanges lines rest radius)
        st = mergeLoop (buildRanges lines rest radius)
          (mergeStep st (contextRange lines.length radius j)) := rfl
    have hcount : separatorCount radius (prev :: j :: rest) =
        (if j - prev > 2 * radius + 1 then 1 else 0) + separatorCount radius (j :: rest) := rfl
    rw [hfold, ih2, step.2, hcount]
    omega

/-- Ascending matches without overflow: the number of merged groups is one more than the
number of places where consecutive matches are more than `2 * radius + 1` apart. -/
theorem merged_length (lines : List GoString) (ms : List Int) (radius : Int)
    (merged : List lineRange) (hlen : lines.length < 9223372036854775808)
    (hvalid : validIndices lines ms) (hr : 0 ≤ radius)
    (hfit : ∀ i ∈ ms, i + radius < 9223372036854775808)
    (hsorted : List.Sorted (fun a b => a ≤ b) ms)
    (hm : mergeRanges (buildRanges lines ms radius) = some merged) :
    merged.length = 1 + separatorCount radius ms := by
  cases ms with
  | nil => simp [buildRanges, mergeRanges] at hm
  | cons i0 rest =>
    rw [buildRanges_cons, mergeRanges_cons] at hm
    simp only [Option.some.injEq] at hm
    subst hm
    have := mergeLoop_length lines radius hlen hr rest i0
      ([], contextRange lines.length radius i0) hvalid hfit hsorted rfl
    simp only [List.length_append, List.length_singleton, this, List.length_nil]
    omega

theorem unlines_append (a b : List GoString) : unlines (a ++ b) = unlines a ++ unlines b := by
  simp [unlines]

theorem groupsText_eq_unlines (lines : List GoString) (ms : List Int) :
    ∀ (merged : List lineRange) (ri : Nat),
      groupsText lines ms ri merged = unlines (outputRows lines ms ri merged) := by
  intro merged
  induction merged with
  | nil => intro ri; rfl
  | cons r rest ih =>
    intro ri
    unfold groupsText outputRows
    rw [ih (ri + 1), unlines_append, unlines_append]
    have h1 : (if ri > 0 then "--\n".toList else []) =
        unlines (if ri > 0 then ["--".toList] else []) := by
      by_cases h : ri > 0
      · simp only [h, if_true]; rfl
      · simp only [h, if_false]; rfl
    have h2 : ((loopIndices r).map (rowText lines ms)).flatten =
        unlines ((loopIndices r).map (fun i => marker ms i ++ lines.getD i.toNat [])) := by
      unfold unlines
      rw [List.map_map]
      rfl
    rw [h1, h2]

theorem Split_noNewline (r : GoString) (h : '\n' ∉ r) : Split r = [r] := by
  induction r with
  | nil => rfl
  | cons c cs ih =>
    have hc : ¬ c = '\n' := fun e => h (by rw [e]; exact List.mem_cons_self _ _)
    have hcs : '\n' ∉ cs := fun e => h (List.mem_cons_of_mem _ e)
    rw [Split, if_neg hc, ih hcs]

theorem Split_append_newline (r X : GoString) (h : '\n' ∉ r) :
    Split (r ++ '\n' :: X) = r :: Split X := by
  induction r with
  | nil =>
    show Split ('\n' :: X) = [] :: Split X
    rw [Split, if_pos rfl]
  | cons c cs ih =>
    have hc : ¬ c = '\n' := fun e => h (by rw [e]; exact List.mem_cons_self _ _)
    have hcs : '\n' ∉ cs := fun e => h (List.mem_cons_of_mem _ e)
    show Split (c :: (cs ++ '\n' :: X)) = (c :: cs) :: Split X
    rw [Split, if_neg hc, ih hcs]

theorem Split_unlines_append (init : List GoString) (last : GoString)
    (hinit : ∀ r ∈ init, '\n' ∉ r) (hlast : '\n' ∉ last) :
    Split (unlines init ++ last) = init ++ [last] := by
  induction init with
  | nil => simpa [unlines] using Split_noNewline last hlast
  | cons r rest ih =>
    have e : unlines (r :: rest) ++ last = r ++ '\n' :: (unlines rest ++ last) := by
      simp [unlines]
    rw [e, Split_append_newline r _ (hinit r (List.mem_cons_self _ _)),
      ih (fun x hx => hinit x (List.mem_cons_of_mem _ hx))]
    rfl

theorem TrimRightNewline_unlines (init : List GoString) (last : GoString)
    (hne : last ≠ []) (hlast : '\n' ∉ last) :
    TrimRightNewline (unlines (init ++ [last])) = unlines init ++ last := by
  rcases List.eq_nil_or_concat last with e | ⟨w, x, e⟩
  · exact absurd e hne
  · have hx : ¬ x = '\n' := by
      intro hx
      apply hlast
      rw [e, hx]
      simp
    have e2 : unlines (init ++ [last]) = unlines init ++ w ++ [x] ++ ['\n'] := by
      rw [unlines_append, e]
      simp [unlines]
    rw [e2]
    unfold TrimRightNewline
    simp [List.reverse_append, List.dropWhile, hx, e]

/-- Lines without newlines come back from the text written for them: splitting the trimmed
text gives the rows again, provided the last row is not empty. -/
theorem Split_TrimRightNewline_unlines (rows : List GoString) (hrows : rows ≠ [])
    (hnl : ∀ r ∈ rows, '\n' ∉ r) (hne : ∀ r ∈ rows, r ≠ []) :
    Split (TrimRightNewline (unlines rows)) = rows := by
  rcases List.eq_nil_or_concat rows with e | ⟨init, last, e⟩
  · exact absurd e hrows
  · have e' : rows = init ++ [last] := by simpa using e
    subst e'
    rw [TrimRightNewline_unlines init last (hne last (by simp)) (hnl last (by simp)),
      Split_unlines_append init last (fun r hr => hnl r (by simp [hr])) (hnl last (by simp))]

theorem getD_noNewline (lines : List GoString) (hnl : ∀ l ∈ lines, '\n' ∉ l) (n : Nat) :
    '\n' ∉ lines.getD n [] := by
  rw [List.getD_eq_getElem?_getD]
  cases h : lines[n]? with
  | none => simp
  | some l => simpa using hnl l (List.getElem?_mem h)

theorem marker_row_facts (ms : List Int) (i : Int) (line : GoString) (h : '\n' ∉ line) :
    marker ms i ++ line ≠ "--".toList ∧ marker ms i ++ line ≠ [] ∧
      '\n' ∉ marker ms i ++ line := by
  unfold marker
  by_cases hi : i ∈ ms
  · rw [if_pos hi]
    refine ⟨(by intro e; cases e), (by intro e; cases e), ?_⟩
    intro hm
    rcases List.mem_append.mp hm with hm | hm
    · revert hm; decide
    · exact h hm
  · rw [if_neg hi]
    refine ⟨(by intro e; cases e), (by intro e; cases e), ?_⟩
    intro hm
    rcases List.mem_append.mp hm with hm | hm
    · revert hm; decide
    · exact h hm

theorem mem_outputRows (lines : List GoString) (ms : List Int) :
    ∀ (merged : List lineRange) (ri : Nat) (row : GoString),
      row ∈ outputRows lines ms ri merged →
      row = "--".toList ∨ ∃ i : Int, row = marker ms i ++ lines.getD i.toNat [] := by
  intro merged
  induction merged with
  | nil => intro ri row h; simp [outputRows] at h
  | cons r rest ih =>
    intro ri row h
    unfold outputRows at h
    rcases List.mem_append.mp h with h | h
    · rcases List.mem_append.mp h with h | h
      · by_cases hri : ri > 0
        · simp only [hri, if_true, List.mem_singleton] at h
          exact Or.inl h
        · simp [hri] at h
      · obtain ⟨i, _, rfl⟩ := List.mem_map.mp h
        exact Or.inr ⟨i, rfl⟩
    · exact ih (ri + 1) row h

/-- The rows equal to `--` are the separators: one per group from group number `ri` on,
except before the very first group. -/
theorem count_separator_rows (lines : List GoString) (ms : List Int)
    (hnl : ∀ l ∈ lines, '\n' ∉ l) :
    ∀ (merged : List lineRange) (ri : Nat),
      (outputRows lines ms ri merged).count "--".toList =
        if ri > 0 then merged.length else merged.length - 1 := by
  intro merged
  induction merged with
  | nil => intro ri; simp [outputRows]
  | cons r rest ih =>
    intro ri
    unfold outputRows
    rw [List.count_append, List.count_append, ih (ri + 1)]
    have hmid : ((loopIndices r).map
        (fun i => marker ms i ++ lines.getD i.toNat [])).count "--".toList = 0 := by
      rw [List.count_eq_zero]
      intro hm
      obtain ⟨i, _, e⟩ := List.mem_map.mp hm
      exact (marker_row_facts ms i _ (getD_noNewline lines hnl i.toNat)).1 e
    rw [hmid]
    by_cases hri : ri > 0
    · simp [hri]; omega
    · simp [hri]

/-- Separators when no `i + radius` overflows: for ascending valid matches, a radius `>= 0`
and lines without newlines, the text splits into the rows written, the number of merged
groups is one more than the number of consecutive matches `i`, `j` with
`j - i > 2 * radius + 1`, and the lines of the text equal to `--` are as many as these
places, that is the number of groups minus one. -/
theorem separators_without_overflow (lines : List GoString) (ms : List Int) (radius : Int)
    (hlen : lines.length < 9223372036854775808) (hne : ms ≠ [])
    (hvalid : validIndices lines ms) (hr : 0 ≤ radius)
    (hsorted : List.Sorted (fun a b => a ≤ b) ms)
    (hfit : ∀ i ∈ ms, i + radius < 9223372036854775808)
    (hnl : ∀ l ∈ lines, '\n' ∉ l) :
    ∃ merged text, mergeRanges (buildRanges lines ms radius) = some merged ∧
      formatWithContext lines ms radius = some text ∧
      Split text = outputRows lines ms 0 merged ∧
      merged.length = 1 + separatorCount radius ms ∧
      (Split text).count "--".toList = merged.length - 1 ∧
      (Split text).count "--".toList = separatorCount radius ms := by
  obtain ⟨merged, hm, htext⟩ := formatWithContext_total lines ms radius hlen hne
  have hspec := merged_spec lines ms radius merged hlen hvalid hr hfit hm
  have hlenm := merged_length lines ms radius merged hlen hvalid hr hfit hsorted hm
  have hrows : outputRows lines ms 0 merged ≠ [] := by
    cases merged with
    | nil =>
      exfalso
      simp only [List.length_nil] at hlenm
      omega
    | cons r rest =>
      have hp := hspec.1 r (List.mem_cons_self _ _)
      unfold properRange at hp
      have hmem : r.start ∈ loopIndices r := (mem_loopIndices r r.start).mpr ⟨le_refl _, hp.2.1⟩
      refine List.ne_nil_of_mem (a := marker ms r.start ++ lines.getD r.start.toNat []) ?_
      unfold outputRows
      exact List.mem_append_left _ (List.mem_append_right _ (List.mem_map_of_mem _ hmem))
  have hfacts : ∀ row ∈ outputRows lines ms 0 merged, '\n' ∉ row ∧ row ≠ [] := by
    intro row hrow
    rcases mem_outputRows lines ms merged 0 row hrow with e | ⟨i, e⟩
    · subst e
      exact ⟨by decide, by decide⟩
    · subst e
      have := marker_row_facts ms i _ (getD_noNewline lines hnl i.toNat)
      exact ⟨this.2.2, this.2.1⟩
  have hsplit : Split (TrimRightNewline (groupsText lines ms 0 merged)) =
      outputRows lines ms 0 merged := by
    rw [groupsText_eq_unlines]
    exact Split_TrimRightNewline_unlines _ hrows (fun r hr2 => (hfacts r hr2).1)
      (fun r hr2 => (hfacts r hr2).2)
  have hcount := count_separator_rows lines ms hnl merged 0
  simp only [gt_iff_lt, lt_self_iff_false, if_false] at hcount
  refine ⟨merged, _, hm, htext, hsplit, hlenm, ?_, ?_⟩
  · rw [hsplit, hcount]
  · rw [hsplit, hcount, hlenm]
    omega

/-- C13 fails on the code at radius `2^63 - 1`: for the ascending matches 1 and 3 in ten
lines, `3 - 1` is not more than `2 * radius + 1`, yet both window ends wrap around, the two
ranges are empty and not merged, and the text is the single separator line `--`. The two
examples of the claim hold: one separator for matches 2 and 7 with radius 1, none for
matches 1 and 3 with radius 2. -/
theorem C13_overflow_extra_separator :
    validIndices scenarioLines [1, 3] ∧ List.Sorted (fun a b => a ≤ b) [(1 : Int), 3] ∧
    0 ≤ maxInt ∧ ¬ ((3 : Int) - 1 > 2 * maxInt + 1) ∧
    mergeRanges (buildRanges scenarioLines [1, 3] maxInt) =
      some [⟨0, -9223372036854775808⟩, ⟨0, -9223372036854775806⟩] ∧
    formatWithContext scenarioLines [1, 3] maxInt = some "--".toList ∧
    (formatWithContext scenarioLines [2, 7] 1).map (fun t => (Split t).count "--".toList) =
      some 1 ∧
    (formatWithContext scenarioLines [1, 3] 2).map (fun t => (Split t).count "--".toList) =
      some 0 := by
  refine ⟨by unfold validIndices; decide, by decide, by decide, by decide, by decide,
    by decide, by decide, by decide⟩

/-! ## The container listing: the grouping loop -/

theorem GroupMap.get_append (g : GroupMap) (k k' : GoString) (c : containerInfo) :
    (GroupMap.append g k c).get k' = if k = k' then g.get k' ++ [c] else g.get k' := by
  induction g with
  | nil =>
    by_cases h : k = k'
    · simp [GroupMap.append, GroupMap.get, h]
    · simp [GroupMap.append, GroupMap.get, h]
  | cons kv rest ih =>
    obtain ⟨k0, v⟩ := kv
    by_cases h0 : k0 = k
    · subst h0
      by_cases h : k0 = k'
      · simp [GroupMap.append, GroupMap.get, h]
      · simp [GroupMap.append, GroupMap.get, h]
    · by_cases h : k = k'
      · subst h
        simp [GroupMap.append, GroupMap.get, h0, ih]
      · by_cases h1 : k0 = k'
        · subst h1
          simp [GroupMap.append, GroupMap.get, h0, h]
        · simp [GroupMap.append, GroupMap.get, h0, h, h1, ih]

theorem GroupMap.keys_append (g : GroupMap) (k : GoString) (c : containerInfo) :
    (GroupMap.append g k c).keys = if k ∈ g.keys then g.keys else g.keys ++ [k] := by
  induction g with
  | nil => simp [GroupMap.append, GroupMap.keys]
  | cons kv rest ih =>
    obtain ⟨k0, v⟩ := kv
    by_cases h0 : k0 = k
    · subst h0
      simp [GroupMap.append, GroupMap.keys]
    · have h0' : ¬ k = k0 := fun e => h0 e.symm
      unfold GroupMap.keys at ih
      by_cases hk : k ∈ rest.map Prod.fst
      · rw [if_pos hk] at ih
        simp [GroupMap.append, GroupMap.keys, h0, h0', ih, hk]
      · rw [if_neg hk] at ih
        simp [GroupMap.append, GroupMap.keys, h0, h0', ih, hk]

theorem GroupMap.mem_keys_append (g : GroupMap) (k k' : GoString) (c : containerInfo) :
    k' ∈ (GroupMap.append g k c).keys ↔ k' ∈ g.keys ∨ k' = k := by
  rw [GroupMap.keys_append]
  by_cases hk : k ∈ g.keys
  · rw [if_pos hk]
    constructor
    · intro h; exact Or.inl h
    · rintro (h | h)
      · exact h
      · rw [h]; exact hk
  · rw [if_neg hk]
    simp

theorem GroupMap.nodup_keys_append (g : GroupMap) (k : GoString) (c : containerInfo)
    (h : g.keys.Nodup) : (GroupMap.append g k c).keys.Nodup := by
  rw [GroupMap.keys_append]
  by_cases hk : k ∈ g.keys
  · rw [if_pos hk]; exact h
  · rw [if_neg hk]
    exact List.Nodup.append h (List.nodup_singleton k) (by simpa using hk)

/-- Whether a container passes the project filter, as the grouping loop tests it. -/
theorem groupStep_eq (Project : GoString) (g : GroupMap) (c : containerInfo) :
    groupStep Project g c =
      if Project = [] ∨ c.composeProject = Project then GroupMap.append g (groupName c) c
      else g := by
  unfold groupStep groupName standalone
  by_cases h : Project = [] ∨ c.composeProject = Project
  · rw [if_pos h, if_neg (by tauto)]
  · rw [if_neg h, if_pos (by tauto)]

/-- The slice stored under a key after the grouping loop: the kept containers of that
group, in input order. -/
theorem get_foldl_groupStep (Project : GoString) (cs : List containerInfo) :
    ∀ (g : GroupMap) (k : GoString),
      (cs.foldl (groupStep Project) g).get k =
        g.get k ++ (keptContainers Project cs).filter (fun c => groupName c = k) := by
  induction cs with
  | nil => intro g k; simp [keptContainers]
  | cons c cs ih =>
    intro g k
    rw [List.foldl_cons, ih, groupStep_eq]
    unfold keptContainers at ih ⊢
    by_cases h : Project = [] ∨ c.composeProject = Project
    · rw [if_pos h, GroupMap.get_append]
      by_cases hk : groupName c = k
      · simp [List.filter_cons, h, hk]
      · simp [List.filter_cons, h, hk]
    · rw [if_neg h]
      simp [List.filter_cons, h]

/-- The keys after the grouping loop: the group names of the kept containers. -/
theorem mem_keys_foldl_groupStep (Project : GoString) (cs : List containerInfo) :
    ∀ (g : GroupMap) (k : GoString),
      k ∈ (cs.foldl (groupStep Project) g).keys ↔
        k ∈ g.keys ∨ ∃ c ∈ keptContainers Project cs, groupName c = k := by
  induction cs with
  | nil => intro g k; simp [keptContainers]
  | cons c cs ih =>
    intro g k
    rw [List.foldl_cons, ih, groupStep_eq]
    unfold keptContainers
    by_cases h : Project = [] ∨ c.composeProject = Project
    · rw [if_pos h, GroupMap.mem_keys_append]
      have hf : List.filter (fun c => decide (Project = [] ∨ c.composeProject = Project))
          (c :: cs) = c :: List.filter
            (fun c => decide (Project = [] ∨ c.composeProject = Project)) cs := by
        simp [List.filter_cons, h]
      rw [hf]
      constructor
      · rintro ((h1 | h1) | ⟨c', hc', h1⟩)
        · exact Or.inl h1
        · exact Or.inr ⟨c, List.mem_cons_self _ _, h1.symm⟩
        · exact Or.inr ⟨c', List.mem_cons_of_mem _ hc', h1⟩
      · rintro (h1 | ⟨c', hc', h1⟩)
        · exact Or.inl (Or.inl h1)
        · rcases List.mem_cons.mp hc' with e | hc''
          · subst e; exact Or.inl (Or.inr h1.symm)
          · exact Or.inr ⟨c', hc'', h1⟩
    · rw [if_neg h]
      have hf : List.filter (fun c => decide (Project = [] ∨ c.composeProject = Project))
          (c :: cs) = List.filter
            (fun c => decide (Project = [] ∨ c.composeProject = Project)) cs := by
        simp [List.filter_cons, h]
      rw [hf]

theorem nodup_keys_foldl_groupStep (Project : GoString) (cs : List containerInfo) :
    ∀ g : GroupMap, g.keys.Nodup → (cs.foldl (groupStep Project) g).keys.Nodup := by
  induction cs with
  | nil => intro g h; exact h
  | cons c cs ih =>
    intro g h
    rw [List.foldl_cons]
    apply ih
    rw [groupStep_eq]
    by_cases hk : Project = [] ∨ c.composeProject = Project
    · rw [if_pos hk]; exact GroupMap.nodup_keys_append g _ c h
    · rw [if_neg hk]; exact h

theorem get_groupContainers (Project : GoString) (cs : List containerInfo) (k : GoString) :
    (groupContainers Project cs).get k =
      (keptContainers Project cs).filter (fun c => groupName c = k) := by
  unfold groupContainers
  rw [get_foldl_groupStep]
  simp [GroupMap.get]

theorem mem_keys_groupContainers (Project : GoString) (cs : List containerInfo)
    (k : GoString) :
    k ∈ (groupContainers Project cs).keys ↔
      ∃ c ∈ keptContainers Project cs, groupName c = k := by
  unfold groupContainers
  rw [mem_keys_foldl_groupStep]
  simp [GroupMap.keys]

theorem nodup_keys_groupContainers (Project : GoString) (cs : List containerInfo) :
    (groupContainers Project cs).keys.Nodup :=
  nodup_keys_foldl_groupStep Project cs [] (by simp [GroupMap.keys])

/-- The map is empty exactly when no container passes the filter. -/
theorem groupContainers_length (Project : GoString) (cs : List containerInfo) :
    (groupContainers Project cs).length = 0 ↔ keptContainers Project cs = [] := by
  constructor
  · intro h
    have hk : (groupContainers Project cs).keys = [] := by
      unfold GroupMap.keys
      rw [List.length_eq_zero.mp h]
      rfl
    rw [List.eq_nil_iff_forall_not_mem]
    intro c hc
    have := (mem_keys_groupContainers Project cs (groupName c)).mpr ⟨c, hc, rfl⟩
    rw [hk] at this
    exact List.not_mem_nil _ this
  · intro h
    rw [List.length_eq_zero, List.eq_nil_iff_forall_not_mem]
    rintro ⟨k, v⟩ hkv
    have hk : k ∈ (groupContainers Project cs).keys := by
      unfold GroupMap.keys
      exact List.mem_map.mpr ⟨(k, v), hkv, rfl⟩
    obtain ⟨c, hc, _⟩ := (mem_keys_groupContainers Project cs k).mp hk
    rw [h] at hc
    exact List.not_mem_nil _ hc

/-! ## The container listing: the order of the groups -/

/-- The comparison given to `sort.Slice` is the strict order of the group names. -/
theorem groupLess_iff (a b : GoString) : groupLess a b = true ↔ groupBefore a b := by
  unfold groupLess groupBefore standalone
  by_cases ha : a = "(standalone)".toList
  · simp [ha]
  · by_cases hb : b = "(standalone)".toList
    · simp [ha, hb]
    · simp [ha, hb]

theorem groupLess_false_iff (a b : GoString) :
    groupLess b a = false ↔ (b = standalone ∨ (a ≠ standalone ∧ a ≤ b)) := by
  rw [← Bool.not_eq_true, groupLess_iff]
  unfold groupBefore
  constructor
  · intro h
    by_cases hb : b = standalone
    · exact Or.inl hb
    · right
      have h2 : ¬ (a = standalone ∨ b < a) := fun h3 => h ⟨hb, h3⟩
      exact ⟨fun e => h2 (Or.inl e), le_of_not_lt (fun e => h2 (Or.inr e))⟩
  · rintro (hb | ⟨ha, hab⟩) ⟨h1, h2⟩
    · exact h1 hb
    · rcases h2 with h2 | h2
      · exact ha h2
      · exact absurd h2 (not_lt_of_le hab)

theorem groupLE_total : IsTotal GoString (fun a b => groupLess b a = false) := by
  constructor
  intro a b
  simp only [groupLess_false_iff]
  by_cases ha : a = standalone
  · exact Or.inr (Or.inl ha)
  · by_cases hb : b = standalone
    · exact Or.inl (Or.inl hb)
    · rcases le_total a b with h | h
      · exact Or.inl (Or.inr ⟨ha, h⟩)
      · exact Or.inr (Or.inr ⟨hb, h⟩)

theorem groupLE_trans : IsTrans GoString (fun a b => groupLess b a = false) := by
  constructor
  intro a b c
  simp only [groupLess_false_iff]
  rintro (hb | ⟨ha, hab⟩) (hc | ⟨hb', hbc⟩)
  · exact Or.inl hc
  · exact absurd hb hb'
  · exact Or.inl hc
  · exact Or.inr ⟨ha, le_trans hab hbc⟩

theorem groupLE_antisymm : IsAntisymm GoString (fun a b => groupLess b a = false) := by
  constructor
  intro a b
  simp only [groupLess_false_iff]
  rintro (hb | ⟨ha, hab⟩) (ha' | ⟨hb', hba⟩)
  · rw [hb, ha']
  · exact absurd hb hb'
  · exact absurd ha' ha
  · exact le_antisymm hab hba

theorem sortGroupNames_perm (xs : List GoString) : List.Perm (sortGroupNames xs) xs :=
  List.perm_insertionSort _ xs

theorem sortGroupNames_sorted (xs : List GoString) :
    List.Sorted (fun a b => groupLess b a = false) (sortGroupNames xs) :=
  @List.sorted_insertionSort _ _ _ groupLE_total groupLE_trans xs

/-- A rearrangement of the names in which no name is less than a name before it is the
result of the sort, whatever the order in which the names arrive. -/
theorem sortGroupNames_unique (xs ys : List GoString) (hp : List.Perm ys xs)
    (hs : List.Sorted (fun a b => groupLess b a = false) ys) : sortGroupNames xs = ys :=
  @List.eq_of_perm_of_sorted _ _ groupLE_antisymm _ _
    ((sortGroupNames_perm xs).trans hp.symm) (sortGroupNames_sorted xs) hs

/-- The sorted names do not depend on the order in which the map is iterated. -/
theorem sortGroupNames_congr (xs ys : List GoString) (h : List.Perm xs ys) :
    sortGroupNames xs = sortGroupNames ys :=
  sortGroupNames_unique xs (sortGroupNames ys) ((sortGroupNames_perm ys).trans h.symm)
    (sortGroupNames_sorted ys)

/-- Distinct names come out of the sort in the strict order of the group names. -/
theorem sortGroupNames_strict (xs : List GoString) (h : xs.Nodup) :
    (sortGroupNames xs).Pairwise groupBefore := by
  have hs := sortGroupNames_sorted xs
  have hn : (sortGroupNames xs).Nodup := (sortGroupNames_perm xs).nodup_iff.mpr h
  unfold List.Sorted at hs
  unfold List.Nodup at hn
  refine (hs.and hn).imp ?_
  rintro a b ⟨h1, h2⟩
  rcases (groupLess_false_iff a b).mp h1 with hb | ⟨ha, hab⟩
  · exact ⟨fun e => h2 (e.trans hb.symm), Or.inl hb⟩
  · exact ⟨ha, Or.inr (lt_of_le_of_ne hab h2)⟩

/-! ## The container listing: the text written for the groups -/

theorem JoinSep_cons (sep a : GoString) (rest : List GoString) :
    JoinSep sep (a :: rest) = a ++ (rest.map (fun b => sep ++ b)).flatten := by
  induction rest generalizing a with
  | nil => simp [JoinSep]
  | cons b rest ih =>
    rw [JoinSep, ih]
    simp
    intro _; trivial

theorem writeContainerGroups_succ (groups : GroupMap) (names : List GoString) :
    ∀ gi : Nat, writeContainerGroups groups (gi + 1) names =
      (names.map (fun n => "\n".toList ++ groupBlock n (groups.get n))).flatten := by
  induction names with
  | nil => intro gi; simp [writeContainerGroups]
  | cons n rest ih =>
    intro gi
    rw [writeContainerGroups, ih, if_pos (Nat.succ_pos gi)]
    simp

/-- The output loop writes the blocks of the groups, separated by an empty line. -/
theorem writeContainerGroups_eq (groups : GroupMap) (names : List GoString) :
    writeContainerGroups groups 0 names =
      renderGroups (names.map (fun n => (n, groups.get n))) := by
  unfold renderGroups
  cases names with
  | nil => simp [writeContainerGroups, JoinSep]
  | cons n rest =>
    rw [writeContainerGroups, writeContainerGroups_succ, List.map_cons, List.map_cons,
      JoinSep_cons]
    simp [List.map_map, Function.comp_def]

/-! ## The container listing: the function and the listing of the specification -/

theorem listContainersText_of_kept (Quote : GoString → GoString) (Project : GoString)
    (cs : List containerInfo) (h : keptContainers Project cs ≠ []) :
    listContainersText Quote Project cs =
      renderGroups ((sortGroupNames (groupContainers Project cs).keys).map (fun n =>
        (n, (keptContainers Project cs).filter (fun c => groupName c = n)))) := by
  have hl : ¬ (groupContainers Project cs).length = 0 :=
    fun e => h ((groupContainers_length Project cs).mp e)
  unfold listContainersText
  simp only [hl, if_false]
  rw [writeContainerGroups_eq]
  congr 1
  apply List.map_congr_left
  intro n _
  rw [get_groupContainers]

theorem listContainersText_of_none (Quote : GoString → GoString) (Project : GoString)
    (cs : List containerInfo) (h : keptContainers Project cs = []) :
    listContainersText Quote Project cs =
      if Project ≠ [] then
        "No containers found for project ".toList ++ Quote Project ++ ".".toList
      else "No containers found.".toList := by
  have hl : (groupContainers Project cs).length = 0 :=
    (groupContainers_length Project cs).mpr h
  unfold listContainersText
  simp only [hl, if_true]

/-- The function on a successful command with parsable output. -/
theorem handleListContainers_ok {σ : Type}
    (Unmarshal : GoString → Except GoString containerInfo) (Quote : GoString → GoString)
    (exec : Executor σ) (s s1 : σ) (args : listContainersArgs) (output : GoString)
    (cs : List containerInfo)
    (hexec : exec.Exec s (listContainersCommand args) = (.ok output, s1))
    (hne : TrimSpace output ≠ [])
    (hparse : parseContainers Unmarshal (Split (TrimSpace output)) = .ok cs) :
    handleListContainers Unmarshal Quote exec s args =
      (.ok (listContainersText Quote args.Project cs), s1) := by
  unfold handleListContainers
  rw [hexec]
  simp only [hne, if_false, hparse]

theorem mem_projectNames (Project : GoString) (cs : List containerInfo) (p : GoString) :
    p ∈ projectNames Project cs ↔
      p ≠ [] ∧ ∃ c ∈ keptContainers Project cs, c.composeProject = p := by
  unfold projectNames
  rw [mem_sortStrings, List.mem_dedup, List.mem_filter, List.mem_map]
  constructor
  · rintro ⟨h1, h2⟩
    exact ⟨by simpa using h2, h1⟩
  · rintro ⟨h1, h2⟩
    exact ⟨h2, by simpa using h1⟩

theorem projectNames_nodup (Project : GoString) (cs : List containerInfo) :
    (projectNames Project cs).Nodup :=
  nodup_sortStrings _ (List.nodup_dedup _)

theorem standaloneContainers_ne_nil (Project : GoString) (cs : List containerInfo) :
    standaloneContainers Project cs ≠ [] ↔
      ∃ c ∈ keptContainers Project cs, c.composeProject = [] := by
  unfold standaloneContainers
  rw [Ne, List.filter_eq_nil_iff]
  constructor
  · intro h
    by_contra h2
    apply h
    intro c hc hp
    exact h2 ⟨c, hc, by simpa using hp⟩
  · rintro ⟨c, hc, hp⟩ h
    exact h c hc (by simpa using hp)

/-- The group names of the specification: the project names, then `(standalone)` when
some kept container has no project. -/
theorem specGroups_names (Project : GoString) (cs : List containerInfo) :
    (specGroups Project cs).map Prod.fst =
      projectNames Project cs ++
        (if standaloneContainers Project cs = [] then [] else [standalone]) := by
  unfold specGroups
  rw [List.map_append, List.map_map]
  congr 1
  · simp [Function.comp_def]
  · by_cases h : standaloneContainers Project cs = []
    · simp [h]
    · simp [h]

/-- When no project is named like the group of the unlabelled containers, the names the
sort produces are those of the specification. -/
theorem sortGroupNames_eq_spec (Project : GoString) (cs : List containerInfo)
    (hno : ∀ c ∈ keptContainers Project cs, c.composeProject ≠ standalone) :
    sortGroupNames (groupContainers Project cs).keys =
      projectNames Project cs ++
        (if standaloneContainers Project cs = [] then [] else [standalone]) := by
  have hns : ∀ p ∈ projectNames Project cs, p ≠ standalone := by
    intro p hp e
    obtain ⟨_, c, hc, hcp⟩ := (mem_projectNames Project cs p).mp hp
    exact hno c hc (hcp.trans e)
  apply sortGroupNames_unique
  · apply (List.perm_ext_iff_of_nodup ?_ (nodup_keys_groupContainers Project cs)).mpr
    · intro n
      rw [mem_keys_groupContainers, List.mem_append, mem_projectNames]
      constructor
      · rintro (⟨hn, c, hc, hcp⟩ | hn)
        · exact ⟨c, hc, by unfold groupName; rw [if_neg (by rw [hcp]; exact hn), hcp]⟩
        · by_cases hs : standaloneContainers Project cs = []
          · simp [hs] at hn
          · rw [if_neg hs, List.mem_singleton] at hn
            obtain ⟨c, hc, hcp⟩ := (standaloneContainers_ne_nil Project cs).mp hs
            exact ⟨c, hc, by unfold groupName; rw [if_pos hcp, hn]⟩
      · rintro ⟨c, hc, hg⟩
        unfold groupName at hg
        by_cases hcp : c.composeProject = []
        · rw [if_pos hcp] at hg
          right
          have hs : standaloneContainers Project cs ≠ [] :=
            (standaloneContainers_ne_nil Project cs).mpr ⟨c, hc, hcp⟩
          rw [if_neg hs, List.mem_singleton]
          exact hg.symm
        · rw [if_neg hcp] at hg
          left
          exact ⟨by rw [← hg]; exact hcp, c, hc, hg⟩
    · apply List.Nodup.append (projectNames_nodup Project cs)
      · by_cases hs : standaloneContainers Project cs = []
        · simp [hs]
        · simp [hs]
      · intro n h1 h2
        by_cases hs : standaloneContainers Project cs = []
        · simp [hs] at h2
        · rw [if_neg hs, List.mem_singleton] at h2
          exact hns n h1 h2
  · unfold List.Sorted
    rw [List.pairwise_append]
    refine ⟨?_, ?_, ?_⟩
    · have hs := sortStrings_sorted ((((keptContainers Project cs).map
        containerInfo.composeProject).filter (fun p => p ≠ [])).dedup)
      unfold List.Sorted at hs
      have hs2 : (projectNames Project cs).Pairwise (fun a b => a ≤ b) := hs
      refine (List.Pairwise.and_mem.mp hs2).imp ?_
      rintro a b ⟨ha, _, hab⟩
      exact (groupLess_false_iff a b).mpr (Or.inr ⟨hns a ha, hab⟩)
    · by_cases hs : standaloneContainers Project cs = []
      · simp [hs]
      · simp [hs]
    · intro a _ b hb
      by_cases hs : standaloneContainers Project cs = []
      · simp [hs] at hb
      · rw [if_neg hs, List.mem_singleton] at hb
        exact (groupLess_false_iff a b).mpr (Or.inl hb)

/-- When no project is named like the group of the unlabelled containers, the groups the
function writes are those of the specification. -/
theorem groups_eq_spec (Project : GoString) (cs : List containerInfo)
    (hno : ∀ c ∈ keptContainers Project cs, c.composeProject ≠ standalone) :
    (sortGroupNames (groupContainers Project cs).keys).map (fun n =>
        (n, (keptContainers Project cs).filter (fun c => groupName c = n))) =
      specGroups Project cs := by
  rw [sortGroupNames_eq_spec Project cs hno]
  unfold specGroups
  rw [List.map_append]
  congr 1
  · apply List.map_congr_left
    intro p hp
    obtain ⟨hpne, _⟩ := (mem_projectNames Project cs p).mp hp
    congr 1
    apply List.filter_congr
    intro c _
    unfold groupName
    by_cases hcp : c.composeProject = []
    · rw [if_pos hcp]
      have h1 : ¬ c.composeProject = p := by rw [hcp]; exact fun e => hpne e.symm
      have h2 : ¬ standalone = p := by
        intro e
        obtain ⟨_, c', hc', hcp'⟩ := (mem_projectNames Project cs p).mp hp
        exact hno c' hc' (hcp'.trans e.symm)
      simp [h1, h2]
    · rw [if_neg hcp]
  · by_cases hs : standaloneContainers Project cs = []
    · simp [hs]
    · simp only [hs, if_false, List.map_cons, List.map_nil]
      congr 2
      unfold standaloneContainers
      apply List.filter_congr
      intro c hc
      unfold groupName
      by_cases hcp : c.composeProject = []
      · rw [if_pos hcp]; simp [hcp]
      · rw [if_neg hcp]
        have h1 : ¬ c.composeProject = standalone := hno c hc
        simp [hcp, h1]

/-! ## The container listing: claims C19 and C20 -/

/-- C19, counterexample. A container of a Compose project named `(standalone)` and one of
the project `a`, none without a project: the function writes the header of `a` first and
then the header `(standalone)`, whereas the ascending order of the project names puts
`(standalone)` before `a`. -/
theorem C19_counterexample :
    (handleListContainers testUnmarshal plainQuote mockExecutor sentinelMock ⟨true, []⟩).1 =
      .ok ("=== a ===\n  a-1             busybox                   running    Up\n\n" ++
        "=== (standalone) ===\n  odd-1           busybox                   running    Up\n"
        ).toList ∧
    renderGroups (specGroups [] [sentinelContainer, projectAContainer]) =
      ("=== (standalone) ===\n  odd-1           busybox                   running    Up\n\n" ++
        "=== a ===\n  a-1             busybox                   running    Up\n").toList ∧
    sentinelContainer.composeProject = "(standalone)".toList ∧
    projectAContainer.composeProject = "a".toList ∧
    "(standalone)".toList < "a".toList := by
  set_option maxRecDepth 100000 in
  refine ⟨rfl, by decide, by decide, by decide, by decide⟩

/-- C19, amended. Group ordering of list_containers: when the command succeeds and its
output parses into containers of which some pass the filter, `handleListContainers` writes
one block per group name, a group name being the Compose project of a container or
`(standalone)` for a container without one; each block holds the containers of that group in
input order; the names other than `(standalone)` are in strictly ascending order and
`(standalone)` is last. When no container has a project named `(standalone)`, this is the
listing of the specification: the project groups in ascending order of project name, then
the group of the containers without a project. -/
theorem C19_group_order {σ : Type} (Unmarshal : GoString → Except GoString containerInfo)
    (Quote : GoString → GoString) (exec : Executor σ) (s s1 : σ) (args : listContainersArgs)
    (output : GoString) (cs : List containerInfo)
    (hexec : exec.Exec s (listContainersCommand args) = (.ok output, s1))
    (hne : TrimSpace output ≠ [])
    (hparse : parseContainers Unmarshal (Split (TrimSpace output)) = .ok cs)
    (hkept : keptContainers args.Project cs ≠ []) :
    (∃ names : List GoString,
      handleListContainers Unmarshal Quote exec s args =
        (.ok (renderGroups (names.map (fun n =>
          (n, (keptContainers args.Project cs).filter (fun c => groupName c = n))))), s1) ∧
      (∀ n, n ∈ names ↔ ∃ c ∈ keptContainers args.Project cs, groupName c = n) ∧
      names.Pairwise groupBefore ∧
      ∀ iter : List GoString, List.Perm iter (groupContainers args.Project cs).keys →
        sortGroupNames iter = names) ∧
    ((∀ c ∈ keptContainers args.Project cs, c.composeProject ≠ standalone) →
      handleListContainers Unmarshal Quote exec s args =
        (.ok (renderGroups (specGroups args.Project cs)), s1) ∧
      List.Sorted (fun a b => a < b) (projectNames args.Project cs) ∧
      standalone ∉ projectNames args.Project cs) := by
  have hh := handleListContainers_ok Unmarshal Quote exec s s1 args output cs hexec hne hparse
  rw [listContainersText_of_kept Quote args.Project cs hkept] at hh
  refine ⟨⟨sortGroupNames (groupContainers args.Project cs).keys, hh, ?_, ?_, ?_⟩, ?_⟩
  · intro n
    rw [(sortGroupNames_perm _).mem_iff, mem_keys_groupContainers]
  · exact sortGroupNames_strict _ (nodup_keys_groupContainers args.Project cs)
  · intro iter hp
    exact sortGroupNames_congr _ _ hp
  · intro hno
    refine ⟨?_, ?_, ?_⟩
    · rw [hh, groups_eq_spec args.Project cs hno]
    · exact sortStrings_strict _ (List.nodup_dedup _)
    · intro hm
      obtain ⟨_, c, hc, hcp⟩ := (mem_projectNames args.Project cs standalone).mp hm
      exact hno c hc hcp

/-- C19 at the containers of `TestHandleListContainers_FilterByProject`, listed without a
filter: the groups `api`, `webapp` and `(standalone)`, in this order. -/
theorem C19_group_order_witness :
    handleListContainers testUnmarshal plainQuote mockExecutor filterByProjectMock
        ⟨true, []⟩ =
      (.ok (renderGroups [("api".toList, [apiContainer]), ("webapp".toList, [webappContainer]),
        ("(standalone)".toList, [redisContainer])]),
       (filterByProjectMock.exec (listContainersCommand ⟨true, []⟩)).2) := by
  set_option maxRecDepth 100000 in
  exact ((C19_group_order testUnmarshal plainQuote mockExecutor filterByProjectMock
    (filterByProjectMock.exec (listContainersCommand ⟨true, []⟩)).2 ⟨true, []⟩
    (webappLine ++ "\n".toList ++ apiLine ++ "\n".toList ++ redisLine)
    [webappContainer, apiContainer, redisContainer] rfl (by decide) rfl (by decide)).2
    (by decide)).1.trans (by
      have e : specGroups [] [webappContainer, apiContainer, redisContainer] =
          [("api".toList, [apiContainer]), ("webapp".toList, [webappContainer]),
            ("(standalone)".toList, [redisContainer])] := by decide
      rw [e])

/-- C20, counterexample. With the filter `(standalone)` and a container whose Compose
project has that name, the function writes a group under the header `(standalone)`: the
text it writes, without a filter, for the same container without its label. -/
theorem C20_counterexample :
    (handleListContainers testUnmarshal plainQuote mockExecutor sentinelMock
        ⟨true, "(standalone)".toList⟩).1 =
      .ok ("=== (standalone) ===\n" ++
        "  odd-1           busybox                   running    Up\n").toList ∧
    listContainersText plainQuote [] [unlabelledContainer] =
      ("=== (standalone) ===\n" ++
        "  odd-1           busybox                   running    Up\n").toList ∧
    unlabelledContainer.composeProject = [] := by
  set_option maxRecDepth 100000 in
  refine ⟨rfl, by decide, by decide⟩

/-- C20, amended. Project filter of list_containers: for a non-empty Project, when the
command succeeds and its output parses, `handleListContainers` returns the message
`No containers found for project`, the quoted Project and a full stop when no container has
Project as its Compose project; otherwise it returns one block, under the header of
Project, holding exactly the containers whose Compose project is Project, in input order.
No listed container is without a project, and the header is `(standalone)` only when
Project is. -/
theorem C20_project_filter {σ : Type} (Unmarshal : GoString → Except GoString containerInfo)
    (Quote : GoString → GoString) (exec : Executor σ) (s s1 : σ) (args : listContainersArgs)
    (output : GoString) (cs : List containerInfo)
    (hproj : args.Project ≠ [])
    (hexec : exec.Exec s (listContainersCommand args) = (.ok output, s1))
    (hne : TrimSpace output ≠ [])
    (hparse : parseContainers Unmarshal (Split (TrimSpace output)) = .ok cs) :
    (cs.filter (fun c => c.composeProject = args.Project) = [] →
      handleListContainers Unmarshal Quote exec s args =
        (.ok ("No containers found for project ".toList ++ Quote args.Project ++
          ".".toList), s1)) ∧
    (cs.filter (fun c => c.composeProject = args.Project) ≠ [] →
      handleListContainers Unmarshal Quote exec s args =
        (.ok (groupBlock args.Project
          (cs.filter (fun c => c.composeProject = args.Project))), s1)) ∧
    (∀ c ∈ cs.filter (fun c => c.composeProject = args.Project), c.composeProject ≠ []) ∧
    (args.Project ≠ standalone →
      ∀ c ∈ cs.filter (fun c => c.composeProject = args.Project), groupName c ≠ standalone) := by
  have hh := handleListContainers_ok Unmarshal Quote exec s s1 args output cs hexec hne hparse
  have hk : keptContainers args.Project cs =
      cs.filter (fun c => c.composeProject = args.Project) := by
    unfold keptContainers
    apply List.filter_congr
    intro c _
    simp [hproj]
  have hmem : ∀ c ∈ cs.filter (fun c => c.composeProject = args.Project),
      c.composeProject = args.Project := by
    intro c hc
    simpa using (List.mem_filter.mp hc).2
  have hgn : ∀ c ∈ cs.filter (fun c => c.composeProject = args.Project),
      groupName c = args.Project := by
    intro c hc
    unfold groupName
    rw [if_neg (by rw [hmem c hc]; exact hproj), hmem c hc]
  refine ⟨?_, ?_, ?_, ?_⟩
  · intro hnone
    rw [hh, listContainersText_of_none Quote args.Project cs (hk.trans hnone), if_pos hproj]
  · intro hsome
    have hkept : keptContainers args.Project cs ≠ [] := by rw [hk]; exact hsome
    have hkeys : ∀ n, n ∈ (groupContainers args.Project cs).keys ↔ n = args.Project := by
      intro n
      rw [mem_keys_groupContainers, hk]
      constructor
      · rintro ⟨c, hc, hn⟩
        rw [← hn, hgn c hc]
      · intro hn
        obtain ⟨c, hc⟩ := List.exists_mem_of_ne_nil _ hsome
        exact ⟨c, hc, by rw [hgn c hc, hn]⟩
    have hnames : sortGroupNames (groupContainers args.Project cs).keys = [args.Project] := by
      apply sortGroupNames_unique
      · apply (List.perm_ext_iff_of_nodup (List.nodup_singleton _)
          (nodup_keys_groupContainers args.Project cs)).mpr
        intro n
        rw [hkeys, List.mem_singleton]
      · exact List.sorted_singleton _
    rw [hh, listContainersText_of_kept Quote args.Project cs hkept, hnames, hk]
    have hf : (cs.filter (fun c => c.composeProject = args.Project)).filter
        (fun c => groupName c = args.Project) =
        cs.filter (fun c => c.composeProject = args.Project) := by
      rw [List.filter_eq_self]
      intro c hc
      simpa using hgn c hc
    simp only [List.map_cons, List.map_nil, hf, renderGroups, JoinSep]
  · intro c hc
    rw [hmem c hc]
    exact hproj
  · intro hns c hc
    rw [hgn c hc]
    exact hns

/-- C20 at the input of `TestHandleListContainers_FilterByProject`: the one group
`webapp` with its one container. -/
theorem C20_project_filter_witness :
    handleListContainers testUnmarshal plainQuote mockExecutor filterByProjectMock
        ⟨true, "webapp".toList⟩ =
      (.ok ("=== webapp ===\n" ++
        "  webapp-web-1    nginx:latest              running    Up 2 hours\n").toList,
       (filterByProjectMock.exec (listContainersCommand ⟨true, "webapp".toList⟩)).2) := by
  set_option maxRecDepth 100000 in
  exact ((C20_project_filter testUnmarshal plainQuote mockExecutor filterByProjectMock
    (filterByProjectMock.exec (listContainersCommand ⟨true, "webapp".toList⟩)).2
    ⟨true, "webapp".toList⟩
    (webappLine ++ "\n".toList ++ apiLine ++ "\n".toList ++ redisLine)
    [webappContainer, apiContainer, redisContainer] (by decide) rfl (by decide) rfl).2.1
    (by decide)).trans (by
      have e : groupBlock "webapp".toList
          ([webappContainer, apiContainer, redisContainer].filter
            (fun c => c.composeProject = "webapp".toList)) =
          ("=== webapp ===\n" ++
            "  webapp-web-1    nginx:latest              running    Up 2 hours\n").toList := by
        decide
      rw [e])

/-! ## The container listing: claims C21 and C22 -/

/-- The executor is invoked once by `handleListContainers`, with the command line built
from the arguments. -/
theorem handleListContainers_calls {σ : Type}
    (Unmarshal : GoString → Except GoString containerInfo) (Quote : GoString → GoString)
    (exec : Executor σ) (s : σ) (calls : List (List GoString)) (args : listContainersArgs) :
    (handleListContainers Unmarshal Quote (recording exec) (s, calls) args).2.2 =
      calls ++ [listContainersCommand args] := by
  unfold handleListContainers
  have h : (recording exec).Exec (s, calls) (listContainersCommand args) =
      ((exec.Exec s (listContainersCommand args)).1,
        ((exec.Exec s (listContainersCommand args)).2,
          calls ++ [listContainersCommand args])) := rfl
  rw [h]
  cases h1 : (exec.Exec s (listContainersCommand args)).1 with
  | error err => rfl
  | ok output =>
    simp only []
    by_cases h2 : TrimSpace output = []
    · simp only [h2, if_true]
    · simp only [h2, if_false]
      cases parseContainers Unmarshal (Split (TrimSpace output)) with
      | error err => rfl
      | ok containers => rfl

/-- The argument `-a` is in the command line exactly when All is set. -/
theorem mem_listContainersCommand (args : listContainersArgs) :
    "-a".toList ∈ listContainersCommand args ↔ args.All = true := by
  unfold listContainersCommand
  cases h : args.All with
  | true => simp
  | false =>
    simp only [Bool.false_eq_true, if_false, iff_false]
    decide

/-- C21, counterexample. At the input of `TestHandleListContainers_NotAllFlag`, the zero
value of `listContainersArgs` and a mock that answers only the command without `-a`: the
tool issues the one command `ps --format` with the JSON format, in which `-a` does not
occur, and lists the running container. -/
theorem C21_counterexample :
    (listContainersTool (tableUnmarshal [(runningLine, runningContainer)]) plainQuote
        (recording mockExecutor) (notAllFlagMock, []) ⟨false, []⟩).2.2 =
      [["ps".toList, "--format".toList, "\x7b\x7bjson .\x7d\x7d".toList]] ∧
    "-a".toList ∉ ["ps".toList, "--format".toList, "\x7b\x7bjson .\x7d\x7d".toList] ∧
    (listContainersTool (tableUnmarshal [(runningLine, runningContainer)]) plainQuote
        mockExecutor notAllFlagMock ⟨false, []⟩).1 =
      (none, some ("=== (standalone) ===\n" ++
        "  running-container nginx                     running    Up 1 hour\n").toList) := by
  set_option maxRecDepth 100000 in
  exact ⟨rfl, by decide, rfl⟩

/-- C21, amended. The handler registered for `list_containers` passes the decoded arguments
on to `handleListContainers` unchanged and applies no default of its own: it issues the one
command built from the arguments, in which `-a` occurs exactly when All is true. For the
zero value of `listContainersArgs` (All unset, no Project) the command is `ps --format` with
the JSON format, without `-a`; with All set it is `ps -a --format` with the JSON format. -/
theorem C21_tool_passes_arguments_on {σ : Type}
    (Unmarshal : GoString → Except GoString containerInfo) (Quote : GoString → GoString)
    (exec : Executor σ) (s : σ) (args : listContainersArgs) :
    listContainersTool Unmarshal Quote exec s args =
      (toolReply (handleListContainers Unmarshal Quote exec s args).1,
        (handleListContainers Unmarshal Quote exec s args).2) ∧
    (listContainersTool Unmarshal Quote (recording exec) (s, []) args).2.2 =
      [listContainersCommand args] ∧
    ("-a".toList ∈ listContainersCommand args ↔ args.All = true) ∧
    (listContainersTool Unmarshal Quote (recording exec) (s, []) ⟨false, []⟩).2.2 =
      [["ps".toList, "--format".toList, "\x7b\x7bjson .\x7d\x7d".toList]] ∧
    (∀ project : GoString,
      (listContainersTool Unmarshal Quote (recording exec) (s, []) ⟨true, project⟩).2.2 =
        [["ps".toList, "-a".toList, "--format".toList, "\x7b\x7bjson .\x7d\x7d".toList]]) := by
  refine ⟨rfl, ?_, mem_listContainersCommand args, ?_, ?_⟩
  · unfold listContainersTool
    rw [handleListContainers_calls]
    rfl
  · unfold listContainersTool
    rw [handleListContainers_calls]
    rfl
  · intro project
    unfold listContainersTool
    rw [handleListContainers_calls]
    rfl

/-- C22. The `-a` flag of list_containers: `handleListContainers` invokes the executor
exactly once, with `ps -a --format` and the JSON format when All is true and with
`ps --format` and the JSON format when All is false; `-a` is an argument exactly when All
is true. -/
theorem C22_all_flag {σ : Type}
    (Unmarshal : GoString → Except GoString containerInfo) (Quote : GoString → GoString)
    (exec : Executor σ) (s : σ) (args : listContainersArgs) :
    (handleListContainers Unmarshal Quote (recording exec) (s, []) args).2.2 =
      [listContainersCommand args] ∧
    (args.All = true → listContainersCommand args =
      ["ps".toList, "-a".toList, "--format".toList, "\x7b\x7bjson .\x7d\x7d".toList]) ∧
    (args.All = false → listContainersCommand args =
      ["ps".toList, "--format".toList, "\x7b\x7bjson .\x7d\x7d".toList]) ∧
    ("-a".toList ∈ listContainersCommand args ↔ args.All = true) := by
  refine ⟨?_, ?_, ?_, ?_⟩
  · rw [handleListContainers_calls]
    rfl
  · intro h
    unfold listContainersCommand
    rw [h]
    rfl
  · intro h
    unfold listContainersCommand
    rw [h]
    rfl
  · unfold listContainersCommand
    cases h : args.All with
    | true => simp
    | false =>
      simp only [Bool.false_eq_true, if_false, iff_false]
      decide

/-- C22 at the input of `TestHandleListContainers_NotAllFlag`: one recorded call, without
`-a`. -/
theorem C22_all_flag_witness :
    (handleListContainers (tableUnmarshal [(runningLine, runningContainer)]) plainQuote
        (recording mockExecutor) (notAllFlagMock, []) ⟨false, []⟩).2.2 =
      [["ps".toList, "--format".toList, "\x7b\x7bjson .\x7d\x7d".toList]] :=
  (C22_all_flag (tableUnmarshal [(runningLine, runningContainer)]) plainQuote mockExecutor
    notAllFlagMock ⟨false, []⟩).1.trans rfl

/-! ## The duration formatter: claim C23 -/

/-- The decimal digits of a number denote that number. -/
theorem digitsValue_fmtInt (n : Nat) : digitsValue (fmtInt n) 0 = n := by
  have h := toDigitsCore_value (n + 1) n [] (by omega)
  unfold fmtInt Nat.toDigits
  rw [h]
  simp [digitsValue]

theorem Itoa_natCast (n : Nat) : Itoa (n : Int) = fmtInt n := by
  unfold Itoa
  have h : ¬ ((n : Int) < 0) := by omega
  rw [if_neg h, Int.toNat_ofNat]

/-- The function on a non-negative argument, in natural-number arithmetic. -/
theorem formatNanoseconds_natCast (n : Nat) :
    formatNanoseconds (n : Int) =
      if n / 1000000000 < 60 then fmtInt (n / 1000000000) ++ "s".toList
      else if n / 1000000000 % 60 = 0 then fmtInt (n / 1000000000 / 60) ++ "m".toList
      else fmtInt (n / 1000000000 / 60) ++ "m".toList ++ fmtInt (n / 1000000000 % 60) ++
        "s".toList := by
  unfold formatNanoseconds
  have h1 : (n : Int).tdiv 1000000000 = ((n / 1000000000 : Nat) : Int) :=
    (Int.ofNat_tdiv n 1000000000).symm
  simp only [h1]
  have h2 : ((n / 1000000000 : Nat) : Int).tdiv 60 = ((n / 1000000000 / 60 : Nat) : Int) :=
    (Int.ofNat_tdiv (n / 1000000000) 60).symm
  have h3 : ((n / 1000000000 : Nat) : Int).tmod 60 = ((n / 1000000000 % 60 : Nat) : Int) :=
    (Int.ofNat_tmod (n / 1000000000) 60).symm
  rw [h2, h3]
  by_cases hs : n / 1000000000 < 60
  · have hs2 : ¬ (((n / 1000000000 : Nat) : Int) ≥ 60) := by omega
    rw [if_neg hs2, if_pos hs, Itoa_natCast]
  · have hs2 : ((n / 1000000000 : Nat) : Int) ≥ 60 := by omega
    rw [if_pos hs2, if_neg hs]
    by_cases hr : n / 1000000000 % 60 = 0
    · have hr2 : ((n / 1000000000 % 60 : Nat) : Int) = 0 := by omega
      rw [if_pos hr2, if_pos hr, Itoa_natCast]
    · have hr2 : ¬ ((n / 1000000000 % 60 : Nat) : Int) = 0 := by omega
      rw [if_neg hr2, if_neg hr, Itoa_natCast, Itoa_natCast]

/-- C23. `formatNanoseconds` on `ns >= 0`, with `s` the whole number of seconds
`ns div 10^9`: the result is the decimal digits of `s` and the letter `s` when `s < 60`,
the digits of `s div 60` and the letter `m` when `s >= 60` and `s mod 60 = 0`, and otherwise
the digits of `s div 60`, the letter `m`, the digits of `s mod 60` and the letter `s`. The
printed digits denote the numbers `m = s div 60` and `r = s mod 60`, which satisfy
`60 * m + r = s` and `0 <= r < 60`; the three examples of the claim are evaluated. -/
theorem C23_format_nanoseconds (ns : Int) (h : 0 ≤ ns) :
    formatNanoseconds ns =
      (if ns.toNat / 1000000000 < 60 then fmtInt (ns.toNat / 1000000000) ++ "s".toList
       else if ns.toNat / 1000000000 % 60 = 0 then
         fmtInt (ns.toNat / 1000000000 / 60) ++ "m".toList
       else fmtInt (ns.toNat / 1000000000 / 60) ++ "m".toList ++
         fmtInt (ns.toNat / 1000000000 % 60) ++ "s".toList) ∧
    ((ns.toNat / 1000000000 : Nat) : Int) = ns / 1000000000 ∧
    60 * (ns.toNat / 1000000000 / 60) + ns.toNat / 1000000000 % 60 =
      ns.toNat / 1000000000 ∧
    ns.toNat / 1000000000 % 60 < 60 ∧
    digitsValue (fmtInt (ns.toNat / 1000000000)) 0 = ns.toNat / 1000000000 ∧
    digitsValue (fmtInt (ns.toNat / 1000000000 / 60)) 0 = ns.toNat / 1000000000 / 60 ∧
    digitsValue (fmtInt (ns.toNat / 1000000000 % 60)) 0 = ns.toNat / 1000000000 % 60 ∧
    formatNanoseconds 30000000000 = "30s".toList ∧
    formatNanoseconds 60000000000 = "1m".toList ∧
    formatNanoseconds 90000000000 = "1m30s".toList := by
  obtain ⟨n, rfl⟩ := Int.eq_ofNat_of_zero_le h
  refine ⟨?_, ?_, ?_, ?_, digitsValue_fmtInt _, digitsValue_fmtInt _, digitsValue_fmtInt _,
    by decide, by decide, by decide⟩
  · rw [formatNanoseconds_natCast, Int.toNat_ofNat]
  · rw [Int.toNat_ofNat]
    omega
  · omega
  · omega

/-- C23 at 125 seconds and a half: two minutes and five seconds. -/
theorem C23_format_nanoseconds_witness :
    formatNanoseconds 125500000000 = "2m5s".toList :=
  (C23_format_nanoseconds 125500000000 (by decide)).1.trans (by decide)

/-! ## The event history: claim C24 -/

/-- C24. The tool `container_events` always bounds the query: `handleContainerEvents`
invokes the executor exactly once, with `events --filter type=container`, then
`--filter container=` and the Container and `--filter event=` and the EventType when these
are non-empty, then `--since s --until u --format` and the JSON format, where `s` is Since
or `1h` when empty and `u` is Until or `now` when empty; the argument after `--until` is
never empty. -/
theorem C24_events_command {σ : Type} (Unmarshal : GoString → Except GoString dockerEvent)
    (exec : Executor σ) (s : σ) (args : containerEventsArgs) :
    (handleContainerEvents Unmarshal (recording exec) (s, []) args).2.2 =
      [["events".toList, "--filter".toList, "type=container".toList] ++
        (if args.Container ≠ [] then ["--filter".toList, "container=".toList ++ args.Container]
         else []) ++
        (if args.EventType ≠ [] then ["--filter".toList, "event=".toList ++ args.EventType]
         else []) ++
        ["--since".toList, if args.Since = [] then "1h".toList else args.Since,
          "--until".toList, if args.Until = [] then "now".toList else args.Until,
          "--format".toList, "\x7b\x7bjson .\x7d\x7d".toList]] ∧
    (handleContainerEvents Unmarshal exec s args).2 =
      (exec.Exec s (containerEventsCommand args)).2 ∧
    ["--until".toList, if args.Until = [] then "now".toList else args.Until] <:+:
      containerEventsCommand args ∧
    (if args.Until = [] then "now".toList else args.Until) ≠ [] := by
  refine ⟨?_, ?_, ?_, ?_⟩
  · unfold handleContainerEvents
    have h : (recording exec).Exec (s, []) (containerEventsCommand args) =
        ((exec.Exec s (containerEventsCommand args)).1,
          ((exec.Exec s (containerEventsCommand args)).2,
            [] ++ [containerEventsCommand args])) := rfl
    simp only [h]
    cases (exec.Exec s (containerEventsCommand args)).1 with
    | error err => rfl
    | ok output =>
      simp only []
      by_cases h2 : TrimSpace output = []
      · simp only [h2, if_true]; rfl
      · simp only [h2, if_false]; rfl
  · unfold handleContainerEvents
    simp only []
    cases h1 : exec.Exec s (containerEventsCommand args) with
    | mk r s1 =>
      cases r with
      | error err => rfl
      | ok output =>
        simp only []
        by_cases h2 : TrimSpace output = []
        · simp only [h2, if_true]
        · simp only [h2, if_false]
  · unfold containerEventsCommand
    simp only []
    refine ⟨["events".toList, "--filter".toList, "type=container".toList] ++
      (if args.Container ≠ [] then ["--filter".toList, "container=".toList ++ args.Container]
       else []) ++
      (if args.EventType ≠ [] then ["--filter".toList, "event=".toList ++ args.EventType]
       else []) ++ ["--since".toList, if args.Since = [] then "1h".toList else args.Since],
      ["--format".toList, "\x7b\x7bjson .\x7d\x7d".toList], ?_⟩
    simp
  · by_cases h : args.Until = []
    · rw [if_pos h]; decide
    · rw [if_neg h]; exact h

/-- C24 at the input of `TestHandleContainerEvents_CustomTimeRange`. -/
theorem C24_events_command_witness :
    (handleContainerEvents eventUnmarshal (recording mockExecutor) (customTimeRangeMock, [])
        customTimeRangeArgs).2.2 =
      [["events".toList, "--filter".toList, "type=container".toList, "--since".toList,
        "2024-01-01T00:00:00Z".toList, "--until".toList, "2024-01-02T00:00:00Z".toList,
        "--format".toList, "\x7b\x7bjson .\x7d\x7d".toList]] ∧
    (handleContainerEvents eventUnmarshal mockExecutor customTimeRangeMock
        customTimeRangeArgs).1 =
      .ok ("=== Container Events ===\n" ++
        "Time range: 2024-01-01T00:00:00Z to 2024-01-02T00:00:00Z\n\n" ++
        "  [1700050000] api-server: restart\n").toList := by
  set_option maxRecDepth 100000 in
  exact ⟨(C24_events_command eventUnmarshal mockExecutor customTimeRangeMock
    customTimeRangeArgs).1.trans (by decide), rfl⟩

/-! ## The health report: claim C25 -/

/-- C25. No-healthcheck result of container_health: for a non-empty Container, when both
inspect commands succeed and both outputs are, after trimming white space, empty, `null`,
`<nil>` or `<no value>`, `handleContainerHealth` returns exactly
`No healthcheck configured for this container.` and no error; for an empty Container it
returns the error `container name or ID is required` and the executor has not been
invoked. -/
theorem C25_no_healthcheck {σ : Type}
    (UnmarshalConfig : GoString → Except GoString healthConfig)
    (UnmarshalState : GoString → Except GoString healthState)
    (exec : Executor σ) (s : σ) (args : containerHealthArgs) :
    (args.Container ≠ [] → ∀ healthOut configOut s1 s2,
      exec.Exec s ["inspect".toList, "--format".toList,
        "\x7b\x7bjson .State.Health\x7d\x7d".toList, args.Container] = (.ok healthOut, s1) →
      exec.Exec s1 ["inspect".toList, "--format".toList,
        "\x7b\x7bjson .Config.Healthcheck\x7d\x7d".toList, args.Container] =
          (.ok configOut, s2) →
      isNoValue (TrimSpace healthOut) → isNoValue (TrimSpace configOut) →
      handleContainerHealth UnmarshalConfig UnmarshalState exec s args =
        (.ok "No healthcheck configured for this container.".toList, s2)) ∧
    (args.Container = [] →
      handleContainerHealth UnmarshalConfig UnmarshalState (recording exec) (s, []) args =
        (.error "container name or ID is required".toList, (s, [])) ∧
      "required".toList <:+: "container name or ID is required".toList) := by
  refine ⟨?_, ?_⟩
  · intro hc healthOut configOut s1 s2 h1 h2 hh hcfg
    unfold handleContainerHealth
    rw [if_neg hc, h1]
    simp only [h2]
    unfold isNoValue at hh hcfg
    rw [if_pos ⟨hh, hcfg⟩]
  · intro hc
    refine ⟨?_, by decide⟩
    unfold handleContainerHealth
    rw [if_pos hc]

/-- C25 at the inputs of `TestHandleContainerHealth_NoHealthcheck` and of
`TestHandleContainerHealth_EmptyContainer`. -/
theorem C25_no_healthcheck_witness :
    (handleContainerHealth (fun _ => .error []) (fun _ => .error []) mockExecutor
        noHealthcheckMock ⟨"nocheck".toList⟩).1 =
      .ok "No healthcheck configured for this container.".toList ∧
    handleContainerHealth (fun _ => .error []) (fun _ => .error []) (recording mockExecutor)
        (NewMock, []) ⟨[]⟩ =
      (.error "container name or ID is required".toList, (NewMock, [])) := by
  set_option maxRecDepth 100000 in
  exact ⟨by
    rw [(C25_no_healthcheck (fun _ => .error []) (fun _ => .error []) mockExecutor
      noHealthcheckMock ⟨"nocheck".toList⟩).1 (by decide) "null".toList "null".toList _ _
      rfl rfl (by unfold isNoValue; decide) (by unfold isNoValue; decide)],
    ((C25_no_healthcheck (fun _ => .error []) (fun _ => .error []) mockExecutor
      NewMock ⟨[]⟩).2 rfl).1⟩

/-! ## The inspect sections: claim C26 -/

/-- C26. Section dispatch of container_inspect: when the inspect command succeeds and its
output decodes into a non-empty array, `handleContainerInspect` returns a text and no error
exactly for the Section values `env`, `ports`, `volumes`, `network`, `all` and the empty
Section; each of the first four gives the text of its section; the empty Section gives the
result of `all`, which is the pretty-printed inspect output when the output can be decoded
and printed again; every other Section gives the error `unknown section`, naming the quoted
Section, and no text. -/
theorem C26_section_dispatch {σ : Type}
    (UnmarshalList : GoString → Except GoString (List JsonObject))
    (UnmarshalAny : GoString → Except GoString JsonValue)
    (MarshalIndent : JsonValue → Except GoString GoString) (Quote : GoString → GoString)
    (exec : Executor σ) (s s1 : σ) (container section_ out : GoString) (data : JsonObject)
    (rest : List JsonObject) (hc : container ≠ [])
    (hexec : exec.Exec s ["inspect".toList, container] = (.ok out, s1))
    (hparse : UnmarshalList out = .ok (data :: rest)) :
    ((∃ text, handleContainerInspect UnmarshalList UnmarshalAny MarshalIndent Quote exec s
        ⟨container, section_⟩ = (.ok text, s1)) ↔
      section_ ∈ ["env".toList, "ports".toList, "volumes".toList, "network".toList,
        "all".toList, []]) ∧
    (section_ = "env".toList →
      handleContainerInspect UnmarshalList UnmarshalAny MarshalIndent Quote exec s
        ⟨container, section_⟩ = (.ok (formatEnvSection data), s1)) ∧
    (section_ = "ports".toList →
      handleContainerInspect UnmarshalList UnmarshalAny MarshalIndent Quote exec s
        ⟨container, section_⟩ = (.ok (formatPortsSection data), s1)) ∧
    (section_ = "volumes".toList →
      handleContainerInspect UnmarshalList UnmarshalAny MarshalIndent Quote exec s
        ⟨container, section_⟩ = (.ok (formatVolumesSection data), s1)) ∧
    (section_ = "network".toList →
      handleContainerInspect UnmarshalList UnmarshalAny MarshalIndent Quote exec s
        ⟨container, section_⟩ = (.ok (formatNetworkSection data), s1)) ∧
    (section_ = "all".toList ∨ section_ = [] →
      handleContainerInspect UnmarshalList UnmarshalAny MarshalIndent Quote exec s
        ⟨container, section_⟩ = (.ok (formatAllSection UnmarshalAny MarshalIndent out), s1)) ∧
    handleContainerInspect UnmarshalList UnmarshalAny MarshalIndent Quote exec s
        ⟨container, []⟩ =
      handleContainerInspect UnmarshalList UnmarshalAny MarshalIndent Quote exec s
        ⟨container, "all".toList⟩ ∧
    (∀ v pretty, UnmarshalAny out = .ok v → MarshalIndent v = .ok pretty →
      formatAllSection UnmarshalAny MarshalIndent out = pretty) ∧
    (section_ ∉ ["env".toList, "ports".toList, "volumes".toList, "network".toList,
        "all".toList, []] →
      handleContainerInspect UnmarshalList UnmarshalAny MarshalIndent Quote exec s
        ⟨container, section_⟩ =
        (.error ("unknown section ".toList ++ Quote section_ ++
          ": must be one of env, ports, volumes, network, all".toList), s1)) := by
  have hgen : ∀ sec : GoString,
      handleContainerInspect UnmarshalList UnmarshalAny MarshalIndent Quote exec s
        ⟨container, sec⟩ =
      (let section_ := if sec = [] then "all".toList else sec
       if section_ = "env".toList then (.ok (formatEnvSection data), s1)
       else if section_ = "ports".toList then (.ok (formatPortsSection data), s1)
       else if section_ = "volumes".toList then (.ok (formatVolumesSection data), s1)
       else if section_ = "network".toList then (.ok (formatNetworkSection data), s1)
       else if section_ = "all".toList then
         (.ok (formatAllSection UnmarshalAny MarshalIndent out), s1)
       else
         (.error ("unknown section ".toList ++ Quote section_ ++
           ": must be one of env, ports, volumes, network, all".toList), s1)) := by
    intro sec
    unfold handleContainerInspect
    simp only [hc, if_false, hexec, hparse]
  have hunknown : section_ ∉ ["env".toList, "ports".toList, "volumes".toList,
      "network".toList, "all".toList, []] →
      handleContainerInspect UnmarshalList UnmarshalAny MarshalIndent Quote exec s
        ⟨container, section_⟩ =
        (.error ("unknown section ".toList ++ Quote section_ ++
          ": must be one of env, ports, volumes, network, all".toList), s1) := by
    intro hn
    simp only [List.mem_cons, List.mem_singleton, List.not_mem_nil, or_false, not_or] at hn
    obtain ⟨h1, h2, h3, h4, h5, h6⟩ := hn
    rw [hgen]
    simp only [h6, if_false, h1, h2, h3, h4, h5]
  have henv : section_ = "env".toList →
      handleContainerInspect UnmarshalList UnmarshalAny MarshalIndent Quote exec s
        ⟨container, section_⟩ = (.ok (formatEnvSection data), s1) := by
    intro h
    rw [hgen, h]
    rfl
  have hports : section_ = "ports".toList →
      handleContainerInspect UnmarshalList UnmarshalAny MarshalIndent Quote exec s
        ⟨container, section_⟩ = (.ok (formatPortsSection data), s1) := by
    intro h
    rw [hgen, h]
    rfl
  have hvol : section_ = "volumes".toList →
      handleContainerInspect UnmarshalList UnmarshalAny MarshalIndent Quote exec s
        ⟨container, section_⟩ = (.ok (formatVolumesSection data), s1) := by
    intro h
    rw [hgen, h]
    rfl
  have hnet : section_ = "network".toList →
      handleContainerInspect UnmarshalList UnmarshalAny MarshalIndent Quote exec s
        ⟨container, section_⟩ = (.ok (formatNetworkSection data), s1) := by
    intro h
    rw [hgen, h]
    rfl
  have hall : section_ = "all".toList ∨ section_ = [] →
      handleContainerInspect UnmarshalList UnmarshalAny MarshalIndent Quote exec s
        ⟨container, section_⟩ =
        (.ok (formatAllSection UnmarshalAny MarshalIndent out), s1) := by
    rintro (h | h)
    · rw [hgen, h]
      rfl
    · rw [hgen, h]
      rfl
  refine ⟨⟨?_, ?_⟩, henv, hports, hvol, hnet, hall, ?_, ?_, hunknown⟩
  · rintro ⟨text, ht⟩
    by_contra hn
    rw [hunknown hn] at ht
    cases ht
  · intro hm
    simp only [List.mem_cons, List.mem_singleton, List.not_mem_nil, or_false] at hm
    rcases hm with h | h | h | h | h | h
    · exact ⟨_, henv h⟩
    · exact ⟨_, hports h⟩
    · exact ⟨_, hvol h⟩
    · exact ⟨_, hnet h⟩
    · exact ⟨_, hall (Or.inl h)⟩
    · exact ⟨_, hall (Or.inr h)⟩
  · rw [hgen, hgen]
    rfl
  · intro v pretty h1 h2
    unfold formatAllSection
    rw [h1]
    simp only [h2]

/-- C26 at the input of `TestHandleContainerInspect_DefaultSection`, with a short inspect
output: the empty Section gives the pretty-printed output. -/
theorem C26_section_dispatch_witness :
    (handleContainerInspect shortUnmarshalList shortUnmarshalAny shortMarshalIndent
        plainQuote mockExecutor defaultSectionMock ⟨"mycontainer".toList, []⟩).1 =
      .ok "[\n  \x7b\n    \"Id\": \"abc123\"\n  \x7d\n]".toList := by
  set_option maxRecDepth 100000 in
  exact (congrArg Prod.fst ((C26_section_dispatch shortUnmarshalList shortUnmarshalAny
    shortMarshalIndent plainQuote mockExecutor defaultSectionMock
    (defaultSectionMock.exec ["inspect".toList, "mycontainer".toList]).2
    "mycontainer".toList [] shortInspectJSON [("Id".toList, .string "abc123".toList)] []
    (by decide) rfl rfl).2.2.2.2.2.1 (Or.inr rfl))).trans rfl

/-! ## The Compose logs: claim C27 -/

theorem attributeValue_setLabel (m : List (GoString × GoString)) (k v k' : GoString) :
    attributeValue (setLabel m k v) k' = if k = k' then v else attributeValue m k' := by
  induction m with
  | nil =>
    by_cases h : k = k'
    · subst h; simp [setLabel, attributeValue, List.lookup]
    · have h2 : (k' == k) = false := by simpa using fun e => h e.symm
      simp [setLabel, attributeValue, List.lookup, h, h2]
  | cons kv rest ih =>
    obtain ⟨k0, v0⟩ := kv
    unfold attributeValue at ih ⊢
    by_cases h0 : k0 = k
    · subst h0
      by_cases h : k0 = k'
      · subst h; simp [setLabel, List.lookup]
      · have h2 : (k' == k0) = false := by simpa using fun e => h e.symm
        simp [setLabel, List.lookup, h, h2]
    · by_cases h1 : k' = k0
      · subst h1
        have h3 : ¬ k = k' := fun e => h0 e.symm
        simp [setLabel, List.lookup, h0, h3]
      · have h2 : (k' == k0) = false := by simpa using h1
        simp only [setLabel, h0, if_false, List.lookup, h2]
        exact ih

/-- The service label read from the map is the value of the last pair with that key in the
labels string. -/
theorem attributeValue_foldl_labelStep (key : GoString) (pairs : List GoString) :
    ∀ m : List (GoString × GoString),
      attributeValue (pairs.foldl labelStep m) key =
        lastLabelValue key pairs (attributeValue m key) := by
  induction pairs with
  | nil => intro m; rfl
  | cons pair rest ih =>
    intro m
    have e : lastLabelValue key (pair :: rest) (attributeValue m key) =
        if (SplitN2 '=' pair).length = 2 ∧ (SplitN2 '=' pair).getD 0 [] = key then
          lastLabelValue key rest ((SplitN2 '=' pair).getD 1 [])
        else lastLabelValue key rest (attributeValue m key) := rfl
    rw [List.foldl_cons, ih, e]
    unfold labelStep
    by_cases h2 : (SplitN2 '=' pair).length = 2
    · simp only [h2, if_true, true_and, attributeValue_setLabel]
      by_cases hk : (SplitN2 '=' pair).getD 0 [] = key
      · rw [if_pos hk, if_pos hk]
      · rw [if_neg hk, if_neg hk]
    · simp only [h2, if_false, false_and]

theorem attributeValue_parseLabels (key raw : GoString) :
    attributeValue (parseLabels raw) key = lastLabelValue key (SplitOn ',' raw) [] := by
  unfold parseLabels
  by_cases h : raw = []
  · subst h
    rfl
  · rw [if_pos h, attributeValue_foldl_labelStep]
    rfl

theorem writeLogLines_eq (serviceName : GoString) (lines : List GoString) :
    writeLogLines serviceName lines =
      unlines ((lines.filter (fun line => line ≠ [])).map
        (fun line => "[".toList ++ serviceName ++ "] ".toList ++ line)) := by
  induction lines with
  | nil => rfl
  | cons line rest ih =>
    unfold writeLogLines
    by_cases h : line = []
    · rw [if_pos h, ih]
      simp [List.filter_cons, h]
    · rw [if_neg h, ih]
      simp [List.filter_cons, h, unlines]

/-- The loop over the containers writes the lines of `composeLogRows`, each followed by a
newline. -/
theorem composeLogsLoop_eq {σ : Type} (exec : Executor σ) (args : composeLogsArgs)
    (tail : Int) (containers : List composeLogContainer) :
    ∀ s : σ, composeLogsLoop exec args tail s containers =
      (unlines (composeLogRows exec args tail s containers).1,
        (composeLogRows exec args tail s containers).2) := by
  induction containers with
  | nil => intro s; rfl
  | cons c rest ih =>
    intro s
    unfold composeLogsLoop composeLogRows
    cases h : exec.ExecCombined s (composeLogsCommand args tail c) with
    | mk r s1 =>
      cases r with
      | error err =>
        simp only [ih, containerLogRows]
        simp [unlines]
      | ok logOutput =>
        simp only [ih, containerLogRows, writeLogLines_eq]
        simp [unlines]

/-- C27, counterexample. The listing of `TestHandleComposeLogs_TwoServices` when the logs
of the second container cannot be fetched: the result ends with a line that reports the
failure, which is not a line of a log output; the prefixed non-empty log lines alone, the
failed fetch having no output, are the two lines of the first container. -/
theorem C27_counterexample :
    (handleComposeLogs twoServicesUnmarshal plainQuote mockExecutor failingFetchMock
        ⟨"myapp".toList, 0, [], false⟩).1 =
      .ok ("[web] web log line 1\n[web] web log line 2\n" ++
        "[db] error fetching logs: No such container: def456\n").toList ∧
    unlines (containerLogRows "web".toList (.ok "web log line 1\nweb log line 2\n".toList) ++
        containerLogRows "db".toList (.ok [])) =
      "[web] web log line 1\n[web] web log line 2\n".toList := by
  set_option maxRecDepth 100000 in
  exact ⟨rfl, by decide⟩

/-- C27, amended. Service prefixing of compose_logs: for a project whose container listing
is not blank and parses into at least one container, the result of `handleComposeLogs`
consists of lines, each followed by a newline: for each container in listing order, when
its logs are fetched, one line `[<service>] <line>` for each non-empty line of the log
output in order, and when the fetch fails the single line
`[<service>] error fetching logs: <error>`. The service is the value of the last
`com.docker.compose.service` label in the labels string or, when that is missing or empty,
the name of the container; the logs are asked for with `--tail` 100 when Tail is not
positive. A blank listing yields the error `no containers found for Compose project` with
the quoted Project. -/
theorem C27_service_prefixing {σ : Type}
    (Unmarshal : GoString → Except GoString rawLogContainer) (Quote : GoString → GoString)
    (exec : Executor σ) (s : σ) (args : composeLogsArgs) :
    (∀ psOutput s1 containers,
      exec.Exec s (composePsCommand args.Project) = (.ok psOutput, s1) →
      TrimSpace psOutput ≠ [] →
      parseComposeLogContainers Unmarshal psOutput = .ok containers → containers ≠ [] →
      handleComposeLogs Unmarshal Quote exec s args =
        (.ok (unlines (composeLogRows exec args (if args.Tail ≤ 0 then 100 else args.Tail)
          s1 containers).1),
         (composeLogRows exec args (if args.Tail ≤ 0 then 100 else args.Tail)
          s1 containers).2)) ∧
    (∀ psOutput s1,
      exec.Exec s (composePsCommand args.Project) = (.ok psOutput, s1) →
      TrimSpace psOutput = [] →
      handleComposeLogs Unmarshal Quote exec s args =
        (.error ("no containers found for Compose project ".toList ++ Quote args.Project),
          s1) ∧
      "no containers found".toList <:+:
        "no containers found for Compose project ".toList ++ Quote args.Project) ∧
    (∀ raw : rawLogContainer,
      serviceNameOf ⟨raw.ID, raw.Names, parseLabels raw.Labels⟩ =
        if lastLabelValue "com.docker.compose.service".toList (SplitOn ',' raw.Labels) [] = []
        then raw.Names
        else lastLabelValue "com.docker.compose.service".toList (SplitOn ',' raw.Labels) []) ∧
    (∀ serviceName logOutput line,
      line ∈ containerLogRows serviceName (.ok logOutput) ↔
        ∃ l ∈ Split logOutput, l ≠ [] ∧
          line = "[".toList ++ serviceName ++ "] ".toList ++ l) := by
  refine ⟨?_, ?_, ?_, ?_⟩
  · intro psOutput s1 containers hexec hne hparse hcs
    unfold handleComposeLogs
    rw [hexec]
    have hlen : ¬ containers.length = 0 := fun e => hcs (List.length_eq_zero.mp e)
    simp only [hne, if_false, hparse, hlen, composeLogsLoop_eq]
  · intro psOutput s1 hexec he
    refine ⟨?_, ⟨[], " for Compose project ".toList ++ Quote args.Project, ?_⟩⟩
    · unfold handleComposeLogs
      rw [hexec]
      simp only [he, if_true]
    · have e : "no containers found for Compose project ".toList =
          "no containers found".toList ++ " for Compose project ".toList := by decide
      rw [e]
      simp
  · intro raw
    unfold serviceNameOf
    simp only [attributeValue_parseLabels]
  · intro serviceName logOutput line
    unfold containerLogRows
    simp only [List.mem_map, List.mem_filter]
    constructor
    · rintro ⟨l, ⟨hl, hne⟩, rfl⟩
      exact ⟨l, hl, by simpa using hne, rfl⟩
    · rintro ⟨l, hl, hne, rfl⟩
      exact ⟨l, ⟨hl, by simpa using hne⟩, rfl⟩

/-- C27 at the input of `TestHandleComposeLogs_TwoServices`. -/
theorem C27_service_prefixing_witness :
    (handleComposeLogs twoServicesUnmarshal plainQuote mockExecutor twoServicesMock
        ⟨"myapp".toList, 0, [], false⟩).1 =
      .ok ("[web] web log line 1\n[web] web log line 2\n" ++
        "[db] db log line 1\n[db] db log line 2\n").toList := by
  set_option maxRecDepth 100000 in
  exact (congrArg Prod.fst ((C27_service_prefixing twoServicesUnmarshal plainQuote mockExecutor
    twoServicesMock ⟨"myapp".toList, 0, [], false⟩).1 twoServicesListing
    (twoServicesMock.exec (composePsCommand "myapp".toList)).2
    [⟨"abc123".toList, "myapp-web-1".toList, parseLabels
        "com.docker.compose.project=myapp,com.docker.compose.service=web".toList⟩,
     ⟨"def456".toList, "myapp-db-1".toList, parseLabels
        "com.docker.compose.project=myapp,com.docker.compose.service=db".toList⟩]
    rfl (by decide) rfl (by simp))).trans rfl

/-! ## The line multiset: claim C28 -/

theorem TrimSpace_head (s : GoString) (c : Char) (h : (TrimSpace s).head? = some c) :
    isSpace c = false := by
  unfold TrimSpace at h
  have hpre : ((s.dropWhile isSpace).reverse.dropWhile isSpace).reverse <+:
      s.dropWhile isSpace := by
    have hs := List.dropWhile_suffix (l := (s.dropWhile isSpace).reverse) isSpace
    have := List.reverse_prefix.mpr hs
    rwa [List.reverse_reverse] at this
  have hne : ((s.dropWhile isSpace).reverse.dropWhile isSpace).reverse ≠ [] := by
    intro e
    rw [e] at h
    cases h
  have hhead := hpre.head hne
  rw [List.head?_eq_head hne, Option.some.injEq, hhead] at h
  rw [← h]
  exact List.head_dropWhile_not isSpace s _

theorem TrimSpace_getLast (s : GoString) (c : Char) (h : (TrimSpace s).getLast? = some c) :
    isSpace c = false := by
  unfold TrimSpace at h
  rw [List.getLast?_reverse] at h
  have := List.head?_dropWhile_not isSpace (s.dropWhile isSpace).reverse
  rw [h] at this
  exact this

theorem mem_nonBlankLines (text l : GoString) :
    l ∈ nonBlankLines text ↔ l ≠ [] ∧ ∃ line ∈ Split text, TrimSpace line = l := by
  unfold nonBlankLines
  rw [List.mem_filter, List.mem_map]
  constructor
  · rintro ⟨h1, h2⟩
    exact ⟨by simpa using h2, h1⟩
  · rintro ⟨h1, h2⟩
    exact ⟨h2, by simpa using h1⟩

theorem count_nonBlankLines (text l : GoString) (hl : l ≠ []) :
    (nonBlankLines text).count l =
      ((Split text).filter (fun line => TrimSpace line = l)).length := by
  unfold nonBlankLines
  induction Split text with
  | nil => rfl
  | cons line rest ih =>
    rw [List.map_cons, List.filter_cons, List.filter_cons]
    by_cases h : TrimSpace line = l
    · have hne : TrimSpace line ≠ [] := by rw [h]; exact hl
      have e1 : decide (TrimSpace line ≠ []) = true := by simpa using hne
      have e2 : decide (TrimSpace line = l) = true := by simpa using h
      simp only [e1, e2, if_true, List.count_cons, List.length_cons, ih]
      simp [h]
    · have e2 : decide (TrimSpace line = l) = false := by simpa using h
      by_cases hne : TrimSpace line = []
      · have e1 : decide (TrimSpace line ≠ []) = false := by simpa using hne
        simp only [e1, e2, Bool.false_eq_true, if_false]
        exact ih
      · have e1 : decide (TrimSpace line ≠ []) = true := by simpa using hne
        simp only [e1, e2, Bool.false_eq_true, if_true, if_false]
        rw [List.count_cons_of_ne (fun e => h e.symm)]
        exact ih

theorem length_nonBlankLines (text : GoString) :
    (nonBlankLines text).length =
      ((Split text).filter (fun line => TrimSpace line ≠ [])).length := by
  unfold nonBlankLines
  induction Split text with
  | nil => rfl
  | cons line rest ih =>
    by_cases hne : TrimSpace line = []
    · simpa [List.filter_cons, hne] using ih
    · simpa [List.filter_cons, hne] using ih

/-- In a map with unique keys every stored value is the value looked up under its key. -/
theorem CountMap.values_eq (m : CountMap) (h : m.keys.Nodup) :
    m.map Prod.snd = m.keys.map m.get := by
  induction m with
  | nil => rfl
  | cons kv rest ih =>
    obtain ⟨k, v⟩ := kv
    unfold CountMap.keys at h ih ⊢
    rw [List.map_cons, List.nodup_cons] at h
    simp only [List.map_cons, CountMap.get, if_true, List.map_map]
    congr 1
    rw [ih h.2, List.map_map]
    apply List.map_congr_left
    rintro ⟨k', v'⟩ hk'
    have hne : ¬ k = k' := by
      intro e
      apply h.1
      rw [e]
      exact List.mem_map.mpr ⟨(k', v'), hk', rfl⟩
    simp [CountMap.get, hne]

/-- The counts of a well-formed map of a list sum to the length of the list. -/
theorem sum_counts (keys L : List GoString) (hn : keys.Nodup)
    (hmem : ∀ l, l ∈ keys ↔ l ∈ L) :
    (keys.map (fun l => L.count l)).sum = L.length := by
  have hp : List.Perm keys L.dedup :=
    (List.perm_ext_iff_of_nodup hn (List.nodup_dedup L)).mpr (by
      intro l
      rw [hmem, List.mem_dedup])
  rw [(hp.map _).sum_eq]
  have hbeq : ∀ a b : GoString,
      @BEq.beq GoString List.instBEq a b = @BEq.beq GoString instBEqOfDecidableEq a b := by
    intro a b
    by_cases h : a = b
    · subst h; simp
    · simp [h]
  have hcount : ∀ (l : GoString) (M : List GoString),
      @List.count GoString List.instBEq l M =
        @List.count GoString instBEqOfDecidableEq l M := by
    intro l M
    show List.countP (fun x => @BEq.beq GoString List.instBEq x l) M =
      List.countP (fun x => @BEq.beq GoString instBEqOfDecidableEq x l) M
    congr 1
    funext x
    exact hbeq x l
  have hfun : (fun l => @List.count GoString List.instBEq l L) =
      (fun l => @List.count GoString instBEqOfDecidableEq l L) := by
    funext l
    exact hcount l L
  rw [hfun]
  exact List.sum_map_count_dedup_eq_length L

/-- C28. Line multiset construction: in the map returned by `countLines`, every key is a
non-empty string that neither starts nor ends with white space; the value under a non-empty
string `l` is the number of newline-separated lines of the text whose trimmed form is `l`;
a string is a key exactly when it is the non-empty trimmed form of some line, so lines of
white space only contribute no entry; the keys are pairwise distinct, so equal lines
collapse into one entry; each stored value is positive; and the values sum to the number of
non-blank lines. -/
theorem C28_line_multiset (text : GoString) :
    (∀ l ∈ (countLines text).keys, l ≠ [] ∧
      (∀ c, l.head? = some c → isSpace c = false) ∧
      (∀ c, l.getLast? = some c → isSpace c = false)) ∧
    (∀ l, l ≠ [] → (countLines text).get l =
      ((Split text).filter (fun line => TrimSpace line = l)).length) ∧
    (∀ l, l ∈ (countLines text).keys ↔ l ≠ [] ∧ ∃ line ∈ Split text, TrimSpace line = l) ∧
    (countLines text).keys.Nodup ∧
    (∀ kv ∈ countLines text, kv.2 = (countLines text).get kv.1 ∧ 0 < kv.2) ∧
    ((countLines text).map Prod.snd).sum =
      ((Split text).filter (fun line => TrimSpace line ≠ [])).length := by
  have hwf := countLines_WF text
  have hvals := CountMap.values_eq (countLines text) hwf.1
  refine ⟨?_, ?_, ?_, hwf.1, ?_, ?_⟩
  · intro l hl
    obtain ⟨hne, line, _, rfl⟩ :=
      (mem_nonBlankLines text l).mp ((mem_keys_countLines text l).mp hl)
    exact ⟨hne, TrimSpace_head line, TrimSpace_getLast line⟩
  · intro l hl
    rw [countLines_get, count_nonBlankLines text l hl]
  · intro l
    rw [mem_keys_countLines, mem_nonBlankLines]
  · rintro ⟨k, v⟩ hkv
    have hk : k ∈ (countLines text).keys := List.mem_map.mpr ⟨(k, v), hkv, rfl⟩
    have hv : v ∈ (countLines text).map Prod.snd := List.mem_map.mpr ⟨(k, v), hkv, rfl⟩
    have hidx : ∀ (m : CountMap), m.keys.Nodup → (k, v) ∈ m → m.get k = v := by
      intro m
      induction m with
      | nil => intro _ h; cases h
      | cons p rest ih =>
        obtain ⟨k0, v0⟩ := p
        intro hn hm
        unfold CountMap.keys at hn ih
        rw [List.map_cons, List.nodup_cons] at hn
        rcases List.mem_cons.mp hm with e | hm'
        · cases e
          simp [CountMap.get]
        · have hne : ¬ k0 = k := by
            intro e
            apply hn.1
            rw [e]
            exact List.mem_map.mpr ⟨(k, v), hm', rfl⟩
          simp only [CountMap.get, hne, if_false]
          exact ih hn.2 hm'
    have hget := hidx (countLines text) hwf.1 hkv
    exact ⟨hget.symm, by rw [← hget]; exact (hwf.2 k).mp hk⟩
  · rw [hvals]
    have hfun : (countLines text).keys.map (countLines text).get =
        (countLines text).keys.map (fun l => (nonBlankLines text).count l) := by
      apply List.map_congr_left
      intro l _
      exact countLines_get text l
    rw [hfun, sum_counts _ _ hwf.1 (fun l => mem_keys_countLines text l),
      length_nonBlankLines]

/-! ## Totality of the search: claim C29 -/

theorem Split_ne_nil (text : GoString) : Split text ≠ [] := by
  induction text with
  | nil => simp [Split]
  | cons c cs ih =>
    unfold Split
    by_cases h : c = '\n'
    · simp [h]
    · rw [if_neg h]
      cases hs : Split cs with
      | nil => simp
      | cons l ls => simp

/-- The indices collected from `k` on lie between `k` and `k` plus the number of lines. -/
theorem mem_findMatches (re : GoString → Bool) (ls : List GoString) :
    ∀ (k i : Int), i ∈ findMatches re ls k → k ≤ i ∧ i < k + (ls.length : Int) := by
  induction ls with
  | nil => intro k i h; simp [findMatches] at h
  | cons l rest ih =>
    intro k i h
    unfold findMatches at h
    have hlen : ((l :: rest).length : Int) = (rest.length : Int) + 1 := by simp
    by_cases hm : re l = true
    · rw [if_pos hm] at h
      rcases List.mem_cons.mp h with e | h'
      · omega
      · have := ih (k + 1) i h'
        omega
    · rw [if_neg hm] at h
      have := ih (k + 1) i h
      omega

/-- The indices are collected in strictly ascending order. -/
theorem findMatches_sorted (re : GoString → Bool) (ls : List GoString) :
    ∀ k : Int, List.Sorted (fun a b => a < b) (findMatches re ls k) := by
  induction ls with
  | nil => intro k; simp [findMatches]
  | cons l rest ih =>
    intro k
    unfold findMatches
    by_cases hm : re l = true
    · rw [if_pos hm]
      refine List.sorted_cons.mpr ⟨?_, ih (k + 1)⟩
      intro b hb
      have := (mem_findMatches re rest (k + 1) b hb).1
      omega
    · rw [if_neg hm]
      exact ih (k + 1)

/-- The part of `handleSearchLogs` after the fetch never panics. -/
theorem searchOutput_isSome (Quote : GoString → GoString) (re : GoString → Bool)
    (args : searchLogsArgs) (output : GoString)
    (hlen : (Split (TrimRightNewline output)).length < 9223372036854775808) :
    ∃ text, searchOutput Quote re args output = some text := by
  unfold searchOutput
  by_cases ho : output = []
  · rw [if_pos ho]; exact ⟨_, rfl⟩
  · rw [if_neg ho]
    simp only []
    by_cases hm : (findMatches re (Split (TrimRightNewline output)) 0).length = 0
    · rw [if_pos hm]; exact ⟨_, rfl⟩
    · rw [if_neg hm]
      have hne : findMatches re (Split (TrimRightNewline output)) 0 ≠ [] :=
        fun e => hm (by rw [e]; rfl)
      by_cases hc : args.ContextLines > 0
      · rw [if_pos hc]
        obtain ⟨merged, _, hf⟩ := formatWithContext_total (Split (TrimRightNewline output))
          (findMatches re (Split (TrimRightNewline output)) 0) args.ContextLines hlen hne
        rw [hf]
        exact ⟨_, rfl⟩
      · rw [if_neg hc]
        have hcol := collectLines_findMatches re (Split (TrimRightNewline output)) []
        simp only [List.nil_append, List.length_nil, Nat.cast_zero] at hcol
        rw [hcol]
        exact ⟨_, rfl⟩

/-- C29. Totality of the context merger under its caller contract: for a slice of lines and
a non-empty list of match indices, `formatWithContext` finds `ranges[0]`, every merged range
lies within the bounds of the slice, so every access `lines[i]` of the output loops is in
bounds, and the function returns a text; this holds in particular for valid indices and a
radius `>= 0`. `handleSearchLogs` calls `formatWithContext` only for a non-empty fetched
text with at least one match and `ContextLines > 0`, with lines that are not empty and match
indices that are valid and strictly ascending; on every path it returns without a
run-time panic. The number of lines is that of a Go slice, below `2^63`. -/
theorem C29_search_never_panics {σ : Type}
    (Compile : GoString → Except GoString (GoString → Bool)) (Quote : GoString → GoString)
    (exec : Executor σ) (s : σ) (args : searchLogsArgs) :
    (∀ (lines : List GoString) (ms : List Int) (radius : Int),
      lines.length < 9223372036854775808 → ms ≠ [] →
      ∃ merged, mergeRanges (buildRanges lines ms radius) = some merged ∧
        (∀ r ∈ merged, inBounds lines.length r) ∧
        (∀ r ∈ merged, ∀ i ∈ loopIndices r, ∃ line, lineAt lines i = some line) ∧
        formatWithContext lines ms radius =
          some (TrimRightNewline (groupsText lines ms 0 merged))) ∧
    (∀ (re : GoString → Bool) (output : GoString),
      Split (TrimRightNewline output) ≠ [] ∧
      validIndices (Split (TrimRightNewline output))
        (findMatches re (Split (TrimRightNewline output)) 0) ∧
      List.Sorted (fun a b => a < b) (findMatches re (Split (TrimRightNewline output)) 0)) ∧
    (∀ (re : GoString → Bool) (output : GoString),
      (output = [] ∨ findMatches re (Split (TrimRightNewline output)) 0 = [] ∨
          args.ContextLines ≤ 0 →
        ∃ text, searchOutput Quote re args output = some text) ∧
      (output ≠ [] → findMatches re (Split (TrimRightNewline output)) 0 ≠ [] →
          args.ContextLines > 0 →
        searchOutput Quote re args output =
          (formatWithContext (Split (TrimRightNewline output))
            (findMatches re (Split (TrimRightNewline output)) 0) args.ContextLines).map
            (fun r => "Found ".toList ++
              Itoa (findMatches re (Split (TrimRightNewline output)) 0).length ++
              " matches for pattern ".toList ++ Quote args.Pattern ++ ":\n\n".toList ++ r))) ∧
    ((∀ output s1, exec.ExecCombined s (searchLogsCommand args) = (.ok output, s1) →
        (Split (TrimRightNewline output)).length < 9223372036854775808) →
      ∃ result, handleSearchLogs Compile Quote exec s args = some result) := by
  refine ⟨?_, ?_, ?_, ?_⟩
  · intro lines ms radius hlen hne
    obtain ⟨merged, hm, hf⟩ := formatWithContext_total lines ms radius hlen hne
    have hb := merged_inBounds lines ms radius hlen merged hm
    refine ⟨merged, hm, hb, ?_, hf⟩
    intro r hr i hi
    have hri := hb r hr
    unfold inBounds at hri
    rw [mem_loopIndices] at hi
    unfold lineAt
    have h0 : ¬ i < 0 := by omega
    rw [if_neg h0]
    have hlt : i.toNat < lines.length := by omega
    exact ⟨lines[i.toNat], by rw [List.get?_eq_getElem?, List.getElem?_eq_getElem hlt]⟩
  · intro re output
    refine ⟨Split_ne_nil _, ?_, findMatches_sorted re _ 0⟩
    intro i hi
    have := mem_findMatches re _ 0 i hi
    omega
  · intro re output
    refine ⟨?_, ?_⟩
    · intro h
      unfold searchOutput
      by_cases ho : output = []
      · rw [if_pos ho]; exact ⟨_, rfl⟩
      · rw [if_neg ho]
        simp only []
        by_cases hm : (findMatches re (Split (TrimRightNewline output)) 0).length = 0
        · rw [if_pos hm]; exact ⟨_, rfl⟩
        · rw [if_neg hm]
          have hne : findMatches re (Split (TrimRightNewline output)) 0 ≠ [] :=
            fun e => hm (by rw [e]; rfl)
          have hc : ¬ args.ContextLines > 0 := by
            rcases h with h | h | h
            · exact absurd h ho
            · exact absurd h hne
            · omega
          rw [if_neg hc]
          have hcol := collectLines_findMatches re (Split (TrimRightNewline output)) []
          simp only [List.nil_append, List.length_nil, Nat.cast_zero] at hcol
          rw [hcol]
          exact ⟨_, rfl⟩
    · intro ho hne hc
      unfold searchOutput
      have hm : ¬ (findMatches re (Split (TrimRightNewline output)) 0).length = 0 :=
        fun e => hne (List.length_eq_zero.mp e)
      simp only [ho, hm, hc, if_false, if_true]
  · intro hlen
    unfold handleSearchLogs
    by_cases hc : args.Container = []
    · rw [if_pos hc]; exact ⟨_, rfl⟩
    · rw [if_neg hc]
      by_cases hp : args.Pattern = []
      · rw [if_pos hp]; exact ⟨_, rfl⟩
      · rw [if_neg hp]
        cases Compile args.Pattern with
        | error err => exact ⟨_, rfl⟩
        | ok re =>
          simp only []
          cases hex : exec.ExecCombined s (searchLogsCommand args) with
          | mk r s1 =>
            cases r with
            | error err => exact ⟨_, rfl⟩
            | ok output =>
              simp only []
              obtain ⟨text, ht⟩ := searchOutput_isSome Quote re args output (hlen output s1 hex)
              rw [ht]
              exact ⟨_, rfl⟩

/-- C29 at the input of `TestHandleSearchLogs_WithContextLines`: the search returns the
two groups of lines around the matches. -/
theorem C29_search_never_panics_witness :
    (handleSearchLogs literalCompile plainQuote mockExecutor withContextMock
        withContextArgs).map (fun r => r.1) =
      some (.ok ("Found 2 matches for pattern \"ERROR\":\n\n" ++
        "  line2\n> ERROR something broke\n  line4\n--\n" ++
        "  line7\n> ERROR another failure\n  line9").toList) ∧
    ∃ result, handleSearchLogs literalCompile plainQuote mockExecutor withContextMock
      withContextArgs = some result := by
  set_option maxRecDepth 100000 in
  exact ⟨rfl, (C29_search_never_panics literalCompile plainQuote mockExecutor withContextMock
    withContextArgs).2.2.2 (by
      intro output s1 h
      have hval : mockExecutor.ExecCombined withContextMock
          (searchLogsCommand withContextArgs) =
          (.ok ("line1\nline2\nERROR something broke\nline4\nline5\nline6\nline7\n" ++
            "ERROR another failure\nline9\nline10").toList,
           (withContextMock.exec (searchLogsCommand withContextArgs)).2) := rfl
      rw [hval] at h
      injection h with h1 h2
      injection h1 with h3
      subst h3
      decide)⟩

/-! ## Compose up and down: claim C30 -/

/-- The discovery of the working directory under a recording executor: the same result,
and the commands recorded are `ps` and `inspect` commands. -/
theorem discoverWorkDir_recording {σ : Type}
    (Unmarshal : GoString → Except GoString composeProjectContainer)
    (Quote : GoString → GoString) (exec : Executor σ) (s : σ)
    (calls : List (List GoString)) (project : GoString) :
    ∃ extra : List (List GoString),
      discoverWorkDir Unmarshal Quote (recording exec) (s, calls) project =
        ((discoverWorkDir Unmarshal Quote exec s project).1,
          ((discoverWorkDir Unmarshal Quote exec s project).2, calls ++ extra)) ∧
      ∀ c ∈ extra, c.head? = some "ps".toList ∨ c.head? = some "inspect".toList := by
  unfold discoverWorkDir
  have h1 : (recording exec).Exec (s, calls) (composePsCommand project) =
      ((exec.Exec s (composePsCommand project)).1,
        ((exec.Exec s (composePsCommand project)).2,
          calls ++ [composePsCommand project])) := rfl
  have hps : ∀ c ∈ [composePsCommand project],
      c.head? = some "ps".toList ∨ c.head? = some "inspect".toList := by
    intro c hc
    rw [List.mem_singleton] at hc
    subst hc
    exact Or.inl rfl
  rw [h1]
  cases hx : exec.Exec s (composePsCommand project) with
  | mk r s1 =>
    cases r with
    | error err => exact ⟨[composePsCommand project], rfl, hps⟩
    | ok psOutput =>
      simp only []
      by_cases hb : TrimSpace psOutput = []
      · simp only [hb, if_true]
        exact ⟨[composePsCommand project], rfl, hps⟩
      · simp only [hb, if_false]
        cases Unmarshal ((SplitN2 '\n' (TrimSpace psOutput)).getD 0 []) with
        | error err => exact ⟨[composePsCommand project], rfl, hps⟩
        | ok c =>
          simp only []
          have h2 : (recording exec).Exec (s1, calls ++ [composePsCommand project])
              (workDirCommand c.ID) =
              ((exec.Exec s1 (workDirCommand c.ID)).1,
                ((exec.Exec s1 (workDirCommand c.ID)).2,
                  (calls ++ [composePsCommand project]) ++ [workDirCommand c.ID])) := rfl
          rw [h2]
          have hboth : ∀ x ∈ [composePsCommand project, workDirCommand c.ID],
              x.head? = some "ps".toList ∨ x.head? = some "inspect".toList := by
            intro x hx'
            rcases List.mem_cons.mp hx' with e | hx''
            · subst e; exact Or.inl rfl
            · rw [List.mem_singleton] at hx''
              subst hx''
              exact Or.inr rfl
          cases hy : exec.Exec s1 (workDirCommand c.ID) with
          | mk r2 s2 =>
            cases r2 with
            | error err =>
              exact ⟨[composePsCommand project, workDirCommand c.ID], by simp, hboth⟩
            | ok workDir =>
              simp only []
              by_cases hw : TrimSpace workDir = []
              · simp only [hw, if_true]
                exact ⟨[composePsCommand project, workDirCommand c.ID], by simp, hboth⟩
              · simp only [hw, if_false]
                exact ⟨[composePsCommand project, workDirCommand c.ID], by simp, hboth⟩

theorem head_ne_compose (c : List GoString)
    (h : c.head? = some "ps".toList ∨ c.head? = some "inspect".toList) :
    c.head? ≠ some "compose".toList := by
  rcases h with h | h
  · rw [h]; decide
  · rw [h]; decide

/-- The function `discoverWorkDir` case by case: its five failures and its success. -/
theorem discoverWorkDir_cases {σ : Type}
    (Unmarshal : GoString → Except GoString composeProjectContainer)
    (Quote : GoString → GoString) (exec : Executor σ) (s : σ) (project : GoString) :
    (∀ err s1, exec.Exec s (composePsCommand project) = (.error err, s1) →
      discoverWorkDir Unmarshal Quote exec s project =
        (.error ("failed to list containers for project ".toList ++ Quote project ++
          ": ".toList ++ err), s1)) ∧
    (∀ psOutput s1, exec.Exec s (composePsCommand project) = (.ok psOutput, s1) →
      (TrimSpace psOutput = [] →
        discoverWorkDir Unmarshal Quote exec s project =
          (.error ("no containers found for project ".toList ++ Quote project ++
            (": cannot determine working directory. Start the project manually first or " ++
              "specify the compose file path").toList), s1)) ∧
      (TrimSpace psOutput ≠ [] →
        (∀ err, Unmarshal ((SplitN2 '\n' (TrimSpace psOutput)).getD 0 []) = .error err →
          discoverWorkDir Unmarshal Quote exec s project =
            (.error ("failed to parse container JSON: ".toList ++ err), s1)) ∧
        (∀ c, Unmarshal ((SplitN2 '\n' (TrimSpace psOutput)).getD 0 []) = .ok c →
          (∀ err s2, exec.Exec s1 (workDirCommand c.ID) = (.error err, s2) →
            discoverWorkDir Unmarshal Quote exec s project =
              (.error ("failed to inspect container ".toList ++ c.ID ++ ": ".toList ++ err),
                s2)) ∧
          (∀ workDir s2, exec.Exec s1 (workDirCommand c.ID) = (.ok workDir, s2) →
            (TrimSpace workDir = [] →
              discoverWorkDir Unmarshal Quote exec s project =
                (.error ("container ".toList ++ c.ID ++
                  " has no com.docker.compose.project.working_dir label".toList), s2)) ∧
            (TrimSpace workDir ≠ [] →
              discoverWorkDir Unmarshal Quote exec s project =
                (.ok (TrimSpace workDir), s2)))))) := by
  refine ⟨?_, ?_⟩
  · intro err s1 h
    unfold discoverWorkDir
    rw [h]
  · intro psOutput s1 h
    refine ⟨?_, ?_⟩
    · intro hb
      unfold discoverWorkDir
      rw [h]
      simp only [hb, if_true]
    · intro hb
      refine ⟨?_, ?_⟩
      · intro err hu
        unfold discoverWorkDir
        rw [h]
        simp only [hb, if_false, hu]
      · intro c hu
        refine ⟨?_, ?_⟩
        · intro err s2 hi
          unfold discoverWorkDir
          rw [h]
          simp only [hb, if_false, hu, hi]
        · intro workDir s2 hi
          refine ⟨?_, ?_⟩
          · intro hw
            unfold discoverWorkDir
            rw [h]
            simp only [hb, if_false, hu, hi, hw, if_true]
          · intro hw
            unfold discoverWorkDir
            rw [h]
            simp only [hb, if_false, hu, hi, hw]

/-- C30. No compose command without a discovered working directory: when `discoverWorkDir`
fails, `handleComposeUp` and `handleComposeDown` return its error and no command recorded
by the executor starts with `compose`; when it succeeds with the directory `d`, the last
command issued is `compose --project-directory d -p Project up -d` followed by the Services
for up, and `compose --project-directory d -p Project down`, followed by `--volumes`
exactly when RemoveVolumes is set, for down, and no command before it starts with
`compose`. -/
theorem C30_compose_needs_workdir {σ : Type}
    (Unmarshal : GoString → Except GoString composeProjectContainer)
    (Quote : GoString → GoString) (exec : Executor σ) (s : σ) (up : composeUpArgs)
    (down : composeDownArgs) :
    (∀ err s1, discoverWorkDir Unmarshal Quote exec s up.Project = (.error err, s1) →
      handleComposeUp Unmarshal Quote exec s up = (.error err, s1) ∧
      (handleComposeUp Unmarshal Quote (recording exec) (s, []) up).1 = .error err ∧
      ∀ c ∈ (handleComposeUp Unmarshal Quote (recording exec) (s, []) up).2.2,
        c.head? ≠ some "compose".toList) ∧
    (∀ err s1, discoverWorkDir Unmarshal Quote exec s down.Project = (.error err, s1) →
      handleComposeDown Unmarshal Quote exec s down = (.error err, s1) ∧
      (handleComposeDown Unmarshal Quote (recording exec) (s, []) down).1 = .error err ∧
      ∀ c ∈ (handleComposeDown Unmarshal Quote (recording exec) (s, []) down).2.2,
        c.head? ≠ some "compose".toList) ∧
    (∀ d s1, discoverWorkDir Unmarshal Quote exec s up.Project = (.ok d, s1) →
      ∃ calls, (handleComposeUp Unmarshal Quote (recording exec) (s, []) up).2.2 =
          calls ++ [["compose".toList, "--project-directory".toList, d, "-p".toList,
            up.Project, "up".toList, "-d".toList] ++ up.Services] ∧
        ∀ c ∈ calls, c.head? ≠ some "compose".toList) ∧
    (∀ d s1, discoverWorkDir Unmarshal Quote exec s down.Project = (.ok d, s1) →
      ∃ calls, (handleComposeDown Unmarshal Quote (recording exec) (s, []) down).2.2 =
          calls ++ [["compose".toList, "--project-directory".toList, d, "-p".toList,
            down.Project, "down".toList] ++
            (if down.RemoveVolumes then ["--volumes".toList] else [])] ∧
        ∀ c ∈ calls, c.head? ≠ some "compose".toList) := by
  refine ⟨?_, ?_, ?_, ?_⟩
  · intro err s1 h
    obtain ⟨extra, hrec, hheads⟩ :=
      discoverWorkDir_recording Unmarshal Quote exec s [] up.Project
    rw [h] at hrec
    refine ⟨?_, ?_, ?_⟩
    · unfold handleComposeUp
      rw [h]
    · unfold handleComposeUp
      rw [hrec]
    · unfold handleComposeUp
      rw [hrec]
      intro c hc
      exact head_ne_compose c (hheads c (by simpa using hc))
  · intro err s1 h
    obtain ⟨extra, hrec, hheads⟩ :=
      discoverWorkDir_recording Unmarshal Quote exec s [] down.Project
    rw [h] at hrec
    refine ⟨?_, ?_, ?_⟩
    · unfold handleComposeDown
      rw [h]
    · unfold handleComposeDown
      rw [hrec]
    · unfold handleComposeDown
      rw [hrec]
      intro c hc
      exact head_ne_compose c (hheads c (by simpa using hc))
  · intro d s1 h
    obtain ⟨extra, hrec, hheads⟩ :=
      discoverWorkDir_recording Unmarshal Quote exec s [] up.Project
    rw [h] at hrec
    refine ⟨extra, ?_, fun c hc => head_ne_compose c (hheads c hc)⟩
    unfold handleComposeUp
    rw [hrec]
    have h2 : (recording exec).ExecCombined (s1, [] ++ extra) (composeUpCommand d up) =
        ((exec.ExecCombined s1 (composeUpCommand d up)).1,
          ((exec.ExecCombined s1 (composeUpCommand d up)).2,
            ([] ++ extra) ++ [composeUpCommand d up])) := rfl
    simp only [h2]
    cases (exec.ExecCombined s1 (composeUpCommand d up)).1 with
    | error err => simp [composeUpCommand]
    | ok output => simp [composeUpCommand]
  · intro d s1 h
    obtain ⟨extra, hrec, hheads⟩ :=
      discoverWorkDir_recording Unmarshal Quote exec s [] down.Project
    rw [h] at hrec
    refine ⟨extra, ?_, fun c hc => head_ne_compose c (hheads c hc)⟩
    unfold handleComposeDown
    rw [hrec]
    have h2 : (recording exec).ExecCombined (s1, [] ++ extra) (composeDownCommand d down) =
        ((exec.ExecCombined s1 (composeDownCommand d down)).1,
          ((exec.ExecCombined s1 (composeDownCommand d down)).2,
            ([] ++ extra) ++ [composeDownCommand d down])) := rfl
    simp only [h2]
    cases (exec.ExecCombined s1 (composeDownCommand d down)).1 with
    | error err => simp [composeDownCommand]
    | ok output => simp [composeDownCommand]

/-- C30 at the inputs of `TestHandleComposeDown_RemoveVolumes` and of
`TestHandleComposeUp_ProjectNotFound`: the three commands recorded for the first, and for
the second the error and the one command of the listing. -/
theorem C30_compose_needs_workdir_witness :
    (handleComposeDown dbLineUnmarshal plainQuote (recording mockExecutor)
        (removeVolumesMock, []) ⟨"myproject".toList, true⟩).2.2 =
      [composePsCommand "myproject".toList, workDirCommand "abc123".toList,
        ["compose".toList, "--project-directory".toList, "/home/user/myproject".toList,
          "-p".toList, "myproject".toList, "down".toList, "--volumes".toList]] ∧
    handleComposeUp dbLineUnmarshal plainQuote (recording mockExecutor)
        (projectNotFoundMock, []) ⟨"ghost".toList, []⟩ =
      (.error ("no containers found for project \"ghost\": cannot determine working " ++
        "directory. Start the project manually first or specify the compose file path").toList,
       ((projectNotFoundMock.exec (composePsCommand "ghost".toList)).2,
        [composePsCommand "ghost".toList])) ∧
    ∀ c ∈ (handleComposeUp dbLineUnmarshal plainQuote (recording mockExecutor)
        (projectNotFoundMock, []) ⟨"ghost".toList, []⟩).2.2,
      c.head? ≠ some "compose".toList := by
  set_option maxRecDepth 100000 in
  exact ⟨rfl, rfl, ((C30_compose_needs_workdir dbLineUnmarshal plainQuote mockExecutor
    projectNotFoundMock ⟨"ghost".toList, []⟩ ⟨"ghost".toList, false⟩).1 _ _ rfl).2.2⟩

end OrbstackMcp
